import Mathlib

/-!
NonMatching coupling: sparsity pattern and coupling mass matrix.

A shallow embedding of `source/non_matching/coupling.cc` (deal.II).

The two public operations `create_coupling_sparsity_pattern` and
`create_coupling_mass_matrix` are embedded as pure functions which take the
caller-owned output container and return it together with the outcome of the
call (`Except Exc Unit`), so that the container is still observable when an
assertion aborts the call.

External collaborators are parameters:

* the background cells are handles of type `Cell` (ordered, value-equal);
* the immersed cells are named by their position in `active_cell_iterators()`;
* `GridTools::compute_point_locations` is a field of `Cache`;
* the `FEValues` objects are records of the values the code reads from them;
* the constraint system and the output container are a record of operations
  (`SparsityOps`, `MatrixOps`).

Scalars (`Matrix::value_type`) are an arbitrary type `K` with `0`, `+`, `*`;
the algebraic laws a theorem needs are stated as instance hypotheses of that
theorem (exact arithmetic, rounding is not modelled).  `Assert` and
`AssertDimension` are modelled as active checks.

Vectors are lists.  A read `v[i]` is `v.getD i d` and a write `v[i] = x` is
`v.set i x`; outside the range of `v` the source has no defined behaviour, and
the embedding reads the default and drops the write.  The theorems which depend
on an access being in range carry the hypothesis that makes it so
(`ValidLocator`, `ValidFE`).  The `unsigned int` products `n_active_c * n_q_points`
and `c * n_q_points` are taken modulo `2 ^ 32`.
-/

namespace NonMatching

/-- Value of `std::numeric_limits<unsigned int>::max()` for 32-bit `unsigned int`. -/
def UINT_MAX : Nat := 4294967295

/-- Modelled from the spec: the library constant `numbers::invalid_unsigned_int`
(the "invalid sentinel" of the global-to-local tables), declared outside
`coupling.cc`; it is the largest `unsigned int`. -/
def invalid_unsigned_int : Nat := UINT_MAX

/-- Handle of an active cell of the background triangulation
(`Triangulation<dim0, spacedim>::active_cell_iterator`); handles are compared
with `==` and ordered with `<` (the order `std::set` uses). -/
abbrev Cell := Nat

/-- Modelled from the spec: `ComponentMask`, declared outside `coupling.cc`:
a boolean selection over the components of a space; the empty mask means
"all selected". -/
structure ComponentMask where
  component_mask : List Bool
deriving DecidableEq, Repr

/-- The call `mask.size()`. -/
def ComponentMask.size (mask : ComponentMask) : Nat := mask.component_mask.length

/-- The constructor `ComponentMask(n, true)`. -/
def ComponentMask.all_true (n : Nat) : ComponentMask := ⟨List.replicate n true⟩

/-- The access `mask[i]`: an empty mask selects every component. -/
def ComponentMask.get (mask : ComponentMask) (i : Nat) : Bool :=
  if mask.component_mask.length = 0 then true else mask.component_mask.getD i false

/-- The data of a `FiniteElement` that the code reads. -/
structure FiniteElement where
  dofs_per_cell : Nat
  n_components : Nat
  /-- The value `system_to_component_index(i).first`. -/
  system_to_component_index : Nat → Nat

/-- The background `DoFHandler<dim0, spacedim>` (`space_dh`). -/
structure SpaceDoFHandler where
  get_fe : FiniteElement
  n_dofs : Nat
  /-- The call `ocell->get_dof_indices(odofs)`. -/
  get_dof_indices : Cell → List Nat
  /-- The call `ocell->is_locally_owned()`. -/
  is_locally_owned : Cell → Bool

/-- The immersed `DoFHandler<dim1, spacedim>` (`immersed_dh`); its active cells
are named by their position in `active_cell_iterators()`. -/
structure ImmersedDoFHandler where
  get_fe : FiniteElement
  n_dofs : Nat
  /-- The value `get_triangulation().n_active_cells()`. -/
  n_active_cells : Nat
  /-- The call `cell->get_dof_indices(dofs)`. -/
  get_dof_indices : Nat → List Nat
  /-- Whether the `dynamic_cast` of the triangulation to
  `parallel::distributed::Triangulation<dim1, spacedim>` is non-null. -/
  is_distributed : Bool

/-- The quadrature `quad` pushed forward by the immersed mapping: what the code
reads from an `FEValues<dim1, spacedim>` with `update_quadrature_points` after
`fe_v.reinit(cell)` on the immersed cell at position `c`. -/
structure QuadraturePoints (P : Type) where
  /-- The value `quad.size()`. -/
  n_q_points : Nat
  /-- The call `fe_v.get_quadrature_points()` on cell `c`. -/
  get_quadrature_points : Nat → List P

/-- What the code reads from `fe_v`, the `FEValues<dim1, spacedim>` built from
the immersed mapping, the immersed element and `quad` with
`update_JxW_values | update_quadrature_points | update_values`, after
`fe_v.reinit(cell)` on the immersed cell at position `c`. -/
structure ImmersedFEValues (P K : Type) extends QuadraturePoints P where
  /-- The call `fe_v.shape_value(j, q)` on cell `c`. -/
  shape_value : Nat → Nat → Nat → K
  /-- The call `fe_v.JxW(q)` on cell `c`. -/
  JxW : Nat → Nat → K

/-- Result of `GridTools::compute_point_locations`: the components
`std::get<0>`, `std::get<1>` and `std::get<2>` of the returned tuple. -/
structure PointLocations (R : Type) where
  cells : List Cell
  qpoints : List (List R)
  maps : List (List Nat)

/-- The `GridTools::Cache<dim0, spacedim>` of the background mesh, used as the
point locator `GridTools::compute_point_locations(cache, all_points)`. -/
structure Cache (P R : Type) where
  compute_point_locations : List P → PointLocations R

/-- What the code reads from `o_fe_v`, the `FEValues<dim0, spacedim>` built from
`cache.get_mapping()`, the background element and the points `qps`, after
`o_fe_v.reinit(ocell)`: the value `o_fe_v.shape_value(i, oq)` as a function of
`ocell`, `qps`, `i` and `oq`; `o_fe_v.n_quadrature_points` is `qps.size()`. -/
structure SpaceFEValues (R K : Type) where
  shape_value : Cell → List R → Nat → Nat → K

/-- Exceptions raised by the assertions. -/
inductive Exc where
  | ExcDimensionMismatch (a b : Nat)
  | ExcNotImplemented
deriving DecidableEq, Repr

/-- The output sparsity pattern together with the constraint system. -/
structure SparsityOps (S : Type) where
  n_rows : S → Nat
  n_cols : S → Nat
  /-- The call `constraints.add_entries_local_to_global(rows, cols, sparsity)`. -/
  add_entries_local_to_global : List Nat → List Nat → S → S

/-- A `FullMatrix`: its entries `cell_matrix(i, j)`. -/
abbrev FullMatrix (K : Type) := Nat → Nat → K

/-- The output matrix together with the constraint system. -/
structure MatrixOps (M K : Type) where
  m : M → Nat
  n : M → Nat
  /-- The call `constraints.distribute_local_to_global(cell_matrix, rows, cols, matrix)`. -/
  distribute_local_to_global : FullMatrix K → List Nat → List Nat → M → M

/-! ## Components and global-to-local tables -/

/-- The expression `comps.size() == 0 ? ComponentMask(n_components, true) : comps`. -/
def effective_mask (comps : ComponentMask) (n_components : Nat) : ComponentMask :=
  if comps.size = 0 then ComponentMask.all_true n_components else comps

/-- The loop `for (i = 0, j = 0; i < gtl.size(); ++i) if (c[i]) gtl[i] = j++;`
on the table `gtl(n_components, numbers::invalid_unsigned_int)`; the state is
the table and the counter `j`. -/
def global_to_local_loop (n_components : Nat) (c : ComponentMask) : List Nat × Nat :=
  (List.range n_components).foldl
    (fun st i => if c.get i then (st.1.set i st.2, st.2 + 1) else st)
    (List.replicate n_components invalid_unsigned_int, 0)

/-- The table `space_gtl` / `immersed_gtl`. -/
def global_to_local (n_components : Nat) (c : ComponentMask) : List Nat :=
  (global_to_local_loop n_components c).1

/-! ## Point batch -/

/-- The call `std::copy(x_points.begin(), x_points.end(), all_points.begin() + offset)`. -/
def copy_points {P : Type} [Inhabited P] (x_points : List P) (offset : Nat)
    (all_points : List P) : List P :=
  (List.range x_points.length).foldl
    (fun ap k => ap.set (offset + k) (x_points.getD k default)) all_points

/-- The block "Collecting all points": `all_points(n_active_c * n_q_points)`
(an `unsigned int` product) filled cell by cell at offset `c * n_q_points`. -/
def collect_all_points {P : Type} [Inhabited P] (fe_v : QuadraturePoints P)
    (n_active_c : Nat) : List P :=
  (List.range n_active_c).foldl
    (fun ap c =>
      copy_points (fe_v.get_quadrature_points c) ((c * fe_v.n_q_points) % 2 ^ 32) ap)
    (List.replicate ((n_active_c * fe_v.n_q_points) % 2 ^ 32) default)

/-! ## Compact correspondence (`cell_sets`) -/

/-- The call `s.insert(b)` on a `std::set` kept as a strictly increasing list. -/
def set_insert (b : Cell) : List Cell → List Cell
  | [] => [b]
  | x :: xs =>
    if b < x then b :: x :: xs
    else if b = x then x :: xs
    else x :: set_insert b xs

/-- The body of the loop `for (const unsigned int idx : maps[i])`; the state is
`cell_sets` and `last_id`. -/
def cluster_step (n_q_points : Nat) (cell : Cell) (st : List (List Cell) × Nat)
    (idx : Nat) : List (List Cell) × Nat :=
  let cell_id := idx / n_q_points
  if st.2 ≠ cell_id then
    (st.1.set cell_id (set_insert cell (st.1.getD cell_id [])), cell_id)
  else st

/-- One pass of the outer loop over `maps`: `last_id` starts at
`std::numeric_limits<unsigned int>::max()`. -/
def cluster_cell (n_q_points : Nat) (cell : Cell) (mp : List Nat)
    (cell_sets : List (List Cell)) : List (List Cell) :=
  (mp.foldl (cluster_step n_q_points cell) (cell_sets, UINT_MAX)).1

/-- The loop `for (unsigned int i = 0; i < maps.size(); ++i)` building
`cell_sets(n_active_c)`. -/
def build_cell_sets (n_q_points n_active_c : Nat) (all_cells : List Cell)
    (maps : List (List Nat)) : List (List Cell) :=
  (List.range maps.length).foldl
    (fun cs i => cluster_cell n_q_points (all_cells.getD i default) (maps.getD i []) cs)
    (List.replicate n_active_c [])

/-! ## Expanded correspondence (buckets) -/

/-- The three containers `cell_container`, `qpoints_container`, `maps_container`. -/
structure Containers (R : Type) where
  cell_container : List (List Cell)
  qpoints_container : List (List (List R))
  maps_container : List (List (List Nat))

/-- The body of the loop over `j` in the bucket-building loop, for the
background cell `all_cells[o]`, the reference point `all_qpoints[o][j]` and the
flat point index `all_maps[o][j]`. -/
def bucket_step {R : Type} (n_q_points : Nat) (cell : Cell) (qpoint : R) (idx : Nat)
    (st : Containers R) : Containers R :=
  let cell_id := idx / n_q_points
  let n_pt := idx % n_q_points
  let cs := st.cell_container.getD cell_id []
  let qs := st.qpoints_container.getD cell_id []
  let ms := st.maps_container.getD cell_id []
  let open_bucket : Containers R :=
    { cell_container := st.cell_container.set cell_id (cs ++ [cell])
      qpoints_container := st.qpoints_container.set cell_id (qs ++ [[qpoint]])
      maps_container := st.maps_container.set cell_id (ms ++ [[n_pt]]) }
  let append_at (qpos mpos : Nat) : Containers R :=
    { cell_container := st.cell_container
      qpoints_container :=
        st.qpoints_container.set cell_id (qs.set qpos (qs.getD qpos [] ++ [qpoint]))
      maps_container :=
        st.maps_container.set cell_id (ms.set mpos (ms.getD mpos [] ++ [n_pt])) }
  if cs.isEmpty then open_bucket
  else if cs.getLast? = some cell then append_at (qs.length - 1) (ms.length - 1)
  else
    let cell_p := cs.dropLast.indexOf cell
    if cell_p = cs.length - 1 then open_bucket
    else append_at cell_p cell_p

/-- The loop `for (unsigned int j = 0; j < all_maps[o].size(); ++j)`. -/
def bucket_cell {R : Type} [Inhabited R] (n_q_points : Nat) (cell : Cell)
    (qpoints : List R) (mp : List Nat) (st : Containers R) : Containers R :=
  (List.range mp.length).foldl
    (fun s j => bucket_step n_q_points cell (qpoints.getD j default) (mp.getD j 0) s) st

/-- The loop `for (unsigned int o = 0; o < all_cells.size(); ++o)` building the
three containers, each of size `n_active_c`. -/
def build_containers {R : Type} [Inhabited R] (n_q_points n_active_c : Nat)
    (cpm : PointLocations R) : Containers R :=
  (List.range cpm.cells.length).foldl
    (fun s o => bucket_cell n_q_points (cpm.cells.getD o default) (cpm.qpoints.getD o [])
      (cpm.maps.getD o []) s)
    { cell_container := List.replicate n_active_c []
      qpoints_container := List.replicate n_active_c []
      maps_container := List.replicate n_active_c [] }

/-! ## Sparsity builder -/

/-- The loop `for (const auto &cell_c : cells)` of the sparsity builder for the
immersed cell with dof indices `dofs`. -/
def sparsity_cell_loop {S : Type} (ops : SparsityOps S) (space_dh : SpaceDoFHandler)
    (dofs : List Nat) (cells : List Cell) (sparsity : S) : S :=
  cells.foldl
    (fun sp cell_c =>
      if space_dh.is_locally_owned cell_c then
        ops.add_entries_local_to_global (space_dh.get_dof_indices cell_c) dofs sp
      else sp)
    sparsity

/-- The loop over `immersed_dh.active_cell_iterators()` of the sparsity builder. -/
def sparsity_loop {S : Type} (ops : SparsityOps S) (space_dh : SpaceDoFHandler)
    (immersed_dh : ImmersedDoFHandler) (cell_sets : List (List Cell)) (sparsity : S) : S :=
  (List.range immersed_dh.n_active_cells).foldl
    (fun sp i =>
      sparsity_cell_loop ops space_dh (immersed_dh.get_dof_indices i)
        (cell_sets.getD i []) sp)
    sparsity

/-- The function `create_coupling_sparsity_pattern` (the overload taking the
cache).  Returns the outcome of the call and the state of `sparsity` after it. -/
def create_coupling_sparsity_pattern {P R S : Type} [Inhabited P]
    (ops : SparsityOps S) (cache : Cache P R) (space_dh : SpaceDoFHandler)
    (immersed_dh : ImmersedDoFHandler) (quad : QuadraturePoints P) (sparsity : S)
    (space_comps immersed_comps : ComponentMask) : Except Exc Unit × S :=
  if ops.n_rows sparsity ≠ space_dh.n_dofs then
    (.error (.ExcDimensionMismatch (ops.n_rows sparsity) space_dh.n_dofs), sparsity)
  else if ops.n_cols sparsity ≠ immersed_dh.n_dofs then
    (.error (.ExcDimensionMismatch (ops.n_cols sparsity) immersed_dh.n_dofs), sparsity)
  else if immersed_dh.is_distributed then
    (.error .ExcNotImplemented, sparsity)
  else
    let space_fe := space_dh.get_fe
    let immersed_fe := immersed_dh.get_fe
    let space_c := effective_mask space_comps space_fe.n_components
    let immersed_c := effective_mask immersed_comps immersed_fe.n_components
    if space_c.size ≠ space_fe.n_components then
      (.error (.ExcDimensionMismatch space_c.size space_fe.n_components), sparsity)
    else if immersed_c.size ≠ immersed_fe.n_components then
      (.error (.ExcDimensionMismatch immersed_c.size immersed_fe.n_components), sparsity)
    else
      -- computed by the source and never read afterwards
      let _space_gtl := global_to_local space_fe.n_components space_c
      let _immersed_gtl := global_to_local immersed_fe.n_components immersed_c
      let n_q_points := quad.n_q_points
      let n_active_c := immersed_dh.n_active_cells
      let all_points := collect_all_points quad n_active_c
      let cpm := cache.compute_point_locations all_points
      let cell_sets := build_cell_sets n_q_points n_active_c cpm.cells cpm.maps
      (.ok (), sparsity_loop ops space_dh immersed_dh cell_sets sparsity)

/-! ## Coupling matrix assembler -/

/-- The statement `cell_matrix(i, j) += v`. -/
def FullMatrix.add_entry {K : Type} [Add K] (cell_matrix : FullMatrix K) (i j : Nat)
    (v : K) : FullMatrix K :=
  fun a b => if a = i ∧ b = j then cell_matrix a b + v else cell_matrix a b

/-- The reset `cell_matrix = typename Matrix::value_type()` followed by the three
nested loops over `i`, `j`, `oq` for one (immersed cell, background cell) pair:
`shape_value j q` is `fe_v.shape_value(j, q)`, `JxW q` is `fe_v.JxW(q)`,
`o_shape_value i oq` is `o_fe_v.shape_value(i, oq)`, `n_quadrature_points` is
`o_fe_v.n_quadrature_points` and `ids` is `maps[c]`. -/
def assemble_cell_matrix {K : Type} [Zero K] [Add K] [Mul K]
    (space_fe immersed_fe : FiniteElement) (space_gtl immersed_gtl : List Nat)
    (shape_value : Nat → Nat → K) (JxW : Nat → K) (o_shape_value : Nat → Nat → K)
    (n_quadrature_points : Nat) (ids : List Nat) : FullMatrix K :=
  (List.range space_fe.dofs_per_cell).foldl
    (fun cm i =>
      let comp_i := space_fe.system_to_component_index i
      if space_gtl.getD comp_i invalid_unsigned_int ≠ invalid_unsigned_int then
        (List.range immersed_fe.dofs_per_cell).foldl
          (fun cm j =>
            let comp_j := immersed_fe.system_to_component_index j
            if space_gtl.getD comp_i invalid_unsigned_int
                = immersed_gtl.getD comp_j invalid_unsigned_int then
              (List.range n_quadrature_points).foldl
                (fun cm oq =>
                  let q := ids.getD oq 0
                  cm.add_entry i j (shape_value j q * o_shape_value i oq * JxW q))
                cm
            else cm)
          cm
      else cm)
    (fun _ _ => 0)

/-- The local block of the immersed cell at position `j` and its bucket number
`c`, as handed to `distribute_local_to_global`. -/
def local_block {P R K : Type} [Zero K] [Add K] [Mul K]
    (space_dh : SpaceDoFHandler) (immersed_dh : ImmersedDoFHandler)
    (fe_v : ImmersedFEValues P K) (o_fe_v : SpaceFEValues R K)
    (space_gtl immersed_gtl : List Nat) (j : Nat) (ocell : Cell) (qps : List R)
    (ids : List Nat) : FullMatrix K :=
  assemble_cell_matrix space_dh.get_fe immersed_dh.get_fe space_gtl immersed_gtl
    (fe_v.shape_value j) (fe_v.JxW j) (o_fe_v.shape_value ocell qps) qps.length ids

/-- The loop `for (unsigned int c = 0; c < cells.size(); ++c)` of the assembler
for the immersed cell at position `j`. -/
def assembly_cell_loop {P R M K : Type} [Zero K] [Add K] [Mul K]
    (ops : MatrixOps M K) (space_dh : SpaceDoFHandler) (immersed_dh : ImmersedDoFHandler)
    (fe_v : ImmersedFEValues P K) (o_fe_v : SpaceFEValues R K)
    (space_gtl immersed_gtl : List Nat) (j : Nat) (cells : List Cell)
    (qpoints : List (List R)) (maps : List (List Nat)) (matrix : M) : M :=
  (List.range cells.length).foldl
    (fun mat c =>
      let ocell := cells.getD c default
      if space_dh.is_locally_owned ocell then
        let qps := qpoints.getD c []
        let ids := maps.getD c []
        ops.distribute_local_to_global
          (local_block space_dh immersed_dh fe_v o_fe_v space_gtl immersed_gtl j ocell qps ids)
          (space_dh.get_dof_indices ocell) (immersed_dh.get_dof_indices j) mat
      else mat)
    matrix

/-- The loop `for (unsigned int j = 0; cell != endc; ++cell, ++j)` of the assembler. -/
def assembly_loop {P R M K : Type} [Zero K] [Add K] [Mul K]
    (ops : MatrixOps M K) (space_dh : SpaceDoFHandler) (immersed_dh : ImmersedDoFHandler)
    (fe_v : ImmersedFEValues P K) (o_fe_v : SpaceFEValues R K)
    (space_gtl immersed_gtl : List Nat) (st : Containers R) (matrix : M) : M :=
  (List.range immersed_dh.n_active_cells).foldl
    (fun mat j =>
      assembly_cell_loop ops space_dh immersed_dh fe_v o_fe_v space_gtl immersed_gtl j
        (st.cell_container.getD j []) (st.qpoints_container.getD j [])
        (st.maps_container.getD j []) mat)
    matrix

/-- The function `create_coupling_mass_matrix` (the overload taking the cache).
Returns the outcome of the call and the state of `matrix` after it. -/
def create_coupling_mass_matrix {P R M K : Type} [Inhabited P] [Inhabited R]
    [Zero K] [Add K] [Mul K]
    (ops : MatrixOps M K) (cache : Cache P R) (o_fe_v : SpaceFEValues R K)
    (space_dh : SpaceDoFHandler) (immersed_dh : ImmersedDoFHandler)
    (fe_v : ImmersedFEValues P K) (matrix : M)
    (space_comps immersed_comps : ComponentMask) : Except Exc Unit × M :=
  if ops.m matrix ≠ space_dh.n_dofs then
    (.error (.ExcDimensionMismatch (ops.m matrix) space_dh.n_dofs), matrix)
  else if ops.n matrix ≠ immersed_dh.n_dofs then
    (.error (.ExcDimensionMismatch (ops.n matrix) immersed_dh.n_dofs), matrix)
  else if immersed_dh.is_distributed then
    (.error .ExcNotImplemented, matrix)
  else
    let space_fe := space_dh.get_fe
    let immersed_fe := immersed_dh.get_fe
    let space_c := effective_mask space_comps space_fe.n_components
    let immersed_c := effective_mask immersed_comps immersed_fe.n_components
    if space_c.size ≠ space_fe.n_components then
      (.error (.ExcDimensionMismatch space_c.size space_fe.n_components), matrix)
    else if immersed_c.size ≠ immersed_fe.n_components then
      (.error (.ExcDimensionMismatch immersed_c.size immersed_fe.n_components), matrix)
    else
      let space_gtl := global_to_local space_fe.n_components space_c
      let immersed_gtl := global_to_local immersed_fe.n_components immersed_c
      let n_q_points := fe_v.n_q_points
      let n_active_c := immersed_dh.n_active_cells
      let all_points := collect_all_points fe_v.toQuadraturePoints n_active_c
      let cpm := cache.compute_point_locations all_points
      let st := build_containers n_q_points n_active_c cpm
      (.ok (), assembly_loop ops space_dh immersed_dh fe_v o_fe_v space_gtl immersed_gtl
        st matrix)

/-! ## Constraint systems without constraints -/

/-- Modelled from the spec: the output `Sparsity` type, declared outside
`coupling.cc`: a relation over (background dof, immersed dof) with its
dimensions; an entry is present when it occurs in `entries`. -/
structure SparsityPattern where
  n_rows : Nat
  n_cols : Nat
  entries : List (Nat × Nat)
deriving DecidableEq, Repr

/-- Modelled from the spec: `AffineConstraints::add_entries_local_to_global`,
declared outside `coupling.cc`, for a constraint system that registers every
(row, column) pair it is given. -/
def registering_constraints : SparsityOps SparsityPattern where
  n_rows sp := sp.n_rows
  n_cols sp := sp.n_cols
  add_entries_local_to_global rows cols sp :=
    { sp with entries := sp.entries ++ rows.product cols }

/-- Modelled from the spec: the output `Matrix` type, declared outside
`coupling.cc`: a numeric relation of shape `m × n`. -/
structure GlobalMatrix (K : Type) where
  m : Nat
  n : Nat
  el : Nat → Nat → K

/-- The call `matrix.add(r, s, v)`. -/
def GlobalMatrix.add {K : Type} [Add K] (A : GlobalMatrix K) (r s : Nat) (v : K) :
    GlobalMatrix K :=
  { A with el := fun a b => if a = r ∧ b = s then A.el a b + v else A.el a b }

/-- The zero matrix of shape `m × n`. -/
def GlobalMatrix.zero {K : Type} [Zero K] (m n : Nat) : GlobalMatrix K :=
  { m := m, n := n, el := fun _ _ => 0 }

/-- Modelled from the spec: `AffineConstraints::distribute_local_to_global`,
declared outside `coupling.cc`, for a constraint system without constraints:
it adds `block(i, j)` at `(row_dofs[i], col_dofs[j])`. -/
def unconstrained {K : Type} [Add K] : MatrixOps (GlobalMatrix K) K where
  m A := A.m
  n A := A.n
  distribute_local_to_global block rows cols A :=
    (List.range rows.length).foldl
      (fun A i =>
        (List.range cols.length).foldl
          (fun A j => A.add (rows.getD i 0) (cols.getD j 0) (block i j)) A)
      A

/-! ## Specification-side definitions -/

/-- The assertions at the head of `create_coupling_sparsity_pattern` all hold. -/
def sparsity_checks_pass {S : Type} (ops : SparsityOps S) (space_dh : SpaceDoFHandler)
    (immersed_dh : ImmersedDoFHandler) (sparsity : S)
    (space_comps immersed_comps : ComponentMask) : Prop :=
  ops.n_rows sparsity = space_dh.n_dofs ∧ ops.n_cols sparsity = immersed_dh.n_dofs ∧
  immersed_dh.is_distributed = false ∧
  (effective_mask space_comps space_dh.get_fe.n_components).size
    = space_dh.get_fe.n_components ∧
  (effective_mask immersed_comps immersed_dh.get_fe.n_components).size
    = immersed_dh.get_fe.n_components

instance {S : Type} (ops : SparsityOps S) (space_dh : SpaceDoFHandler)
    (immersed_dh : ImmersedDoFHandler) (sparsity : S)
    (space_comps immersed_comps : ComponentMask) :
    Decidable (sparsity_checks_pass ops space_dh immersed_dh sparsity space_comps
      immersed_comps) := by
  unfold sparsity_checks_pass; infer_instance

/-- The assertions at the head of `create_coupling_mass_matrix` all hold. -/
def matrix_checks_pass {M K : Type} (ops : MatrixOps M K) (space_dh : SpaceDoFHandler)
    (immersed_dh : ImmersedDoFHandler) (matrix : M)
    (space_comps immersed_comps : ComponentMask) : Prop :=
  ops.m matrix = space_dh.n_dofs ∧ ops.n matrix = immersed_dh.n_dofs ∧
  immersed_dh.is_distributed = false ∧
  (effective_mask space_comps space_dh.get_fe.n_components).size
    = space_dh.get_fe.n_components ∧
  (effective_mask immersed_comps immersed_dh.get_fe.n_components).size
    = immersed_dh.get_fe.n_components

instance {M K : Type} (ops : MatrixOps M K) (space_dh : SpaceDoFHandler)
    (immersed_dh : ImmersedDoFHandler) (matrix : M)
    (space_comps immersed_comps : ComponentMask) :
    Decidable (matrix_checks_pass ops space_dh immersed_dh matrix space_comps
      immersed_comps) := by
  unfold matrix_checks_pass; infer_instance

/-- Contract of the locator on a batch of `n_points` points: the three returned
vectors run in parallel, and every returned flat index is the index of a point
of the batch. -/
def ValidLocations {R : Type} (n_points : Nat) (cpm : PointLocations R) : Prop :=
  cpm.qpoints.length = cpm.cells.length ∧ cpm.maps.length = cpm.cells.length ∧
  (∀ o < cpm.cells.length, (cpm.qpoints.getD o []).length = (cpm.maps.getD o []).length) ∧
  (∀ mp ∈ cpm.maps, ∀ idx ∈ mp, idx < n_points)

/-- The locator result of a call: `compute_point_locations(cache, all_points)`. -/
def located {P R : Type} [Inhabited P] (cache : Cache P R) (quad : QuadraturePoints P)
    (immersed_dh : ImmersedDoFHandler) : PointLocations R :=
  cache.compute_point_locations (collect_all_points quad immersed_dh.n_active_cells)

/-- The background cell `b` contains a located quadrature point of the immersed
cell at position `c`: some flat index `idx` listed for `b` has `idx div n_q = c`. -/
def has_located_point {R : Type} (n_q_points : Nat) (cpm : PointLocations R)
    (b : Cell) (c : Nat) : Prop :=
  ∃ o, o < cpm.maps.length ∧ cpm.cells.getD o default = b ∧
    ∃ idx ∈ cpm.maps.getD o [], idx / n_q_points = c

/-! ## Definitions used to state and prove the properties -/

/-- The calls `add_entries_local_to_global(odofs(b), dofs(i), sparsity)` of the
sparsity builder, in order, each named by its background cell `b` and the
position `i` of its immersed cell. -/
def sparsity_calls (space_dh : SpaceDoFHandler) (n_active_c : Nat)
    (cell_sets : List (List Cell)) : List (Cell × Nat) :=
  (List.range n_active_c).flatMap
    (fun i => ((cell_sets.getD i []).filter space_dh.is_locally_owned).map (fun b => (b, i)))

/-- A bucket of the expanded correspondence: the immersed cell position `j`, the
background cell `ocell = cells[c]`, its matched reference points `qps = qpoints[c]`
and their local quadrature indices `ids = maps[c]`. -/
structure Bucket (R : Type) where
  j : Nat
  ocell : Cell
  qps : List R
  ids : List Nat

/-- The buckets for which the assembler calls `distribute_local_to_global`, in
order: every immersed cell `j`, every bucket `c` of it whose background cell is
locally owned. -/
def owned_buckets {R : Type} (space_dh : SpaceDoFHandler) (n_active_c : Nat)
    (st : Containers R) : List (Bucket R) :=
  (List.range n_active_c).flatMap
    (fun j =>
      ((List.range (st.cell_container.getD j []).length).filter
        (fun c => space_dh.is_locally_owned ((st.cell_container.getD j []).getD c default))).map
        (fun c =>
          { j := j
            ocell := (st.cell_container.getD j []).getD c default
            qps := (st.qpoints_container.getD j []).getD c []
            ids := (st.maps_container.getD j []).getD c [] }))

/-- The action of `bucket_step` on the three bucket lists of one immersed cell. -/
def bucket_local {R : Type} (cell : Cell) (qpoint : R) (n_pt : Nat)
    (L : List Cell × List (List R) × List (List Nat)) :
    List Cell × List (List R) × List (List Nat) :=
  if L.1.isEmpty then (L.1 ++ [cell], L.2.1 ++ [[qpoint]], L.2.2 ++ [[n_pt]])
  else if L.1.getLast? = some cell then
    (L.1, L.2.1.set (L.2.1.length - 1) (L.2.1.getD (L.2.1.length - 1) [] ++ [qpoint]),
      L.2.2.set (L.2.2.length - 1) (L.2.2.getD (L.2.2.length - 1) [] ++ [n_pt]))
  else if L.1.dropLast.indexOf cell = L.1.length - 1 then
    (L.1 ++ [cell], L.2.1 ++ [[qpoint]], L.2.2 ++ [[n_pt]])
  else
    (L.1, L.2.1.set (L.1.dropLast.indexOf cell)
        (L.2.1.getD (L.1.dropLast.indexOf cell) [] ++ [qpoint]),
      L.2.2.set (L.1.dropLast.indexOf cell)
        (L.2.2.getD (L.1.dropLast.indexOf cell) [] ++ [n_pt]))

/-- The three bucket lists of the immersed cell at position `c`. -/
def Containers.bucket_lists {R : Type} (st : Containers R) (c : Nat) :
    List Cell × List (List R) × List (List Nat) :=
  (st.cell_container.getD c [], st.qpoints_container.getD c [], st.maps_container.getD c [])

/-- Invariant of the bucket lists of one immersed cell after the located points
`pr` (background cell, reference point, local quadrature index) of that cell
have been processed: the lists run in parallel, the handles are pairwise
distinct, every processed point has its bucket, and bucket `k` holds exactly the
processed points of its background cell, in order. -/
def BucketInv {R : Type} (pr : List (Cell × R × Nat))
    (L : List Cell × List (List R) × List (List Nat)) : Prop :=
  L.2.1.length = L.1.length ∧ L.2.2.length = L.1.length ∧ L.1.Nodup ∧
  (∀ t ∈ pr, t.1 ∈ L.1) ∧
  ∀ k, k < L.1.length →
    L.2.1.getD k [] = (pr.filter (fun t => t.1 == L.1.getD k 0)).map (fun t => t.2.1) ∧
    L.2.2.getD k [] = (pr.filter (fun t => t.1 == L.1.getD k 0)).map (fun t => t.2.2) ∧
    ∃ t ∈ pr, t.1 = L.1.getD k 0

/-- The located points in the order the bucket-building loop visits them:
(background cell, reference point, flat point index). -/
def located_stream {R : Type} [Inhabited R] (cpm : PointLocations R) : List (Cell × R × Nat) :=
  (List.range cpm.cells.length).flatMap
    (fun o =>
      (List.range (cpm.maps.getD o []).length).map
        (fun j =>
          (cpm.cells.getD o default, (cpm.qpoints.getD o []).getD j default,
            (cpm.maps.getD o []).getD j 0)))

/-- The located points of the immersed cell at position `c`, each with its local
quadrature index `idx mod n_q`. -/
def stream_of_cell {R : Type} (n_q : Nat) (c : Nat) (pr : List (Cell × R × Nat)) :
    List (Cell × R × Nat) :=
  (pr.filter (fun t => t.2.2 / n_q == c)).map (fun t => (t.1, t.2.1, t.2.2 % n_q))

/-- The three containers as constructed: `n_active_c` empty lists each. -/
def empty_containers (R : Type) (n_active_c : Nat) : Containers R :=
  { cell_container := List.replicate n_active_c []
    qpoints_container := List.replicate n_active_c []
    maps_container := List.replicate n_active_c [] }

/-- Invariant of the three containers after the located points `pr` have been
processed. -/
def ContainersInv {R : Type} (n_q n_active_c : Nat) (pr : List (Cell × R × Nat))
    (st : Containers R) : Prop :=
  st.cell_container.length = n_active_c ∧ st.qpoints_container.length = n_active_c ∧
  st.maps_container.length = n_active_c ∧
  ∀ c, c < n_active_c → BucketInv (stream_of_cell n_q c pr) (st.bucket_lists c)

/-- The locator of a call respects its contract on the batch it was given. -/
def ValidLocator {P R : Type} [Inhabited P] (cache : Cache P R) (quad : QuadraturePoints P)
    (immersed_dh : ImmersedDoFHandler) : Prop :=
  ValidLocations (collect_all_points quad immersed_dh.n_active_cells).length
    (located cache quad immersed_dh)

instance {R : Type} (n_points : Nat) (cpm : PointLocations R) :
    Decidable (ValidLocations n_points cpm) := by
  unfold ValidLocations; infer_instance

instance {P R : Type} [Inhabited P] (cache : Cache P R) (quad : QuadraturePoints P)
    (immersed_dh : ImmersedDoFHandler) : Decidable (ValidLocator cache quad immersed_dh) := by
  unfold ValidLocator; infer_instance

namespace Example

/-- A two-component element with one dof per component. -/
def fe : FiniteElement := ⟨2, 2, fun i => i⟩

/-- A background space with cells `0` and `1` sharing dof `1`; cell `1` is a ghost. -/
def space_dh : SpaceDoFHandler := ⟨fe, 3, fun b => [b, b + 1], fun b => decide (b = 0)⟩

/-- An immersed space with two cells sharing dof `1`. -/
def immersed_dh : ImmersedDoFHandler := ⟨fe, 3, 2, fun c => [c, c + 1], false⟩

/-- Two quadrature points per immersed cell; shape values and weights are small integers. -/
def fe_v : ImmersedFEValues Nat Int :=
  ⟨⟨2, fun c => [10 * c, 10 * c + 1]⟩, fun _ j q => (j : Int) + q + 1, fun _ q => (q : Int) + 1⟩

/-- Background shape values at the matched points. -/
def o_fe_v : SpaceFEValues Nat Int := ⟨fun b _ i oq => (b : Int) + i + oq + 1⟩

/-- A locator placing points `0, 1, 2` in cell `0`, point `3` in cell `1`. -/
def cache : Cache Nat Nat := ⟨fun _ => ⟨[0, 1], [[100, 101, 102], [103]], [[0, 1, 2], [3]]⟩⟩

/-- A locator which finds no point. -/
def cache_outside : Cache Nat Nat := ⟨fun _ => ⟨[], [], []⟩⟩

end Example

/-- The compacted index of component `comp` under the mask `c`: the number of
selected components with index smaller than `comp`. -/
def compacted_index (c : ComponentMask) (comp : Nat) : Nat :=
  ((List.range comp).filter (fun k => c.get k)).length

/-- Invariants of a `FiniteElement`: `n_components` is an `unsigned int`, and
the component of every local dof is a component of the element. -/
def ValidFE (fe : FiniteElement) : Prop :=
  fe.n_components ≤ UINT_MAX ∧
  ∀ i, i < fe.dofs_per_cell → fe.system_to_component_index i < fe.n_components

instance (fe : FiniteElement) : Decidable (ValidFE fe) := by
  unfold ValidFE; infer_instance

/-- The Component Coupling Map: the local background dof `i` and the local
immersed dof `j` couple when both their components are selected and have equal
compacted indices. -/
def coupled (space_fe immersed_fe : FiniteElement) (space_c immersed_c : ComponentMask)
    (i j : Nat) : Prop :=
  space_c.get (space_fe.system_to_component_index i) = true ∧
  immersed_c.get (immersed_fe.system_to_component_index j) = true ∧
  compacted_index space_c (space_fe.system_to_component_index i)
    = compacted_index immersed_c (immersed_fe.system_to_component_index j)

instance (space_fe immersed_fe : FiniteElement) (space_c immersed_c : ComponentMask)
    (i j : Nat) : Decidable (coupled space_fe immersed_fe space_c immersed_c i j) := by
  unfold coupled; infer_instance

/-- The local block as the specification states it: for a coupled pair `(i, j)`
the sum over the matched points `oq` of the bucket of
`immersed_shape(j, ids[oq]) * background_shape(i, oq) * JxW(ids[oq])`, and zero
for every other pair. -/
def coupling_block {P R K : Type} [Zero K] [Add K] [Mul K]
    (space_dh : SpaceDoFHandler) (immersed_dh : ImmersedDoFHandler)
    (fe_v : ImmersedFEValues P K) (o_fe_v : SpaceFEValues R K)
    (space_c immersed_c : ComponentMask) (bk : Bucket R) : FullMatrix K :=
  fun i j =>
    if i < space_dh.get_fe.dofs_per_cell ∧ j < immersed_dh.get_fe.dofs_per_cell ∧
        coupled space_dh.get_fe immersed_dh.get_fe space_c immersed_c i j then
      ((List.range bk.qps.length).map
        (fun oq => fe_v.shape_value bk.j j (bk.ids.getD oq 0)
          * o_fe_v.shape_value bk.ocell bk.qps i oq * fe_v.JxW bk.j (bk.ids.getD oq 0))).sum
    else 0

/-- What `distribute_local_to_global` without constraints adds at the global
position `(r, s)`: the sum of `block(i, j)` over the local pairs `(i, j)` with
`rows[i] = r` and `cols[j] = s`. -/
def contribution {K : Type} [Zero K] [Add K] (block : FullMatrix K) (rows cols : List Nat)
    (r s : Nat) : K :=
  ((List.range rows.length).map
    (fun i => ((List.range cols.length).map
      (fun j => if rows.getD i 0 = r ∧ cols.getD j 0 = s then block i j else 0)).sum)).sum

/-- Toggling the mask bit of component `c`. -/
def ComponentMask.toggle (mask : ComponentMask) (c : Nat) : ComponentMask :=
  ⟨mask.component_mask.set c (!(mask.component_mask.getD c false))⟩

namespace Example

/-- One background cell with the two dofs `0` (component 0) and `1` (component 1). -/
def one_space_dh : SpaceDoFHandler := ⟨fe, 2, fun _ => [0, 1], fun _ => true⟩

/-- One immersed cell with the two dofs `0` (component 0) and `1` (component 1). -/
def one_immersed_dh : ImmersedDoFHandler := ⟨fe, 2, 1, fun _ => [0, 1], false⟩

/-- One quadrature point, unit shape values and unit weight. -/
def one_fe_v : ImmersedFEValues Nat Int := ⟨⟨1, fun _ => [0]⟩, fun _ _ _ => 1, fun _ _ => 1⟩

/-- Unit background shape values. -/
def one_o_fe_v : SpaceFEValues Nat Int := ⟨fun _ _ _ _ => 1⟩

/-- The locator places the single point in the single background cell. -/
def one_cache : Cache Nat Nat := ⟨fun _ => ⟨[0], [[0]], [[0]]⟩⟩

end Example

/-- The value of component `k` of the (primitive) shape function `i` of the
immersed element at quadrature point `q` of cell `c`: `fe_v.shape_value(i, q)` in
the component of `i`, zero in the others. -/
def shape_value_component {P K : Type} [Zero K] (fe : FiniteElement)
    (fe_v : ImmersedFEValues P K) (c i q k : Nat) : K :=
  if k = fe.system_to_component_index i then fe_v.shape_value c i q else 0

/-- The local mass matrix of cell `c`:
`m(i, j) = sum over q of phi_i(q) . phi_j(q) * JxW(q)`, with the scalar product
of the vector-valued shape functions. -/
def cell_mass_matrix {P K : Type} [Zero K] [Add K] [Mul K] (fe : FiniteElement)
    (fe_v : ImmersedFEValues P K) (c : Nat) : FullMatrix K :=
  fun i j =>
    if i < fe.dofs_per_cell ∧ j < fe.dofs_per_cell then
      ((List.range fe_v.n_q_points).map
        (fun q =>
          ((List.range fe.n_components).map
            (fun k => shape_value_component fe fe_v c i q k
              * shape_value_component fe fe_v c j q k)).sum * fe_v.JxW c q)).sum
    else 0

/-- The standard single-space mass matrix of the immersed space: the local
mass matrix of every cell distributed to the dofs of the cell, from the zero
matrix. -/
def standard_mass_matrix {P K : Type} [Zero K] [Add K] [Mul K]
    (dh : ImmersedDoFHandler) (fe_v : ImmersedFEValues P K) : GlobalMatrix K :=
  (List.range dh.n_active_cells).foldl
    (fun A c => unconstrained.distribute_local_to_global
      (cell_mass_matrix dh.get_fe fe_v c) (dh.get_dof_indices c) (dh.get_dof_indices c) A)
    (GlobalMatrix.zero dh.n_dofs dh.n_dofs)

/-- The identity case: the background mesh is the immersed mesh (the background
cell with handle `c` is the immersed cell at position `c`), the two spaces are
the same, every cell is locally owned, both masks select all components, the
locator places every quadrature point exactly once, in its own cell, and the
background shape functions evaluate pointwise (`phi b i x`) and agree at the
located reference point with the immersed shape value at that quadrature
point. -/
structure IdentityCase {P R K : Type} [Inhabited P] [Inhabited R]
    (cache : Cache P R) (o_fe_v : SpaceFEValues R K)
    (space_dh : SpaceDoFHandler) (immersed_dh : ImmersedDoFHandler)
    (fe_v : ImmersedFEValues P K) (space_comps immersed_comps : ComponentMask)
    (phi : Cell → Nat → R → K) : Prop where
  same_fe : space_dh.get_fe = immersed_dh.get_fe
  same_n_dofs : space_dh.n_dofs = immersed_dh.n_dofs
  same_dofs : ∀ c, c < immersed_dh.n_active_cells →
    space_dh.get_dof_indices c = immersed_dh.get_dof_indices c
  owned : ∀ c, c < immersed_dh.n_active_cells → space_dh.is_locally_owned c = true
  valid_fe : ValidFE immersed_dh.get_fe
  not_distributed : immersed_dh.is_distributed = false
  space_mask_size : (effective_mask space_comps immersed_dh.get_fe.n_components).size
    = immersed_dh.get_fe.n_components
  immersed_mask_size : (effective_mask immersed_comps immersed_dh.get_fe.n_components).size
    = immersed_dh.get_fe.n_components
  space_all_selected : ∀ k, k < immersed_dh.get_fe.n_components →
    (effective_mask space_comps immersed_dh.get_fe.n_components).get k = true
  immersed_all_selected : ∀ k, k < immersed_dh.get_fe.n_components →
    (effective_mask immersed_comps immersed_dh.get_fe.n_components).get k = true
  valid_locator : ValidLocator cache fe_v.toQuadraturePoints immersed_dh
  own_cell : ∀ t ∈ located_stream (located cache fe_v.toQuadraturePoints immersed_dh),
    t.1 = t.2.2 / fe_v.n_q_points
  every_point_once : (located cache fe_v.toQuadraturePoints immersed_dh).maps.flatten.Perm
    (List.range (immersed_dh.n_active_cells * fe_v.n_q_points))
  pointwise : ∀ b qps i oq, oq < qps.length →
    o_fe_v.shape_value b qps i oq = phi b i (qps.getD oq default)
  own_coordinate : ∀ t ∈ located_stream (located cache fe_v.toQuadraturePoints immersed_dh),
    ∀ i, phi t.1 i t.2.1 = fe_v.shape_value t.1 i (t.2.2 % fe_v.n_q_points)

namespace Example

/-- A scalar element with two dofs per cell. -/
def scalar_fe : FiniteElement := ⟨2, 1, fun _ => 0⟩

/-- One cell with the dofs `0` and `1`, as background space. -/
def id_space_dh : SpaceDoFHandler := ⟨scalar_fe, 2, fun _ => [0, 1], fun _ => true⟩

/-- The same cell with the same dofs, as immersed space. -/
def id_immersed_dh : ImmersedDoFHandler := ⟨scalar_fe, 2, 1, fun _ => [0, 1], false⟩

/-- The two shape functions at a reference point: the first is one and the
second vanishes at the single quadrature point (a node of the first). -/
def id_phi : Cell → Nat → Nat → Int := fun _ i _ => if i = 0 then 1 else 0

/-- One quadrature point of weight one. -/
def id_fe_v : ImmersedFEValues Nat Int :=
  ⟨⟨1, fun _ => [0]⟩, fun _ i _ => if i = 0 then 1 else 0, fun _ _ => 1⟩

/-- The background shape values, evaluated pointwise. -/
def id_o_fe_v : SpaceFEValues Nat Int := ⟨fun b qps i oq => id_phi b i (qps.getD oq default)⟩

/-- The locator places the quadrature point in its own cell. -/
def id_cache : Cache Nat Nat := ⟨fun _ => ⟨[0], [[0]], [[0]]⟩⟩

/-- Unit shape functions at every reference point. -/
def one_phi : Cell → Nat → Nat → Int := fun _ _ _ => 1

end Example

/-- The body of the clustering loop as the specification describes the
receiving structure: every point inserts, without the `last_id` check. -/
def cluster_step_unconditional (n_q_points : Nat) (cell : Cell) (cell_sets : List (List Cell))
    (idx : Nat) : List (List Cell) :=
  cell_sets.set (idx / n_q_points) (set_insert cell (cell_sets.getD (idx / n_q_points) []))

/-- The clustering loop with unconditional insertion. -/
def build_cell_sets_unconditional (n_q_points n_active_c : Nat) (all_cells : List Cell)
    (maps : List (List Nat)) : List (List Cell) :=
  (List.range maps.length).foldl
    (fun cs i =>
      (maps.getD i []).foldl (cluster_step_unconditional n_q_points (all_cells.getD i default)) cs)
    (List.replicate n_active_c [])

/-- The branch of the body of the bucket-building loop taken for one point:
`cell_container[cell_id].empty()`, `cell_container[cell_id].back() == all_cells[o]`,
`std::find` returning `end() - 1`, or `std::find` returning the position `pos`. -/
inductive Branch where
  | open_empty
  | append_back
  | open_scan
  | found_at (pos : Nat)
deriving DecidableEq, Repr

/-- The branch that `bucket_step` takes for the background cell `all_cells[o]` and
the flat point index `all_maps[o][j]`: the conditions of the source, in order. -/
def bucket_branch {R : Type} (n_q_points : Nat) (cell : Cell) (idx : Nat)
    (st : Containers R) : Branch :=
  let cell_id := idx / n_q_points
  let cs := st.cell_container.getD cell_id []
  if cs.isEmpty then .open_empty
  else if cs.getLast? = some cell then .append_back
  else
    let cell_p := cs.dropLast.indexOf cell
    if cell_p = cs.length - 1 then .open_scan
    else .found_at cell_p

/-- The loop `for (unsigned int j = 0; j < all_maps[o].size(); ++j)`, recording
the branch taken at every point next to the containers. -/
def bucket_cell_traced {R : Type} [Inhabited R] (n_q_points : Nat) (cell : Cell)
    (qpoints : List R) (mp : List Nat) (st : Containers R × List Branch) :
    Containers R × List Branch :=
  (List.range mp.length).foldl
    (fun s j =>
      (bucket_step n_q_points cell (qpoints.getD j default) (mp.getD j 0) s.1,
        s.2 ++ [bucket_branch n_q_points cell (mp.getD j 0) s.1]))
    st

/-- The loop `for (unsigned int o = 0; o < all_cells.size(); ++o)` building the
three containers, recording the branch taken at every point. -/
def build_containers_traced {R : Type} [Inhabited R] (n_q_points n_active_c : Nat)
    (cpm : PointLocations R) : Containers R × List Branch :=
  (List.range cpm.cells.length).foldl
    (fun s o => bucket_cell_traced n_q_points (cpm.cells.getD o default)
      (cpm.qpoints.getD o []) (cpm.maps.getD o []) s)
    ({ cell_container := List.replicate n_active_c []
       qpoints_container := List.replicate n_active_c []
       maps_container := List.replicate n_active_c [] }, [])

/-- The body of the loop `for (const unsigned int idx : maps[i])` with every
access checked: no result when `n_q_points` is zero (the division
`idx / n_q_points`), or when an insertion is made with `cell_sets[cell_id]` or
`all_cells[i]` out of range. -/
def cluster_step_checked (n_q_points : Nat) (all_cells : List Cell) (i : Nat)
    (st : List (List Cell) × Nat) (idx : Nat) : Option (List (List Cell) × Nat) :=
  if n_q_points = 0 then none
  else
    let cell_id := idx / n_q_points
    if st.2 ≠ cell_id then
      match st.1[cell_id]?, all_cells[i]? with
      | some s, some cell => some (st.1.set cell_id (set_insert cell s), cell_id)
      | _, _ => none
    else some st

/-- One pass of the outer loop over `maps`, with every access checked. -/
def cluster_cell_checked (n_q_points : Nat) (all_cells : List Cell) (i : Nat) (mp : List Nat)
    (cell_sets : List (List Cell)) : Option (List (List Cell)) :=
  (mp.foldlM (cluster_step_checked n_q_points all_cells i) (cell_sets, UINT_MAX)).map Prod.fst

/-- The loop `for (unsigned int i = 0; i < maps.size(); ++i)` building
`cell_sets(n_active_c)`, with every access checked. -/
def build_cell_sets_checked (n_q_points n_active_c : Nat) (all_cells : List Cell)
    (maps : List (List Nat)) : Option (List (List Cell)) :=
  (List.range maps.length).foldlM
    (fun cs i => cluster_cell_checked n_q_points all_cells i (maps.getD i []) cs)
    (List.replicate n_active_c [])

/-- The body of the loop over `j` in the bucket-building loop with every access
checked: no result when `n_q_points` is zero, when one of
`cell_container[cell_id]`, `qpoints_container[cell_id]`, `maps_container[cell_id]`,
`all_cells[o]`, `all_qpoints[o][j]` is out of range, when `back()` is called on an
empty vector, when `end() - 1` is formed on an empty vector, or when
`qpoints_container[cell_id][pos]` or `maps_container[cell_id][pos]` is out of
range.  The index `idx` is `all_maps[o][j]`. -/
def bucket_step_checked {R : Type} (n_q_points : Nat) (all_cells : List Cell)
    (all_qpoints : List (List R)) (o j idx : Nat) (st : Containers R) :
    Option (Containers R) :=
  if n_q_points = 0 then none
  else
    let cell_id := idx / n_q_points
    let n_pt := idx % n_q_points
    match st.cell_container[cell_id]?, st.qpoints_container[cell_id]?,
        st.maps_container[cell_id]?, all_cells[o]?,
        (all_qpoints[o]?).bind (fun qp => qp[j]?) with
    | some cs, some qs, some ms, some cell, some qpoint =>
      let open_bucket : Containers R :=
        { cell_container := st.cell_container.set cell_id (cs ++ [cell])
          qpoints_container := st.qpoints_container.set cell_id (qs ++ [[qpoint]])
          maps_container := st.maps_container.set cell_id (ms ++ [[n_pt]]) }
      let append_at (qpos mpos : Nat) : Containers R :=
        { cell_container := st.cell_container
          qpoints_container :=
            st.qpoints_container.set cell_id (qs.set qpos (qs.getD qpos [] ++ [qpoint]))
          maps_container :=
            st.maps_container.set cell_id (ms.set mpos (ms.getD mpos [] ++ [n_pt])) }
      if cs.isEmpty then some open_bucket
      else if cs.getLast? = some cell then
        if qs.isEmpty || ms.isEmpty then none
        else some (append_at (qs.length - 1) (ms.length - 1))
      else if cs.length = 0 then none
      else
        let cell_p := cs.dropLast.indexOf cell
        if cell_p = cs.length - 1 then some open_bucket
        else if cell_p < qs.length ∧ cell_p < ms.length then some (append_at cell_p cell_p)
        else none
    | _, _, _, _, _ => none

/-- The loop `for (unsigned int j = 0; j < all_maps[o].size(); ++j)` with every
access checked, `all_maps[o]` included. -/
def bucket_cell_checked {R : Type} (n_q_points : Nat) (all_cells : List Cell)
    (all_qpoints : List (List R)) (all_maps : List (List Nat)) (o : Nat)
    (st : Containers R) : Option (Containers R) :=
  match all_maps[o]? with
  | none => none
  | some mp =>
    (List.range mp.length).foldlM
      (fun s j => bucket_step_checked n_q_points all_cells all_qpoints o j (mp.getD j 0) s) st

/-- The loop `for (unsigned int o = 0; o < all_cells.size(); ++o)` building the
three containers, with every access checked. -/
def build_containers_checked {R : Type} (n_q_points n_active_c : Nat)
    (cpm : PointLocations R) : Option (Containers R) :=
  (List.range cpm.cells.length).foldlM
    (fun s o => bucket_cell_checked n_q_points cpm.cells cpm.qpoints cpm.maps o s)
    { cell_container := List.replicate n_active_c []
      qpoints_container := List.replicate n_active_c []
      maps_container := List.replicate n_active_c [] }

/-- Modelled from the spec: the unmatched-point count, which `coupling.cc` neither
computes nor returns: the number of points of the batch (flat indices
`p < n_points`) that occur in none of the locator's index lists. -/
def unmatched_point_count {R : Type} (n_points : Nat) (cpm : PointLocations R) : Nat :=
  ((List.range n_points).filter (fun p => !(cpm.maps.flatten.contains p))).length

namespace Example

/-- A locator placing all four points in cell `1`, the ghost cell of `space_dh`. -/
def cache_ghost : Cache Nat Nat := ⟨fun _ => ⟨[1], [[100, 101, 102, 103]], [[0, 1, 2, 3]]⟩⟩

end Example

/-! ## Lemmas on loops and containers -/

theorem foldl_flatMap_eq {α β γ : Type} (f : γ → β → γ) (g : α → List β) (l : List α) (init : γ) :
    (l.flatMap g).foldl f init = l.foldl (fun acc a => (g a).foldl f acc) init := by
  induction l generalizing init with
  | nil => rfl
  | cons a l ih => simp [List.flatMap_cons, List.foldl_append, ih]

theorem foldl_filter_map_eq {α β γ : Type} (f : γ → β → γ) (p : α → Bool) (g : α → β)
    (l : List α) (init : γ) :
    ((l.filter p).map g).foldl f init
      = l.foldl (fun acc a => if p a then f acc (g a) else acc) init := by
  induction l generalizing init with
  | nil => rfl
  | cons a l ih =>
    by_cases h : p a
    · simp [List.filter_cons, h, ih]
    · simp [List.filter_cons, h, ih]

theorem sparsity_loop_eq {S : Type} (ops : SparsityOps S) (space_dh : SpaceDoFHandler)
    (immersed_dh : ImmersedDoFHandler) (cell_sets : List (List Cell)) (sparsity : S) :
    sparsity_loop ops space_dh immersed_dh cell_sets sparsity
      = (sparsity_calls space_dh immersed_dh.n_active_cells cell_sets).foldl
          (fun sp p => ops.add_entries_local_to_global (space_dh.get_dof_indices p.1)
            (immersed_dh.get_dof_indices p.2) sp) sparsity := by
  unfold sparsity_loop sparsity_calls sparsity_cell_loop
  rw [foldl_flatMap_eq]
  congr 1
  funext sp i
  rw [foldl_filter_map_eq]

theorem assembly_loop_eq {P R M K : Type} [Zero K] [Add K] [Mul K]
    (ops : MatrixOps M K) (space_dh : SpaceDoFHandler) (immersed_dh : ImmersedDoFHandler)
    (fe_v : ImmersedFEValues P K) (o_fe_v : SpaceFEValues R K)
    (space_gtl immersed_gtl : List Nat) (st : Containers R) (matrix : M) :
    assembly_loop ops space_dh immersed_dh fe_v o_fe_v space_gtl immersed_gtl st matrix
      = (owned_buckets space_dh immersed_dh.n_active_cells st).foldl
          (fun mat bk => ops.distribute_local_to_global
            (local_block space_dh immersed_dh fe_v o_fe_v space_gtl immersed_gtl bk.j bk.ocell
              bk.qps bk.ids)
            (space_dh.get_dof_indices bk.ocell) (immersed_dh.get_dof_indices bk.j) mat)
          matrix := by
  unfold assembly_loop owned_buckets assembly_cell_loop
  rw [foldl_flatMap_eq]
  congr 1
  funext mat j
  rw [foldl_filter_map_eq]

theorem mem_set_insert (a b : Cell) (l : List Cell) :
    a ∈ set_insert b l ↔ a = b ∨ a ∈ l := by
  induction l with
  | nil => simp [set_insert]
  | cons x xs ih =>
    unfold set_insert
    split_ifs with h1 h2
    · simp
    · subst h2; simp
    · simp [ih]; tauto

theorem getD_set_nil {α : Type} (l : List (List α)) (i k : Nat) (v : List α) :
    (l.set i v).getD k [] = if i = k ∧ i < l.length then v else l.getD k [] := by
  simp only [List.getD_eq_getElem?_getD, List.getElem?_set]
  by_cases h : i = k
  · subst h
    by_cases h2 : i < l.length
    · simp [h2]
    · simp [h2]
      rw [List.getElem?_eq_none (by omega)]; rfl
  · simp [h]

theorem getD_nil_of_le {α : Type} (l : List (List α)) (k : Nat) (h : l.length ≤ k) :
    l.getD k [] = [] := by
  rw [List.getD_eq_getElem?_getD, List.getElem?_eq_none h]; rfl

theorem getD_replicate_nil {α : Type} (n k : Nat) :
    (List.replicate n ([] : List α)).getD k [] = [] := by
  rw [List.getD_eq_getElem?_getD, List.getElem?_replicate]
  split_ifs <;> rfl

theorem cluster_fold_spec (n_q : Nat) (cell : Cell) (mp : List Nat)
    (hmp : ∀ idx ∈ mp, idx / n_q ≠ UINT_MAX) :
    ∀ st : List (List Cell) × Nat,
      (st.2 = UINT_MAX ∨ st.1.length ≤ st.2 ∨ cell ∈ st.1.getD st.2 []) →
      ((mp.foldl (cluster_step n_q cell) st).1.length = st.1.length) ∧
      ∀ c b, b ∈ (mp.foldl (cluster_step n_q cell) st).1.getD c [] ↔
        (b ∈ st.1.getD c [] ∨ (b = cell ∧ c < st.1.length ∧ ∃ idx ∈ mp, idx / n_q = c)) := by
  induction mp with
  | nil => intro st _; simp
  | cons idx mp ih =>
    intro st hst
    have hidx : idx / n_q ≠ UINT_MAX := hmp idx (List.mem_cons_self _ _)
    have hmp' : ∀ i ∈ mp, i / n_q ≠ UINT_MAX := fun i hi => hmp i (List.mem_cons_of_mem _ hi)
    rw [List.foldl_cons]
    by_cases hl : st.2 = idx / n_q
    · have hstep : cluster_step n_q cell st idx = st := by
        simp [cluster_step, hl]
      rw [hstep]
      obtain ⟨h1, h2⟩ := ih hmp' st hst
      refine ⟨h1, ?_⟩
      intro c b
      rw [h2]
      constructor
      · rintro (h | ⟨hb, hc, i, hi, hic⟩)
        · exact Or.inl h
        · exact Or.inr ⟨hb, hc, i, List.mem_cons_of_mem _ hi, hic⟩
      · rintro (h | ⟨hb, hc, i, hi, hic⟩)
        · exact Or.inl h
        · rcases List.mem_cons.1 hi with heq | hi'
          · subst heq
            rcases hst with h | h | h
            · exact absurd (hl ▸ h) hidx
            · rw [hl, hic] at h; omega
            · rw [hl, hic] at h; subst hb; exact Or.inl h
          · exact Or.inr ⟨hb, hc, i, hi', hic⟩
    · have hstep : cluster_step n_q cell st idx
          = (st.1.set (idx / n_q) (set_insert cell (st.1.getD (idx / n_q) [])), idx / n_q) := by
        simp [cluster_step, hl]
      rw [hstep]
      have hinv : ((idx / n_q) = UINT_MAX ∨
          (st.1.set (idx / n_q) (set_insert cell (st.1.getD (idx / n_q) []))).length ≤ idx / n_q ∨
          cell ∈ (st.1.set (idx / n_q) (set_insert cell (st.1.getD (idx / n_q) []))).getD
            (idx / n_q) []) := by
        by_cases hlt : idx / n_q < st.1.length
        · right; right
          rw [getD_set_nil]; simp [hlt, mem_set_insert]
        · right; left; simp; omega
      obtain ⟨h1, h2⟩ := ih hmp'
        (st.1.set (idx / n_q) (set_insert cell (st.1.getD (idx / n_q) [])), idx / n_q) hinv
      simp only [List.length_set] at h1 h2
      refine ⟨h1, ?_⟩
      intro c b
      rw [h2, getD_set_nil]
      by_cases hc : idx / n_q = c ∧ idx / n_q < st.1.length
      · rw [if_pos hc, mem_set_insert]
        obtain ⟨hc1, hc2⟩ := hc
        constructor
        · rintro ((h | h) | ⟨hb, hc', i, hi, hic⟩)
          · exact Or.inr ⟨h, hc1 ▸ hc2, idx, List.mem_cons_self _ _, hc1⟩
          · exact Or.inl (hc1 ▸ h)
          · exact Or.inr ⟨hb, hc', i, List.mem_cons_of_mem _ hi, hic⟩
        · rintro (h | ⟨hb, hc', i, hi, hic⟩)
          · exact Or.inl (Or.inr (hc1 ▸ h))
          · exact Or.inl (Or.inl hb)
      · rw [if_neg hc]
        constructor
        · rintro (h | ⟨hb, hc', i, hi, hic⟩)
          · exact Or.inl h
          · exact Or.inr ⟨hb, hc', i, List.mem_cons_of_mem _ hi, hic⟩
        · rintro (h | ⟨hb, hc', i, hi, hic⟩)
          · exact Or.inl h
          · rcases List.mem_cons.1 hi with heq | hi'
            · subst heq
              exact absurd ⟨hic, hic ▸ hc'⟩ hc
            · exact Or.inr ⟨hb, hc', i, hi', hic⟩

theorem cluster_cell_spec (n_q : Nat) (cell : Cell) (mp : List Nat)
    (hmp : ∀ idx ∈ mp, idx / n_q ≠ UINT_MAX) (cs : List (List Cell)) :
    (cluster_cell n_q cell mp cs).length = cs.length ∧
    ∀ c b, b ∈ (cluster_cell n_q cell mp cs).getD c [] ↔
      (b ∈ cs.getD c [] ∨ (b = cell ∧ c < cs.length ∧ ∃ idx ∈ mp, idx / n_q = c)) :=
  cluster_fold_spec n_q cell mp hmp (cs, UINT_MAX) (Or.inl rfl)

theorem build_cell_sets_fold_spec (n_q : Nat) (all_cells : List Cell) (maps : List (List Nat))
    (hmaps : ∀ mp ∈ maps, ∀ idx ∈ mp, idx / n_q ≠ UINT_MAX) (cs0 : List (List Cell)) :
    ∀ k, k ≤ maps.length →
      (((List.range k).foldl
        (fun cs i => cluster_cell n_q (all_cells.getD i default) (maps.getD i []) cs) cs0).length
          = cs0.length) ∧
      ∀ c b, b ∈ ((List.range k).foldl
        (fun cs i => cluster_cell n_q (all_cells.getD i default) (maps.getD i []) cs) cs0).getD c []
        ↔ (b ∈ cs0.getD c [] ∨ (c < cs0.length ∧ ∃ o, o < k ∧ all_cells.getD o default = b ∧
            ∃ idx ∈ maps.getD o [], idx / n_q = c)) := by
  intro k
  induction k with
  | zero => intro _; simp
  | succ k ih =>
    intro hk
    obtain ⟨h1, h2⟩ := ih (by omega)
    rw [List.range_succ, List.foldl_append, List.foldl_cons, List.foldl_nil]
    have hmp : ∀ idx ∈ maps.getD k [], idx / n_q ≠ UINT_MAX := by
      have hk' : k < maps.length := by omega
      rw [List.getD_eq_getElem _ _ hk']
      exact hmaps _ (List.getElem_mem _)
    obtain ⟨g1, g2⟩ := cluster_cell_spec n_q (all_cells.getD k default) (maps.getD k []) hmp
      ((List.range k).foldl
        (fun cs i => cluster_cell n_q (all_cells.getD i default) (maps.getD i []) cs) cs0)
    refine ⟨g1.trans h1, ?_⟩
    intro c b
    rw [g2, h2, h1]
    constructor
    · rintro ((h | ⟨hc, o, ho, hb, hw⟩) | ⟨hb, hc, hw⟩)
      · exact Or.inl h
      · exact Or.inr ⟨hc, o, by omega, hb, hw⟩
      · exact Or.inr ⟨hc, k, by omega, hb.symm, hw⟩
    · rintro (h | ⟨hc, o, ho, hb, hw⟩)
      · exact Or.inl (Or.inl h)
      · by_cases hok : o = k
        · subst hok; exact Or.inr ⟨hb.symm, hc, hw⟩
        · exact Or.inl (Or.inr ⟨hc, o, by omega, hb, hw⟩)

theorem mem_build_cell_sets (n_q n_active_c : Nat) (all_cells : List Cell)
    (maps : List (List Nat))
    (hmaps : ∀ mp ∈ maps, ∀ idx ∈ mp, idx / n_q ≠ UINT_MAX) (c : Nat) (b : Cell) :
    b ∈ (build_cell_sets n_q n_active_c all_cells maps).getD c [] ↔
      (c < n_active_c ∧ ∃ o, o < maps.length ∧ all_cells.getD o default = b ∧
        ∃ idx ∈ maps.getD o [], idx / n_q = c) := by
  unfold build_cell_sets
  rw [(build_cell_sets_fold_spec n_q all_cells maps hmaps _ maps.length (le_refl _)).2]
  simp [getD_replicate_nil]

theorem set_getD_self {α : Type} (l : List α) (i : Nat) (d : α) : l.set i (l.getD i d) = l := by
  induction l generalizing i with
  | nil => simp
  | cons x xs ih =>
    cases i with
    | zero => simp
    | succ i =>
      have := ih i
      simp only [List.getD_eq_getElem?_getD] at this
      simp [this]

theorem bucket_step_eq {R : Type} (n_q : Nat) (cell : Cell) (qpoint : R) (idx : Nat)
    (st : Containers R) :
    bucket_step n_q cell qpoint idx st =
      { cell_container := st.cell_container.set (idx / n_q)
          (bucket_local cell qpoint (idx % n_q) (st.bucket_lists (idx / n_q))).1
        qpoints_container := st.qpoints_container.set (idx / n_q)
          (bucket_local cell qpoint (idx % n_q) (st.bucket_lists (idx / n_q))).2.1
        maps_container := st.maps_container.set (idx / n_q)
          (bucket_local cell qpoint (idx % n_q) (st.bucket_lists (idx / n_q))).2.2 } := by
  unfold bucket_step bucket_local Containers.bucket_lists
  simp only
  have h := set_getD_self st.cell_container (idx / n_q) []
  simp only [List.getD_eq_getElem?_getD] at h
  split_ifs <;> simp [h]

theorem filter_single_ne {R : Type} (cell c : Cell) (qp : R) (n_pt : Nat) (h : ¬ cell = c) :
    [(cell, qp, n_pt)].filter (fun t => t.1 == c) = [] := by
  simp [List.filter_cons, h]

theorem filter_single_eq {R : Type} (cell c : Cell) (qp : R) (n_pt : Nat) (h : c = cell) :
    [(cell, qp, n_pt)].filter (fun t => t.1 == c) = [(cell, qp, n_pt)] := by
  simp [List.filter_cons, h]

theorem bucketInv_open_bucket {R : Type} {pr : List (Cell × R × Nat)}
    {L : List Cell × List (List R) × List (List Nat)} (h : BucketInv pr L)
    (cell : Cell) (qp : R) (n_pt : Nat) (hc : cell ∉ L.1) :
    BucketInv (pr ++ [(cell, qp, n_pt)]) (L.1 ++ [cell], L.2.1 ++ [[qp]], L.2.2 ++ [[n_pt]]) := by
  obtain ⟨h1, h2, h3, h4, h5⟩ := h
  have hnone : pr.filter (fun t => t.1 == cell) = [] := by
    rw [List.filter_eq_nil_iff]
    intro t ht hbeq
    have : t.1 = cell := by simpa using hbeq
    exact hc (this ▸ h4 t ht)
  refine ⟨by simp [h1], by simp [h2], ?_, ?_, ?_⟩
  · rw [List.nodup_append]
    refine ⟨h3, List.nodup_singleton _, ?_⟩
    intro x hx hx'
    rw [List.mem_singleton] at hx'
    exact hc (hx' ▸ hx)
  · intro t ht
    rcases List.mem_append.1 ht with ht | ht
    · exact List.mem_append_left _ (h4 t ht)
    · rw [List.mem_singleton] at ht; subst ht; simp
  · intro k hk
    simp only [List.length_append, List.length_singleton] at hk
    by_cases hlt : k < L.1.length
    · obtain ⟨g1, g2, t, ht, htk⟩ := h5 k hlt
      have hne : ¬ (cell = L.1.getD k 0) := by
        intro heq
        apply hc
        rw [heq, List.getD_eq_getElem _ _ hlt]
        exact List.getElem_mem _
      simp only [List.getD_append _ _ _ _ hlt, List.getD_append _ _ _ _ (h1 ▸ hlt),
        List.getD_append _ _ _ _ (h2 ▸ hlt), List.filter_append]
      rw [filter_single_ne _ _ _ _ hne, List.append_nil]
      exact ⟨g1, g2, t, List.mem_append_left _ ht, htk⟩
    · have hk' : k = L.1.length := by omega
      subst hk'
      have e1 : (L.1 ++ [cell]).getD L.1.length 0 = cell := by
        simp [List.getD_eq_getElem?_getD]
      have e2 : (L.2.1 ++ [[qp]]).getD L.1.length [] = [qp] := by
        rw [← h1]; simp [List.getD_eq_getElem?_getD]
      have e3 : (L.2.2 ++ [[n_pt]]).getD L.1.length [] = [n_pt] := by
        rw [← h2]; simp [List.getD_eq_getElem?_getD]
      simp only [e1, e2, e3, List.filter_append, hnone]
      refine ⟨by simp, by simp, (cell, qp, n_pt), by simp, rfl⟩

theorem bucketInv_append_at {R : Type} {pr : List (Cell × R × Nat)}
    {L : List Cell × List (List R) × List (List Nat)} (h : BucketInv pr L)
    (cell : Cell) (qp : R) (n_pt : Nat) (pos : Nat) (hpos : pos < L.1.length)
    (hcell : L.1.getD pos 0 = cell) :
    BucketInv (pr ++ [(cell, qp, n_pt)])
      (L.1, L.2.1.set pos (L.2.1.getD pos [] ++ [qp]),
        L.2.2.set pos (L.2.2.getD pos [] ++ [n_pt])) := by
  obtain ⟨h1, h2, h3, h4, h5⟩ := h
  have hmem : cell ∈ L.1 := by
    rw [← hcell, List.getD_eq_getElem _ _ hpos]; exact List.getElem_mem _
  refine ⟨by simp [h1], by simp [h2], h3, ?_, ?_⟩
  · intro t ht
    rcases List.mem_append.1 ht with ht | ht
    · exact h4 t ht
    · rw [List.mem_singleton] at ht; subst ht; exact hmem
  · intro k hk
    obtain ⟨g1, g2, t, ht, htk⟩ := h5 k hk
    simp only [getD_set_nil, List.filter_append]
    by_cases hkp : pos = k
    · subst hkp
      simp only [true_and, h1, h2, hpos, if_true]
      rw [filter_single_eq _ _ _ _ hcell, g1, g2]
      exact ⟨by simp, by simp, t, List.mem_append_left _ ht, htk⟩
    · have hne : ¬ (cell = L.1.getD k 0) := by
        intro heq
        apply hkp
        rw [← hcell, List.getD_eq_getElem _ _ hpos, List.getD_eq_getElem _ _ hk] at heq
        exact (h3.getElem_inj_iff).1 heq
      simp only [hkp, false_and, if_false]
      rw [filter_single_ne _ _ _ _ hne, List.append_nil]
      exact ⟨g1, g2, t, List.mem_append_left _ ht, htk⟩

theorem bucketInv_step {R : Type} {pr : List (Cell × R × Nat)}
    {L : List Cell × List (List R) × List (List Nat)} (h : BucketInv pr L)
    (cell : Cell) (qp : R) (n_pt : Nat) :
    BucketInv (pr ++ [(cell, qp, n_pt)]) (bucket_local cell qp n_pt L) := by
  unfold bucket_local
  split_ifs with hE hB hF
  · apply bucketInv_open_bucket h
    rw [List.isEmpty_iff] at hE
    simp [hE]
  · obtain ⟨ys, hys⟩ := List.getLast?_eq_some_iff.1 hB
    have hlen : L.1.length = ys.length + 1 := by rw [hys]; simp
    have hp : L.1.length - 1 < L.1.length := by omega
    have hc : L.1.getD (L.1.length - 1) 0 = cell := by
      rw [hys]; simp [List.getD_eq_getElem?_getD]
    have := bucketInv_append_at h cell qp n_pt (L.1.length - 1) hp hc
    rw [h.1, h.2.1]
    exact this
  · apply bucketInv_open_bucket h
    rw [← List.length_dropLast] at hF
    have hnd : cell ∉ L.1.dropLast := List.indexOf_eq_length.1 hF
    intro hmem
    have hne : L.1 ≠ [] := by
      intro h0; rw [h0] at hmem; simp at hmem
    rw [← List.dropLast_append_getLast hne, List.mem_append, List.mem_singleton] at hmem
    rcases hmem with hm | hm
    · exact hnd hm
    · apply hB
      rw [List.getLast?_eq_getLast _ hne, hm]
  · rw [← List.length_dropLast] at hF
    have hlt : L.1.dropLast.indexOf cell < L.1.dropLast.length :=
      lt_of_le_of_ne List.indexOf_le_length hF
    have hp : L.1.dropLast.indexOf cell < L.1.length := by
      rw [List.length_dropLast] at hlt; omega
    have hc : L.1.getD (L.1.dropLast.indexOf cell) 0 = cell := by
      rw [List.getD_eq_getElem _ _ hp, ← List.getElem_dropLast _ _ hlt]
      exact List.getElem_indexOf hlt
    exact bucketInv_append_at h cell qp n_pt _ hp hc

theorem build_containers_eq {R : Type} [Inhabited R] (n_q n_active_c : Nat)
    (cpm : PointLocations R) :
    build_containers n_q n_active_c cpm
      = (located_stream cpm).foldl (fun s t => bucket_step n_q t.1 t.2.1 t.2.2 s)
          (empty_containers R n_active_c) := by
  unfold build_containers located_stream bucket_cell empty_containers
  rw [foldl_flatMap_eq]
  congr 1
  funext s o
  rw [List.foldl_map]

theorem containersInv_init (R : Type) (n_q n_active_c : Nat) :
    ContainersInv n_q n_active_c ([] : List (Cell × R × Nat)) (empty_containers R n_active_c) := by
  refine ⟨by simp [empty_containers], by simp [empty_containers], by simp [empty_containers], ?_⟩
  intro c _
  simp only [Containers.bucket_lists, empty_containers, getD_replicate_nil, stream_of_cell]
  refine ⟨rfl, rfl, List.nodup_nil, ?_, ?_⟩
  · intro t ht; simp at ht
  · intro k hk; simp at hk

theorem containersInv_step {R : Type} {n_q n_active_c : Nat} {pr : List (Cell × R × Nat)}
    {st : Containers R} (h : ContainersInv n_q n_active_c pr st) (t : Cell × R × Nat) :
    ContainersInv n_q n_active_c (pr ++ [t]) (bucket_step n_q t.1 t.2.1 t.2.2 st) := by
  obtain ⟨h1, h2, h3, h4⟩ := h
  rw [bucket_step_eq]
  refine ⟨by simp [h1], by simp [h2], by simp [h3], ?_⟩
  intro c hc
  have hb := h4 c hc
  simp only [Containers.bucket_lists, getD_set_nil, h1, h2, h3]
  by_cases hcc : t.2.2 / n_q = c
  · have hst : stream_of_cell n_q c (pr ++ [t])
        = stream_of_cell n_q c pr ++ [(t.1, t.2.1, t.2.2 % n_q)] := by
      simp [stream_of_cell, List.filter_append, List.filter_cons, hcc]
    rw [hst]
    simp only [hcc, hc, and_self, if_true]
    have := bucketInv_step hb t.1 t.2.1 (t.2.2 % n_q)
    rw [← hcc] at this ⊢
    exact this
  · have hst : stream_of_cell n_q c (pr ++ [t]) = stream_of_cell n_q c pr := by
      simp [stream_of_cell, List.filter_append, List.filter_cons, hcc]
    rw [hst]
    simp only [hcc, false_and, if_false]
    exact hb

theorem foldl_bucket_inv {R : Type} (n_q n_active_c : Nat) (l : List (Cell × R × Nat)) :
    ∀ (pr : List (Cell × R × Nat)) (st : Containers R), ContainersInv n_q n_active_c pr st →
      ContainersInv n_q n_active_c (pr ++ l)
        (l.foldl (fun s t => bucket_step n_q t.1 t.2.1 t.2.2 s) st) := by
  induction l with
  | nil => intro pr st h; simpa using h
  | cons t l ih =>
    intro pr st h
    have := ih (pr ++ [t]) _ (containersInv_step h t)
    simpa using this

theorem build_containers_inv {R : Type} [Inhabited R] (n_q n_active_c : Nat)
    (cpm : PointLocations R) :
    ContainersInv n_q n_active_c (located_stream cpm) (build_containers n_q n_active_c cpm) := by
  rw [build_containers_eq]
  have := foldl_bucket_inv n_q n_active_c (located_stream cpm) [] _
    (containersInv_init R n_q n_active_c)
  simpa using this

theorem sparsity_of_checks_pass {P R S : Type} [Inhabited P]
    (ops : SparsityOps S) (cache : Cache P R) (space_dh : SpaceDoFHandler)
    (immersed_dh : ImmersedDoFHandler) (quad : QuadraturePoints P) (sparsity : S)
    (space_comps immersed_comps : ComponentMask)
    (h : sparsity_checks_pass ops space_dh immersed_dh sparsity space_comps immersed_comps) :
    create_coupling_sparsity_pattern ops cache space_dh immersed_dh quad sparsity space_comps
        immersed_comps
      = (.ok (), (sparsity_calls space_dh immersed_dh.n_active_cells
          (build_cell_sets quad.n_q_points immersed_dh.n_active_cells
            (located cache quad immersed_dh).cells (located cache quad immersed_dh).maps)).foldl
          (fun sp p => ops.add_entries_local_to_global (space_dh.get_dof_indices p.1)
            (immersed_dh.get_dof_indices p.2) sp) sparsity) := by
  obtain ⟨h1, h2, h3, h4, h5⟩ := h
  unfold create_coupling_sparsity_pattern
  simp only [h1, h2, h3, h4, h5, ne_eq, not_true_eq_false, if_false, Bool.false_eq_true]
  rw [sparsity_loop_eq]
  rfl

theorem sparsity_of_checks_fail {P R S : Type} [Inhabited P]
    (ops : SparsityOps S) (cache : Cache P R) (space_dh : SpaceDoFHandler)
    (immersed_dh : ImmersedDoFHandler) (quad : QuadraturePoints P) (sparsity : S)
    (space_comps immersed_comps : ComponentMask)
    (h : ¬ sparsity_checks_pass ops space_dh immersed_dh sparsity space_comps immersed_comps) :
    ∃ e, create_coupling_sparsity_pattern ops cache space_dh immersed_dh quad sparsity
        space_comps immersed_comps = (.error e, sparsity) := by
  unfold create_coupling_sparsity_pattern
  unfold sparsity_checks_pass at h
  simp only
  split_ifs with h1 h2 h3 h4 h5
  · exact ⟨_, rfl⟩
  · exact ⟨_, rfl⟩
  · exact ⟨_, rfl⟩
  · exact ⟨_, rfl⟩
  · exact ⟨_, rfl⟩
  · exfalso
    apply h
    simp only [ne_eq, not_not, Bool.not_eq_true] at h1 h2 h3 h4 h5
    exact ⟨h1, h2, h3, h4, h5⟩

theorem matrix_of_checks_pass {P R M K : Type} [Inhabited P] [Inhabited R]
    [Zero K] [Add K] [Mul K]
    (ops : MatrixOps M K) (cache : Cache P R) (o_fe_v : SpaceFEValues R K)
    (space_dh : SpaceDoFHandler) (immersed_dh : ImmersedDoFHandler)
    (fe_v : ImmersedFEValues P K) (matrix : M)
    (space_comps immersed_comps : ComponentMask)
    (h : matrix_checks_pass ops space_dh immersed_dh matrix space_comps immersed_comps) :
    create_coupling_mass_matrix ops cache o_fe_v space_dh immersed_dh fe_v matrix space_comps
        immersed_comps
      = (.ok (), (owned_buckets space_dh immersed_dh.n_active_cells
          (build_containers fe_v.n_q_points immersed_dh.n_active_cells
            (located cache fe_v.toQuadraturePoints immersed_dh))).foldl
          (fun mat bk => ops.distribute_local_to_global
            (local_block space_dh immersed_dh fe_v o_fe_v
              (global_to_local space_dh.get_fe.n_components
                (effective_mask space_comps space_dh.get_fe.n_components))
              (global_to_local immersed_dh.get_fe.n_components
                (effective_mask immersed_comps immersed_dh.get_fe.n_components))
              bk.j bk.ocell bk.qps bk.ids)
            (space_dh.get_dof_indices bk.ocell) (immersed_dh.get_dof_indices bk.j) mat)
          matrix) := by
  obtain ⟨h1, h2, h3, h4, h5⟩ := h
  unfold create_coupling_mass_matrix
  simp only [h1, h2, h3, h4, h5, ne_eq, not_true_eq_false, if_false, Bool.false_eq_true]
  rw [assembly_loop_eq]
  rfl

theorem matrix_of_checks_fail {P R M K : Type} [Inhabited P] [Inhabited R]
    [Zero K] [Add K] [Mul K]
    (ops : MatrixOps M K) (cache : Cache P R) (o_fe_v : SpaceFEValues R K)
    (space_dh : SpaceDoFHandler) (immersed_dh : ImmersedDoFHandler)
    (fe_v : ImmersedFEValues P K) (matrix : M)
    (space_comps immersed_comps : ComponentMask)
    (h : ¬ matrix_checks_pass ops space_dh immersed_dh matrix space_comps immersed_comps) :
    ∃ e, create_coupling_mass_matrix ops cache o_fe_v space_dh immersed_dh fe_v matrix
        space_comps immersed_comps = (.error e, matrix) := by
  unfold create_coupling_mass_matrix
  unfold matrix_checks_pass at h
  simp only
  split_ifs with h1 h2 h3 h4 h5
  · exact ⟨_, rfl⟩
  · exact ⟨_, rfl⟩
  · exact ⟨_, rfl⟩
  · exact ⟨_, rfl⟩
  · exact ⟨_, rfl⟩
  · exfalso
    apply h
    simp only [ne_eq, not_not, Bool.not_eq_true] at h1 h2 h3 h4 h5
    exact ⟨h1, h2, h3, h4, h5⟩

theorem effective_mask_size_of_ne {comps : ComponentMask} {n : Nat}
    (h0 : comps.size ≠ 0) : (effective_mask comps n) = comps := by
  simp [effective_mask, h0]

theorem effective_mask_empty (n : Nat) :
    effective_mask ⟨[]⟩ n = ComponentMask.all_true n := by
  simp [effective_mask, ComponentMask.size]

theorem effective_mask_all_true (n : Nat) :
    effective_mask (ComponentMask.all_true n) n = ComponentMask.all_true n := by
  unfold effective_mask
  split_ifs with h
  · rfl
  · rfl

theorem copy_points_length {P : Type} [Inhabited P] (x_points : List P) (offset : Nat)
    (all_points : List P) : (copy_points x_points offset all_points).length = all_points.length := by
  unfold copy_points
  generalize List.range x_points.length = l
  induction l generalizing all_points with
  | nil => rfl
  | cons k l ih => rw [List.foldl_cons, ih, List.length_set]

theorem collect_all_points_length {P : Type} [Inhabited P] (quad : QuadraturePoints P)
    (n_active_c : Nat) :
    (collect_all_points quad n_active_c).length = (n_active_c * quad.n_q_points) % 2 ^ 32 := by
  unfold collect_all_points
  generalize List.range n_active_c = l
  have : ∀ (ap : List P), (l.foldl (fun ap c =>
      copy_points (quad.get_quadrature_points c) ((c * quad.n_q_points) % 2 ^ 32) ap) ap).length
        = ap.length := by
    induction l with
    | nil => intro ap; rfl
    | cons k l ih => intro ap; rw [List.foldl_cons, ih, copy_points_length]
  rw [this, List.length_replicate]

theorem cell_id_lt_of_valid (n_active_c n_q idx : Nat)
    (h : idx < (n_active_c * n_q) % 2 ^ 32) : idx / n_q < n_active_c ∧ idx / n_q ≠ UINT_MAX := by
  have h32 : (n_active_c * n_q) % 2 ^ 32 < 2 ^ 32 := Nat.mod_lt _ (by norm_num)
  have hle : (n_active_c * n_q) % 2 ^ 32 ≤ n_active_c * n_q := Nat.mod_le _ _
  have hq : 0 < n_q := by
    rcases Nat.eq_zero_or_pos n_q with h0 | h0
    · subst h0; simp at h
    · exact h0
  constructor
  · rw [Nat.div_lt_iff_lt_mul hq]; omega
  · have : idx / n_q ≤ idx := Nat.div_le_self _ _
    unfold UINT_MAX
    omega

theorem validLocator_cell_id {P R : Type} [Inhabited P] {cache : Cache P R}
    {quad : QuadraturePoints P} {immersed_dh : ImmersedDoFHandler}
    (h : ValidLocator cache quad immersed_dh) :
    ∀ mp ∈ (located cache quad immersed_dh).maps, ∀ idx ∈ mp,
      idx / quad.n_q_points < immersed_dh.n_active_cells ∧ idx / quad.n_q_points ≠ UINT_MAX := by
  intro mp hmp idx hidx
  have := h.2.2.2 mp hmp idx hidx
  rw [collect_all_points_length] at this
  exact cell_id_lt_of_valid _ _ _ this

theorem mem_located_stream {R : Type} [Inhabited R] (cpm : PointLocations R)
    (t : Cell × R × Nat) :
    t ∈ located_stream cpm ↔ ∃ o, o < cpm.cells.length ∧ ∃ j, j < (cpm.maps.getD o []).length ∧
      t = (cpm.cells.getD o default, (cpm.qpoints.getD o []).getD j default,
            (cpm.maps.getD o []).getD j 0) := by
  unfold located_stream
  simp only [List.mem_flatMap, List.mem_range, List.mem_map]
  constructor
  · rintro ⟨o, ho, j, hj, rfl⟩; exact ⟨o, ho, j, hj, rfl⟩
  · rintro ⟨o, ho, j, hj, rfl⟩; exact ⟨o, ho, j, hj, rfl⟩

theorem has_located_point_iff_stream {R : Type} [Inhabited R] (n_q : Nat)
    (cpm : PointLocations R) (hlen : cpm.maps.length = cpm.cells.length) (b : Cell) (c : Nat) :
    has_located_point n_q cpm b c ↔ ∃ t ∈ located_stream cpm, t.1 = b ∧ t.2.2 / n_q = c := by
  unfold has_located_point
  constructor
  · rintro ⟨o, ho, hb, idx, hidx, hc⟩
    obtain ⟨j, hj, hjv⟩ := List.mem_iff_getElem.1 hidx
    refine ⟨(cpm.cells.getD o default, (cpm.qpoints.getD o []).getD j default,
            (cpm.maps.getD o []).getD j 0), ?_, hb, ?_⟩
    · rw [mem_located_stream]; exact ⟨o, hlen ▸ ho, j, hj, rfl⟩
    · simp only
      rw [List.getD_eq_getElem _ _ hj, hjv]; exact hc
  · rintro ⟨t, ht, hb, hc⟩
    rw [mem_located_stream] at ht
    obtain ⟨o, ho, j, hj, rfl⟩ := ht
    refine ⟨o, hlen ▸ ho, hb, (cpm.maps.getD o []).getD j 0, ?_, hc⟩
    rw [List.getD_eq_getElem _ _ hj]; exact List.getElem_mem _

theorem mem_stream_of_cell {R : Type} (n_q c : Nat) (pr : List (Cell × R × Nat)) (b : Cell) :
    (∃ t ∈ stream_of_cell n_q c pr, t.1 = b) ↔ ∃ t ∈ pr, t.1 = b ∧ t.2.2 / n_q = c := by
  unfold stream_of_cell
  constructor
  · rintro ⟨t, ht, hb⟩
    rw [List.mem_map] at ht
    obtain ⟨u, hu, rfl⟩ := ht
    rw [List.mem_filter] at hu
    exact ⟨u, hu.1, hb, by simpa using hu.2⟩
  · rintro ⟨t, ht, hb, hc⟩
    refine ⟨(t.1, t.2.1, t.2.2 % n_q), ?_, hb⟩
    rw [List.mem_map]
    exact ⟨t, List.mem_filter.2 ⟨ht, by simpa using hc⟩, rfl⟩

theorem mem_cell_container_iff {R : Type} [Inhabited R] (n_q n_active_c : Nat)
    (cpm : PointLocations R) (c : Nat) (b : Cell) :
    b ∈ (build_containers n_q n_active_c cpm).cell_container.getD c [] ↔
      c < n_active_c ∧ ∃ t ∈ located_stream cpm, t.1 = b ∧ t.2.2 / n_q = c := by
  obtain ⟨h1, _, _, h4⟩ := build_containers_inv n_q n_active_c cpm
  by_cases hc : c < n_active_c
  · obtain ⟨_, _, _, g4, g5⟩ := h4 c hc
    simp only [Containers.bucket_lists] at g4 g5
    rw [← mem_stream_of_cell]
    constructor
    · intro hb
      obtain ⟨k, hk, hkb⟩ := List.mem_iff_getElem.1 hb
      obtain ⟨_, _, t, ht, htk⟩ := g5 k hk
      rw [List.getD_eq_getElem _ _ hk, hkb] at htk
      exact ⟨hc, t, ht, htk⟩
    · rintro ⟨_, t, ht, hb⟩
      exact hb ▸ g4 t ht
  · constructor
    · intro hb
      rw [getD_nil_of_le _ _ (by omega)] at hb
      simp at hb
    · rintro ⟨h, _⟩; exact absurd h hc

theorem mem_owned_buckets {R : Type} (space_dh : SpaceDoFHandler) (n_active_c : Nat)
    (st : Containers R) (bk : Bucket R) :
    bk ∈ owned_buckets space_dh n_active_c st ↔
      ∃ j, j < n_active_c ∧ ∃ c, c < (st.cell_container.getD j []).length ∧
        space_dh.is_locally_owned ((st.cell_container.getD j []).getD c default) = true ∧
        bk = { j := j
               ocell := (st.cell_container.getD j []).getD c default
               qps := (st.qpoints_container.getD j []).getD c []
               ids := (st.maps_container.getD j []).getD c [] } := by
  unfold owned_buckets
  simp only [List.mem_flatMap, List.mem_range, List.mem_map, List.mem_filter]
  constructor
  · rintro ⟨j, hj, c, ⟨hc, ho⟩, rfl⟩; exact ⟨j, hj, c, hc, ho, rfl⟩
  · rintro ⟨j, hj, c, hc, ho, rfl⟩; exact ⟨j, hj, c, ⟨hc, ho⟩, rfl⟩

theorem mem_sparsity_calls (space_dh : SpaceDoFHandler) (n_active_c : Nat)
    (cell_sets : List (List Cell)) (p : Cell × Nat) :
    p ∈ sparsity_calls space_dh n_active_c cell_sets ↔
      p.2 < n_active_c ∧ p.1 ∈ cell_sets.getD p.2 [] ∧ space_dh.is_locally_owned p.1 = true := by
  unfold sparsity_calls
  simp only [List.mem_flatMap, List.mem_range, List.mem_map, List.mem_filter]
  constructor
  · rintro ⟨i, hi, b, ⟨hb, ho⟩, rfl⟩; exact ⟨hi, hb, ho⟩
  · rintro ⟨hi, hb, ho⟩; exact ⟨p.2, hi, p.1, ⟨hb, ho⟩, rfl⟩

/-- C7. Precondition violations abort before any work: when the row count of the
output differs from the background `n_dofs`, or its column count differs from
the immersed `n_dofs`, or the immersed triangulation is distributed, or a
non-empty mask has a size other than the component count of its space, each of
`create_coupling_sparsity_pattern` and `create_coupling_mass_matrix` raises an
exception and leaves the output container as it was. -/
theorem precondition_violation_aborts {P R S M K : Type} [Inhabited P] [Inhabited R]
    [Zero K] [Add K] [Mul K]
    (sops : SparsityOps S) (mops : MatrixOps M K) (cache : Cache P R)
    (o_fe_v : SpaceFEValues R K) (space_dh : SpaceDoFHandler)
    (immersed_dh : ImmersedDoFHandler) (fe_v : ImmersedFEValues P K)
    (sparsity : S) (matrix : M) (space_comps immersed_comps : ComponentMask) :
    ((sops.n_rows sparsity ≠ space_dh.n_dofs ∨ sops.n_cols sparsity ≠ immersed_dh.n_dofs ∨
        immersed_dh.is_distributed = true ∨
        (space_comps.size ≠ 0 ∧ space_comps.size ≠ space_dh.get_fe.n_components) ∨
        (immersed_comps.size ≠ 0 ∧ immersed_comps.size ≠ immersed_dh.get_fe.n_components)) →
      ∃ e, create_coupling_sparsity_pattern sops cache space_dh immersed_dh
        fe_v.toQuadraturePoints sparsity space_comps immersed_comps = (.error e, sparsity)) ∧
    ((mops.m matrix ≠ space_dh.n_dofs ∨ mops.n matrix ≠ immersed_dh.n_dofs ∨
        immersed_dh.is_distributed = true ∨
        (space_comps.size ≠ 0 ∧ space_comps.size ≠ space_dh.get_fe.n_components) ∨
        (immersed_comps.size ≠ 0 ∧ immersed_comps.size ≠ immersed_dh.get_fe.n_components)) →
      ∃ e, create_coupling_mass_matrix mops cache o_fe_v space_dh immersed_dh fe_v matrix
        space_comps immersed_comps = (.error e, matrix)) := by
  constructor
  · intro h
    apply sparsity_of_checks_fail
    rintro ⟨h1, h2, h3, h4, h5⟩
    rcases h with h | h | h | ⟨h0, h⟩ | ⟨h0, h⟩
    · exact h h1
    · exact h h2
    · rw [h3] at h; exact absurd h (by decide)
    · rw [effective_mask_size_of_ne h0] at h4; exact h h4
    · rw [effective_mask_size_of_ne h0] at h5; exact h h5
  · intro h
    apply matrix_of_checks_fail
    rintro ⟨h1, h2, h3, h4, h5⟩
    rcases h with h | h | h | ⟨h0, h⟩ | ⟨h0, h⟩
    · exact h h1
    · exact h h2
    · rw [h3] at h; exact absurd h (by decide)
    · rw [effective_mask_size_of_ne h0] at h4; exact h h4
    · rw [effective_mask_size_of_ne h0] at h5; exact h h5

/-- Witness of C7: a pattern with a wrong row count and a three-bit mask on a
two-component space both abort and leave the output untouched. -/
theorem precondition_violation_aborts_witness :
    (∃ e, create_coupling_sparsity_pattern registering_constraints Example.cache
        Example.space_dh Example.immersed_dh Example.fe_v.toQuadraturePoints
        ⟨2, 3, []⟩ ⟨[]⟩ ⟨[]⟩ = (.error e, ⟨2, 3, []⟩)) ∧
    (∃ e, create_coupling_mass_matrix unconstrained Example.cache Example.o_fe_v
        Example.space_dh Example.immersed_dh Example.fe_v (GlobalMatrix.zero 3 3)
        ⟨[true, false, true]⟩ ⟨[]⟩ = (.error e, GlobalMatrix.zero 3 3)) :=
  ⟨(precondition_violation_aborts registering_constraints
      (unconstrained : MatrixOps (GlobalMatrix Int) Int) Example.cache Example.o_fe_v
      Example.space_dh Example.immersed_dh Example.fe_v ⟨2, 3, []⟩ (GlobalMatrix.zero 3 3)
      ⟨[]⟩ ⟨[]⟩).1 (Or.inl (by decide)),
   (precondition_violation_aborts registering_constraints
      (unconstrained : MatrixOps (GlobalMatrix Int) Int) Example.cache Example.o_fe_v
      Example.space_dh Example.immersed_dh Example.fe_v ⟨3, 3, []⟩ (GlobalMatrix.zero 3 3)
      ⟨[true, false, true]⟩ ⟨[]⟩).2 (Or.inr (Or.inr (Or.inr (Or.inl (by decide)))))⟩

/-- C10. An empty component mask means that all components are selected: each
of the two operations gives the same outcome and the same output with an empty
space mask (immersed mask) as with the mask of size `n_components` of that space
whose bits are all true. -/
theorem empty_mask_selects_all {P R S M K : Type} [Inhabited P] [Inhabited R]
    [Zero K] [Add K] [Mul K]
    (sops : SparsityOps S) (mops : MatrixOps M K) (cache : Cache P R)
    (o_fe_v : SpaceFEValues R K) (space_dh : SpaceDoFHandler)
    (immersed_dh : ImmersedDoFHandler) (fe_v : ImmersedFEValues P K)
    (sparsity : S) (matrix : M) (comps : ComponentMask) :
    create_coupling_mass_matrix mops cache o_fe_v space_dh immersed_dh fe_v matrix ⟨[]⟩ comps
      = create_coupling_mass_matrix mops cache o_fe_v space_dh immersed_dh fe_v matrix
          (ComponentMask.all_true space_dh.get_fe.n_components) comps ∧
    create_coupling_mass_matrix mops cache o_fe_v space_dh immersed_dh fe_v matrix comps ⟨[]⟩
      = create_coupling_mass_matrix mops cache o_fe_v space_dh immersed_dh fe_v matrix comps
          (ComponentMask.all_true immersed_dh.get_fe.n_components) ∧
    create_coupling_sparsity_pattern sops cache space_dh immersed_dh fe_v.toQuadraturePoints
        sparsity ⟨[]⟩ comps
      = create_coupling_sparsity_pattern sops cache space_dh immersed_dh
          fe_v.toQuadraturePoints sparsity
          (ComponentMask.all_true space_dh.get_fe.n_components) comps ∧
    create_coupling_sparsity_pattern sops cache space_dh immersed_dh fe_v.toQuadraturePoints
        sparsity comps ⟨[]⟩
      = create_coupling_sparsity_pattern sops cache space_dh immersed_dh
          fe_v.toQuadraturePoints sparsity comps
          (ComponentMask.all_true immersed_dh.get_fe.n_components) := by
  refine ⟨?_, ?_, ?_, ?_⟩
  · unfold create_coupling_mass_matrix
    simp only [effective_mask_empty, effective_mask_all_true]
  · unfold create_coupling_mass_matrix
    simp only [effective_mask_empty, effective_mask_all_true]
  · unfold create_coupling_sparsity_pattern
    simp only [effective_mask_empty, effective_mask_all_true]
  · unfold create_coupling_sparsity_pattern
    simp only [effective_mask_empty, effective_mask_all_true]

theorem registering_fold {α : Type} (rows : α → List Nat) (cols : α → List Nat)
    (calls : List α) (sp : SparsityPattern) :
    (calls.foldl (fun sp p =>
        registering_constraints.add_entries_local_to_global (rows p) (cols p) sp) sp).n_rows
      = sp.n_rows ∧
    (calls.foldl (fun sp p =>
        registering_constraints.add_entries_local_to_global (rows p) (cols p) sp) sp).n_cols
      = sp.n_cols ∧
    ∀ r s, (r, s) ∈ (calls.foldl (fun sp p =>
        registering_constraints.add_entries_local_to_global (rows p) (cols p) sp) sp).entries ↔
      ((r, s) ∈ sp.entries ∨ ∃ p ∈ calls, r ∈ rows p ∧ s ∈ cols p) := by
  induction calls generalizing sp with
  | nil => simp
  | cons p calls ih =>
    rw [List.foldl_cons]
    obtain ⟨h1, h2, h3⟩ := ih (registering_constraints.add_entries_local_to_global (rows p) (cols p) sp)
    refine ⟨h1, h2, ?_⟩
    intro r s
    rw [h3]
    simp only [registering_constraints, List.mem_append, List.pair_mem_product, List.mem_cons,
      exists_eq_or_imp]
    tauto

theorem getD_mem_or_nil {α : Type} (l : List (List α)) (o : Nat) :
    l.getD o [] ∈ l ∨ l.getD o [] = [] := by
  by_cases h : o < l.length
  · left; rw [List.getD_eq_getElem _ _ h]; exact List.getElem_mem _
  · right; exact getD_nil_of_le _ _ (by omega)

theorem located_stream_nil {R : Type} [Inhabited R] (cpm : PointLocations R)
    (h : ∀ mp ∈ cpm.maps, mp = []) : located_stream cpm = [] := by
  apply List.eq_nil_iff_forall_not_mem.2
  intro t ht
  rw [mem_located_stream] at ht
  obtain ⟨o, _, j, hj, _⟩ := ht
  have : cpm.maps.getD o [] = [] := by
    rcases getD_mem_or_nil cpm.maps o with hm | hm
    · exact h _ hm
    · exact hm
  rw [this] at hj
  simp at hj

theorem owned_buckets_nil {R : Type} [Inhabited R] (space_dh : SpaceDoFHandler)
    (n_q n_active_c : Nat) (cpm : PointLocations R) (h : ∀ mp ∈ cpm.maps, mp = []) :
    owned_buckets space_dh n_active_c (build_containers n_q n_active_c cpm) = [] := by
  apply List.eq_nil_iff_forall_not_mem.2
  intro bk hbk
  rw [mem_owned_buckets] at hbk
  obtain ⟨j, _, c, hc, _, _⟩ := hbk
  have hmem := List.getElem_mem hc
  rw [mem_cell_container_iff, located_stream_nil cpm h] at hmem
  obtain ⟨_, t, ht, _⟩ := hmem
  simp at ht

theorem sparsity_calls_nil (space_dh : SpaceDoFHandler) (n_q n_active_c : Nat)
    (all_cells : List Cell) (maps : List (List Nat)) (h : ∀ mp ∈ maps, mp = []) :
    sparsity_calls space_dh n_active_c (build_cell_sets n_q n_active_c all_cells maps) = [] := by
  apply List.eq_nil_iff_forall_not_mem.2
  intro p hp
  rw [mem_sparsity_calls] at hp
  obtain ⟨_, hb, _⟩ := hp
  have hmaps : ∀ mp ∈ maps, ∀ idx ∈ mp, idx / n_q ≠ UINT_MAX := by
    intro mp hmp idx hidx
    rw [h mp hmp] at hidx
    simp at hidx
  rw [mem_build_cell_sets _ _ _ _ hmaps] at hb
  obtain ⟨_, o, _, _, idx, hidx, _⟩ := hb
  have : maps.getD o [] = [] := by
    rcases getD_mem_or_nil maps o with hm | hm
    · exact h _ hm
    · exact hm
  rw [this] at hidx
  simp at hidx

theorem sparsity_calls_located {P R : Type} [Inhabited P] (cache : Cache P R)
    (space_dh : SpaceDoFHandler) (immersed_dh : ImmersedDoFHandler) (quad : QuadraturePoints P)
    (hloc : ValidLocator cache quad immersed_dh) (p : Cell × Nat) :
    p ∈ sparsity_calls space_dh immersed_dh.n_active_cells
        (build_cell_sets quad.n_q_points immersed_dh.n_active_cells
          (located cache quad immersed_dh).cells (located cache quad immersed_dh).maps) ↔
      p.2 < immersed_dh.n_active_cells ∧ space_dh.is_locally_owned p.1 = true ∧
      has_located_point quad.n_q_points (located cache quad immersed_dh) p.1 p.2 := by
  rw [mem_sparsity_calls, mem_build_cell_sets _ _ _ _ (fun mp hmp idx hidx =>
    (validLocator_cell_id hloc mp hmp idx hidx).2)]
  unfold has_located_point
  tauto

theorem owned_buckets_located {P R : Type} [Inhabited P] [Inhabited R] (cache : Cache P R)
    (space_dh : SpaceDoFHandler) (immersed_dh : ImmersedDoFHandler) (quad : QuadraturePoints P)
    (hloc : ValidLocator cache quad immersed_dh) (bk : Bucket R)
    (hbk : bk ∈ owned_buckets space_dh immersed_dh.n_active_cells
        (build_containers quad.n_q_points immersed_dh.n_active_cells
          (located cache quad immersed_dh))) :
    bk.j < immersed_dh.n_active_cells ∧ space_dh.is_locally_owned bk.ocell = true ∧
      has_located_point quad.n_q_points (located cache quad immersed_dh) bk.ocell bk.j := by
  rw [mem_owned_buckets] at hbk
  obtain ⟨j, hj, c, hc, ho, rfl⟩ := hbk
  refine ⟨hj, ho, ?_⟩
  have hmem : ((build_containers quad.n_q_points immersed_dh.n_active_cells
      (located cache quad immersed_dh)).cell_container.getD j []).getD c default ∈
      (build_containers quad.n_q_points immersed_dh.n_active_cells
      (located cache quad immersed_dh)).cell_container.getD j [] := by
    rw [List.getD_eq_getElem _ _ hc]; exact List.getElem_mem hc
  rw [mem_cell_container_iff] at hmem
  rw [has_located_point_iff_stream _ _ hloc.2.1]
  exact hmem.2

theorem registered_of_located {P R : Type} [Inhabited P] (cache : Cache P R)
    (space_dh : SpaceDoFHandler) (immersed_dh : ImmersedDoFHandler)
    (quad : QuadraturePoints P) (sparsity : SparsityPattern)
    (space_comps immersed_comps : ComponentMask)
    (hchk : sparsity_checks_pass registering_constraints space_dh immersed_dh sparsity
      space_comps immersed_comps)
    (hloc : ValidLocator cache quad immersed_dh) (c : Nat) (b : Cell) (r s : Nat)
    (hc : c < immersed_dh.n_active_cells) (ho : space_dh.is_locally_owned b = true)
    (hl : has_located_point quad.n_q_points (located cache quad immersed_dh) b c)
    (hr : r ∈ space_dh.get_dof_indices b) (hs : s ∈ immersed_dh.get_dof_indices c) :
    (r, s) ∈ (create_coupling_sparsity_pattern registering_constraints cache space_dh
      immersed_dh quad sparsity space_comps immersed_comps).2.entries := by
  rw [sparsity_of_checks_pass _ _ _ _ _ _ _ _ hchk]
  simp only
  rw [(registering_fold (fun p : Cell × Nat => space_dh.get_dof_indices p.1)
    (fun p => immersed_dh.get_dof_indices p.2) _ sparsity).2.2]
  refine Or.inr ⟨(b, c), ?_, hr, hs⟩
  rw [sparsity_calls_located cache space_dh immersed_dh quad hloc]
  exact ⟨hc, ho, hl⟩

/-- C2. With a constraint system that registers every (row, column) pair it is
given, and a locator that respects its contract, the call succeeds and the
entries of the pattern afterwards are the entries it had before together with
exactly the pairs of `dof_indices(b) × dof_indices(c)` for the immersed cells `c`
and the locally owned background cells `b` that contain at least one located
quadrature point of `c`; the dimensions are unchanged. -/
theorem sparsity_entries_exact {P R : Type} [Inhabited P] (cache : Cache P R)
    (space_dh : SpaceDoFHandler) (immersed_dh : ImmersedDoFHandler)
    (quad : QuadraturePoints P) (sparsity : SparsityPattern)
    (space_comps immersed_comps : ComponentMask)
    (hchk : sparsity_checks_pass registering_constraints space_dh immersed_dh sparsity
      space_comps immersed_comps)
    (hloc : ValidLocator cache quad immersed_dh) :
    (create_coupling_sparsity_pattern registering_constraints cache space_dh immersed_dh quad
      sparsity space_comps immersed_comps).1 = .ok () ∧
    (create_coupling_sparsity_pattern registering_constraints cache space_dh immersed_dh quad
      sparsity space_comps immersed_comps).2.n_rows = sparsity.n_rows ∧
    (create_coupling_sparsity_pattern registering_constraints cache space_dh immersed_dh quad
      sparsity space_comps immersed_comps).2.n_cols = sparsity.n_cols ∧
    ∀ r s, (r, s) ∈ (create_coupling_sparsity_pattern registering_constraints cache space_dh
        immersed_dh quad sparsity space_comps immersed_comps).2.entries ↔
      ((r, s) ∈ sparsity.entries ∨
        ∃ c b, c < immersed_dh.n_active_cells ∧ space_dh.is_locally_owned b = true ∧
          has_located_point quad.n_q_points (located cache quad immersed_dh) b c ∧
          r ∈ space_dh.get_dof_indices b ∧ s ∈ immersed_dh.get_dof_indices c) := by
  rw [sparsity_of_checks_pass _ _ _ _ _ _ _ _ hchk]
  obtain ⟨h1, h2, h3⟩ := registering_fold (fun p : Cell × Nat => space_dh.get_dof_indices p.1)
    (fun p => immersed_dh.get_dof_indices p.2)
    (sparsity_calls space_dh immersed_dh.n_active_cells
      (build_cell_sets quad.n_q_points immersed_dh.n_active_cells
        (located cache quad immersed_dh).cells (located cache quad immersed_dh).maps)) sparsity
  refine ⟨rfl, h1, h2, ?_⟩
  intro r s
  simp only
  rw [h3]
  constructor
  · rintro (h | ⟨p, hp, hr, hs⟩)
    · exact Or.inl h
    · rw [sparsity_calls_located cache space_dh immersed_dh quad hloc] at hp
      exact Or.inr ⟨p.2, p.1, hp.1, hp.2.1, hp.2.2, hr, hs⟩
  · rintro (h | ⟨c, b, hc, ho, hl, hr, hs⟩)
    · exact Or.inl h
    · refine Or.inr ⟨(b, c), ?_, hr, hs⟩
      rw [sparsity_calls_located cache space_dh immersed_dh quad hloc]
      exact ⟨hc, ho, hl⟩

/-- Witness of C2: on the example, the pattern gets the four pairs of the owned
background cell `0` with the immersed cell `0`, and the two further pairs with
the immersed cell `1`, and nothing from the ghost cell `1`. -/
theorem sparsity_entries_exact_witness :
    (create_coupling_sparsity_pattern registering_constraints Example.cache Example.space_dh
      Example.immersed_dh Example.fe_v.toQuadraturePoints ⟨3, 3, []⟩ ⟨[]⟩ ⟨[]⟩).1 = .ok () ∧
    (create_coupling_sparsity_pattern registering_constraints Example.cache Example.space_dh
      Example.immersed_dh Example.fe_v.toQuadraturePoints ⟨3, 3, []⟩ ⟨[]⟩ ⟨[]⟩).2.n_rows = 3 ∧
    (create_coupling_sparsity_pattern registering_constraints Example.cache Example.space_dh
      Example.immersed_dh Example.fe_v.toQuadraturePoints ⟨3, 3, []⟩ ⟨[]⟩ ⟨[]⟩).2.n_cols = 3 ∧
    ∀ r s, (r, s) ∈ (create_coupling_sparsity_pattern registering_constraints Example.cache
        Example.space_dh Example.immersed_dh Example.fe_v.toQuadraturePoints
        ⟨3, 3, []⟩ ⟨[]⟩ ⟨[]⟩).2.entries ↔
      ((r, s) ∈ ([] : List (Nat × Nat)) ∨
        ∃ c b, c < Example.immersed_dh.n_active_cells ∧
          Example.space_dh.is_locally_owned b = true ∧
          has_located_point Example.fe_v.n_q_points
            (located Example.cache Example.fe_v.toQuadraturePoints Example.immersed_dh) b c ∧
          r ∈ Example.space_dh.get_dof_indices b ∧ s ∈ Example.immersed_dh.get_dof_indices c) :=
  sparsity_entries_exact Example.cache Example.space_dh Example.immersed_dh
    Example.fe_v.toQuadraturePoints ⟨3, 3, []⟩ ⟨[]⟩ ⟨[]⟩ (by decide) (by decide)

/-- C5. The sparsity stage does not filter by the component coupling map: for
any two choices of the two masks which pass the mask-size check, the outcome and
the registered pattern of `create_coupling_sparsity_pattern` are the same; and
with the registering constraint system every pair of a dof of a locally owned
background cell and a dof of an immersed cell with a point located in it is
registered, whatever the components of the two dofs and whatever the masks
select. -/
theorem sparsity_ignores_component_masks {P R S : Type} [Inhabited P]
    (ops : SparsityOps S) (cache : Cache P R) (space_dh : SpaceDoFHandler)
    (immersed_dh : ImmersedDoFHandler) (quad : QuadraturePoints P) (sparsity : S)
    (pattern : SparsityPattern)
    (space_comps immersed_comps space_comps' immersed_comps' : ComponentMask)
    (hs : space_comps.size = 0 ∨ space_comps.size = space_dh.get_fe.n_components)
    (hi : immersed_comps.size = 0 ∨ immersed_comps.size = immersed_dh.get_fe.n_components)
    (hs' : space_comps'.size = 0 ∨ space_comps'.size = space_dh.get_fe.n_components)
    (hi' : immersed_comps'.size = 0 ∨ immersed_comps'.size = immersed_dh.get_fe.n_components) :
    create_coupling_sparsity_pattern ops cache space_dh immersed_dh quad sparsity
        space_comps immersed_comps
      = create_coupling_sparsity_pattern ops cache space_dh immersed_dh quad sparsity
        space_comps' immersed_comps' ∧
    (pattern.n_rows = space_dh.n_dofs → pattern.n_cols = immersed_dh.n_dofs →
      immersed_dh.is_distributed = false → ValidLocator cache quad immersed_dh →
      ∀ c b i j, c < immersed_dh.n_active_cells → space_dh.is_locally_owned b = true →
        has_located_point quad.n_q_points (located cache quad immersed_dh) b c →
        i < (space_dh.get_dof_indices b).length → j < (immersed_dh.get_dof_indices c).length →
        ((space_dh.get_dof_indices b).getD i 0, (immersed_dh.get_dof_indices c).getD j 0) ∈
          (create_coupling_sparsity_pattern registering_constraints cache space_dh immersed_dh
            quad pattern space_comps immersed_comps).2.entries) := by
  have size_ok : ∀ (m : ComponentMask) (n : Nat), (m.size = 0 ∨ m.size = n) →
      (effective_mask m n).size = n := by
    intro m n h
    unfold effective_mask
    split_ifs with h0
    · simp [ComponentMask.all_true, ComponentMask.size]
    · rcases h with h | h
      · exact absurd h h0
      · exact h
  have e1 := size_ok _ _ hs
  have e2 := size_ok _ _ hi
  have e3 := size_ok _ _ hs'
  have e4 := size_ok _ _ hi'
  constructor
  · unfold create_coupling_sparsity_pattern
    simp only [e1, e2, e3, e4]
  · intro hr hc hd hloc c b i j hc' ho hl hi' hj'
    have hchk : sparsity_checks_pass registering_constraints space_dh immersed_dh pattern
        space_comps immersed_comps := ⟨hr, hc, hd, e1, e2⟩
    refine registered_of_located cache space_dh immersed_dh quad pattern space_comps
      immersed_comps hchk hloc c b _ _ hc' ho hl ?_ ?_
    · rw [List.getD_eq_getElem _ _ hi']; exact List.getElem_mem _
    · rw [List.getD_eq_getElem _ _ hj']; exact List.getElem_mem _

/-- Witness of C5: on the example the pattern is the same with both masks empty
and with masks deselecting a component, and the pair of the background dof `1`
(component 1, deselected) and the immersed dof `2` is registered. -/
theorem sparsity_ignores_component_masks_witness :
    create_coupling_sparsity_pattern registering_constraints Example.cache Example.space_dh
        Example.immersed_dh Example.fe_v.toQuadraturePoints ⟨3, 3, []⟩
        ⟨[true, false]⟩ ⟨[false, true]⟩
      = create_coupling_sparsity_pattern registering_constraints Example.cache Example.space_dh
        Example.immersed_dh Example.fe_v.toQuadraturePoints ⟨3, 3, []⟩ ⟨[]⟩ ⟨[]⟩ ∧
    ((Example.space_dh.get_dof_indices 0).getD 1 0,
        (Example.immersed_dh.get_dof_indices 1).getD 1 0) ∈
      (create_coupling_sparsity_pattern registering_constraints Example.cache Example.space_dh
        Example.immersed_dh Example.fe_v.toQuadraturePoints ⟨3, 3, []⟩
        ⟨[true, false]⟩ ⟨[false, true]⟩).2.entries :=
  ⟨(sparsity_ignores_component_masks registering_constraints Example.cache Example.space_dh
      Example.immersed_dh Example.fe_v.toQuadraturePoints ⟨3, 3, []⟩ ⟨3, 3, []⟩
      ⟨[true, false]⟩ ⟨[false, true]⟩ ⟨[]⟩ ⟨[]⟩
      (by decide) (by decide) (by decide) (by decide)).1,
   (sparsity_ignores_component_masks registering_constraints Example.cache Example.space_dh
      Example.immersed_dh Example.fe_v.toQuadraturePoints ⟨3, 3, []⟩ ⟨3, 3, []⟩
      ⟨[true, false]⟩ ⟨[false, true]⟩ ⟨[]⟩ ⟨[]⟩
      (by decide) (by decide) (by decide) (by decide)).2 (by decide) (by decide) (by decide)
      (by decide) 1 0 1 1 (by decide) (by decide)
      ⟨0, by decide, by decide, 2, by decide, by decide⟩ (by decide) (by decide)⟩

/-- C6. Only locally owned background cells contribute writes: there is a list
of (background cell, immersed cell) pairs, all with a locally owned background
cell, such that for every constraint system and output container the output of
`create_coupling_sparsity_pattern` is either the input (the call aborted) or the
input after one call `add_entries_local_to_global` per pair, with the dof
indices of that background cell as rows; and likewise for
`create_coupling_mass_matrix` and `distribute_local_to_global`.  A background
cell that is not locally owned is in neither list. -/
theorem only_locally_owned_cells_write {P R K : Type} [Inhabited P] [Inhabited R]
    [Zero K] [Add K] [Mul K] (cache : Cache P R) (o_fe_v : SpaceFEValues R K)
    (space_dh : SpaceDoFHandler) (immersed_dh : ImmersedDoFHandler)
    (fe_v : ImmersedFEValues P K) :
    (∃ calls : List (Cell × Nat),
      (∀ p ∈ calls, space_dh.is_locally_owned p.1 = true) ∧
      ∀ (S : Type) (ops : SparsityOps S) (sparsity : S)
        (space_comps immersed_comps : ComponentMask),
        (create_coupling_sparsity_pattern ops cache space_dh immersed_dh
          fe_v.toQuadraturePoints sparsity space_comps immersed_comps).2 = sparsity ∨
        (create_coupling_sparsity_pattern ops cache space_dh immersed_dh
          fe_v.toQuadraturePoints sparsity space_comps immersed_comps).2
          = calls.foldl (fun sp p => ops.add_entries_local_to_global
              (space_dh.get_dof_indices p.1) (immersed_dh.get_dof_indices p.2) sp) sparsity) ∧
    (∃ buckets : List (Bucket R),
      (∀ bk ∈ buckets, space_dh.is_locally_owned bk.ocell = true) ∧
      ∀ (M : Type) (ops : MatrixOps M K) (matrix : M)
        (space_comps immersed_comps : ComponentMask),
        (create_coupling_mass_matrix ops cache o_fe_v space_dh immersed_dh fe_v matrix
          space_comps immersed_comps).2 = matrix ∨
        ∃ block : Bucket R → FullMatrix K,
          (create_coupling_mass_matrix ops cache o_fe_v space_dh immersed_dh fe_v matrix
            space_comps immersed_comps).2
            = buckets.foldl (fun mat bk => ops.distribute_local_to_global (block bk)
                (space_dh.get_dof_indices bk.ocell) (immersed_dh.get_dof_indices bk.j) mat)
                matrix) := by
  constructor
  · refine ⟨sparsity_calls space_dh immersed_dh.n_active_cells
      (build_cell_sets fe_v.n_q_points immersed_dh.n_active_cells
        (located cache fe_v.toQuadraturePoints immersed_dh).cells
        (located cache fe_v.toQuadraturePoints immersed_dh).maps), ?_, ?_⟩
    · intro p hp
      exact ((mem_sparsity_calls _ _ _ _).1 hp).2.2
    · intro S ops sparsity space_comps immersed_comps
      by_cases hchk : sparsity_checks_pass ops space_dh immersed_dh sparsity space_comps
          immersed_comps
      · right
        rw [sparsity_of_checks_pass _ _ _ _ _ _ _ _ hchk]
      · left
        obtain ⟨e, he⟩ := sparsity_of_checks_fail ops cache space_dh immersed_dh
          fe_v.toQuadraturePoints sparsity space_comps immersed_comps hchk
        rw [he]
  · refine ⟨owned_buckets space_dh immersed_dh.n_active_cells
      (build_containers fe_v.n_q_points immersed_dh.n_active_cells
        (located cache fe_v.toQuadraturePoints immersed_dh)), ?_, ?_⟩
    · intro bk hbk
      obtain ⟨j, _, c, _, ho, rfl⟩ := (mem_owned_buckets _ _ _ _).1 hbk
      exact ho
    · intro M ops matrix space_comps immersed_comps
      by_cases hchk : matrix_checks_pass ops space_dh immersed_dh matrix space_comps
          immersed_comps
      · right
        rw [matrix_of_checks_pass _ _ _ _ _ _ _ _ _ hchk]
        exact ⟨_, rfl⟩
      · left
        obtain ⟨e, he⟩ := matrix_of_checks_fail ops cache o_fe_v space_dh immersed_dh
          fe_v matrix space_comps immersed_comps hchk
        rw [he]

/-- C8. Unmatched points contribute nothing.  With a locator that respects its
contract, every call `add_entries_local_to_global` and every call
`distribute_local_to_global` is made for a (background cell, immersed cell) pair
with a located point of that immersed cell in that background cell; and when the
locator returns no point at all, both operations leave their output exactly as
it was, for every constraint system (neither primitive is called). -/
theorem unmatched_points_contribute_nothing {P R K : Type} [Inhabited P] [Inhabited R]
    [Zero K] [Add K] [Mul K] (cache : Cache P R) (o_fe_v : SpaceFEValues R K)
    (space_dh : SpaceDoFHandler) (immersed_dh : ImmersedDoFHandler)
    (fe_v : ImmersedFEValues P K) :
    (ValidLocator cache fe_v.toQuadraturePoints immersed_dh →
      (∃ calls : List (Cell × Nat),
        (∀ p ∈ calls, has_located_point fe_v.n_q_points
          (located cache fe_v.toQuadraturePoints immersed_dh) p.1 p.2) ∧
        ∀ (S : Type) (ops : SparsityOps S) (sparsity : S)
          (space_comps immersed_comps : ComponentMask),
          sparsity_checks_pass ops space_dh immersed_dh sparsity space_comps immersed_comps →
          create_coupling_sparsity_pattern ops cache space_dh immersed_dh
            fe_v.toQuadraturePoints sparsity space_comps immersed_comps
            = (.ok (), calls.foldl (fun sp p => ops.add_entries_local_to_global
                (space_dh.get_dof_indices p.1) (immersed_dh.get_dof_indices p.2) sp)
                sparsity)) ∧
      (∃ buckets : List (Bucket R),
        (∀ bk ∈ buckets, has_located_point fe_v.n_q_points
          (located cache fe_v.toQuadraturePoints immersed_dh) bk.ocell bk.j) ∧
        ∀ (M : Type) (ops : MatrixOps M K) (matrix : M)
          (space_comps immersed_comps : ComponentMask),
          matrix_checks_pass ops space_dh immersed_dh matrix space_comps immersed_comps →
          ∃ block : Bucket R → FullMatrix K,
            create_coupling_mass_matrix ops cache o_fe_v space_dh immersed_dh fe_v matrix
              space_comps immersed_comps
              = (.ok (), buckets.foldl (fun mat bk => ops.distribute_local_to_global (block bk)
                  (space_dh.get_dof_indices bk.ocell) (immersed_dh.get_dof_indices bk.j) mat)
                  matrix))) ∧
    ((∀ mp ∈ (located cache fe_v.toQuadraturePoints immersed_dh).maps, mp = []) →
      (∀ (S : Type) (ops : SparsityOps S) (sparsity : S)
        (space_comps immersed_comps : ComponentMask),
        (create_coupling_sparsity_pattern ops cache space_dh immersed_dh
          fe_v.toQuadraturePoints sparsity space_comps immersed_comps).2 = sparsity) ∧
      (∀ (M : Type) (ops : MatrixOps M K) (matrix : M)
        (space_comps immersed_comps : ComponentMask),
        (create_coupling_mass_matrix ops cache o_fe_v space_dh immersed_dh fe_v matrix
          space_comps immersed_comps).2 = matrix)) := by
  constructor
  · intro hloc
    constructor
    · refine ⟨_, ?_, fun S ops sparsity space_comps immersed_comps hchk =>
        sparsity_of_checks_pass ops cache space_dh immersed_dh fe_v.toQuadraturePoints sparsity
          space_comps immersed_comps hchk⟩
      intro p hp
      exact ((sparsity_calls_located cache space_dh immersed_dh fe_v.toQuadraturePoints hloc
        p).1 hp).2.2
    · refine ⟨_, ?_, fun M ops matrix space_comps immersed_comps hchk =>
        ⟨_, matrix_of_checks_pass ops cache o_fe_v space_dh immersed_dh fe_v matrix
          space_comps immersed_comps hchk⟩⟩
      intro bk hbk
      exact (owned_buckets_located cache space_dh immersed_dh fe_v.toQuadraturePoints hloc
        bk hbk).2.2
  · intro hnone
    constructor
    · intro S ops sparsity space_comps immersed_comps
      by_cases hchk : sparsity_checks_pass ops space_dh immersed_dh sparsity space_comps
          immersed_comps
      · rw [sparsity_of_checks_pass _ _ _ _ _ _ _ _ hchk, sparsity_calls_nil _ _ _ _ _ hnone]
        rfl
      · obtain ⟨e, he⟩ := sparsity_of_checks_fail ops cache space_dh immersed_dh
          fe_v.toQuadraturePoints sparsity space_comps immersed_comps hchk
        rw [he]
    · intro M ops matrix space_comps immersed_comps
      by_cases hchk : matrix_checks_pass ops space_dh immersed_dh matrix space_comps
          immersed_comps
      · rw [matrix_of_checks_pass _ _ _ _ _ _ _ _ _ hchk, owned_buckets_nil _ _ _ _ hnone]
        rfl
      · obtain ⟨e, he⟩ := matrix_of_checks_fail ops cache o_fe_v space_dh immersed_dh
          fe_v matrix space_comps immersed_comps hchk
        rw [he]

/-- Witness of C8: the example locator respects its contract, and with the
locator that finds no point the pattern stays empty and the zero matrix stays
zero. -/
theorem unmatched_points_contribute_nothing_witness :
    (create_coupling_sparsity_pattern registering_constraints Example.cache_outside
      Example.space_dh Example.immersed_dh Example.fe_v.toQuadraturePoints ⟨3, 3, []⟩
      ⟨[]⟩ ⟨[]⟩).2 = ⟨3, 3, []⟩ ∧
    (create_coupling_mass_matrix unconstrained Example.cache_outside Example.o_fe_v
      Example.space_dh Example.immersed_dh Example.fe_v (GlobalMatrix.zero 3 3)
      ⟨[]⟩ ⟨[]⟩).2 = GlobalMatrix.zero 3 3 ∧
    ∃ calls : List (Cell × Nat),
      ∀ p ∈ calls, has_located_point Example.fe_v.n_q_points
        (located Example.cache Example.fe_v.toQuadraturePoints Example.immersed_dh) p.1 p.2 :=
  ⟨((unmatched_points_contribute_nothing Example.cache_outside Example.o_fe_v
      Example.space_dh Example.immersed_dh Example.fe_v).2 (by decide)).1 _
      registering_constraints _ _ _,
   ((unmatched_points_contribute_nothing Example.cache_outside Example.o_fe_v
      Example.space_dh Example.immersed_dh Example.fe_v).2 (by decide)).2 _
      unconstrained _ _ _,
   (((unmatched_points_contribute_nothing Example.cache Example.o_fe_v
      Example.space_dh Example.immersed_dh Example.fe_v).1 (by decide)).1).imp
      (fun _ h => h.1)⟩

theorem getD_set_ite {α : Type} (l : List α) (i k : Nat) (v d : α) :
    (l.set i v).getD k d = if i = k ∧ i < l.length then v else l.getD k d := by
  simp only [List.getD_eq_getElem?_getD, List.getElem?_set]
  by_cases h : i = k
  · subst h
    by_cases h2 : i < l.length
    · simp [h2]
    · simp [h2]
      rw [List.getElem?_eq_none (by omega)]; rfl
  · simp [h]

theorem compacted_index_succ (c : ComponentMask) (k : Nat) :
    compacted_index c (k + 1) = compacted_index c k + (if c.get k = true then 1 else 0) := by
  unfold compacted_index
  rw [List.range_succ, List.filter_append, List.length_append]
  by_cases h : c.get k = true
  · simp [List.filter_cons, h]
  · simp [List.filter_cons, h]

theorem compacted_index_le (c : ComponentMask) (k : Nat) : compacted_index c k ≤ k := by
  unfold compacted_index
  calc ((List.range k).filter (fun i => c.get i)).length ≤ (List.range k).length :=
        List.length_filter_le _ _
    _ = k := List.length_range k

theorem global_to_local_loop_spec (n : Nat) (c : ComponentMask) (k : Nat) :
    ((List.range k).foldl
        (fun (st : List Nat × Nat) i => if c.get i then (st.1.set i st.2, st.2 + 1) else st)
        (List.replicate n invalid_unsigned_int, 0)).1.length = n ∧
    ((List.range k).foldl
        (fun (st : List Nat × Nat) i => if c.get i then (st.1.set i st.2, st.2 + 1) else st)
        (List.replicate n invalid_unsigned_int, 0)).2 = compacted_index c k ∧
    ∀ i, ((List.range k).foldl
        (fun (st : List Nat × Nat) i => if c.get i then (st.1.set i st.2, st.2 + 1) else st)
        (List.replicate n invalid_unsigned_int, 0)).1.getD i invalid_unsigned_int
      = if i < k ∧ i < n ∧ c.get i = true then compacted_index c i else invalid_unsigned_int := by
  induction k with
  | zero =>
    refine ⟨by simp, by simp [compacted_index], ?_⟩
    intro i
    simp only [List.range_zero, List.foldl_nil, List.getD_eq_getElem?_getD,
      List.getElem?_replicate]
    split_ifs <;> simp_all
  | succ k ih =>
    obtain ⟨h1, h2, h3⟩ := ih
    rw [List.range_succ, List.foldl_append, List.foldl_cons, List.foldl_nil]
    by_cases hk : c.get k = true
    · simp only [hk, if_true]
      refine ⟨by simp [h1], by rw [h2, compacted_index_succ]; simp [hk], ?_⟩
      intro i
      rw [getD_set_ite, h1, h3, h2]
      by_cases hik : k = i
      · subst hik
        by_cases hn : k < n
        · simp [hn, hk]
        · simp [hn]
      · have : (i < k + 1) ↔ (i < k) := by omega
        simp only [hik, false_and, if_false, this]
    · have hk' : c.get k = false := by simpa using hk
      simp only [hk', Bool.false_eq_true, if_false]
      refine ⟨h1, by rw [h2, compacted_index_succ]; simp [hk'], ?_⟩
      intro i
      rw [h3]
      by_cases hik : k = i
      · subst hik
        simp [hk']
      · have : (i < k + 1) ↔ (i < k) := by omega
        simp only [this]

theorem getD_global_to_local (n : Nat) (c : ComponentMask) (i : Nat) :
    (global_to_local n c).getD i invalid_unsigned_int
      = if i < n ∧ c.get i = true then compacted_index c i else invalid_unsigned_int := by
  unfold global_to_local global_to_local_loop
  rw [(global_to_local_loop_spec n c n).2.2 i]
  by_cases h : i < n
  · simp [h]
  · simp [h]

theorem gtl_coupled_iff (space_fe immersed_fe : FiniteElement) (space_c immersed_c : ComponentMask)
    (hs : ValidFE space_fe) (hi : ValidFE immersed_fe) (i j : Nat)
    (hi' : i < space_fe.dofs_per_cell) (hj' : j < immersed_fe.dofs_per_cell) :
    ((global_to_local space_fe.n_components space_c).getD
          (space_fe.system_to_component_index i) invalid_unsigned_int ≠ invalid_unsigned_int ∧
      (global_to_local space_fe.n_components space_c).getD
          (space_fe.system_to_component_index i) invalid_unsigned_int
        = (global_to_local immersed_fe.n_components immersed_c).getD
          (immersed_fe.system_to_component_index j) invalid_unsigned_int) ↔
      coupled space_fe immersed_fe space_c immersed_c i j := by
  have hci := hs.2 i hi'
  have hcj := hi.2 j hj'
  have hle := compacted_index_le space_c (space_fe.system_to_component_index i)
  have hne : compacted_index space_c (space_fe.system_to_component_index i)
      ≠ invalid_unsigned_int := by
    have := hs.1
    unfold invalid_unsigned_int
    omega
  rw [getD_global_to_local, getD_global_to_local]
  unfold coupled
  by_cases h1 : space_c.get (space_fe.system_to_component_index i) = true
  · by_cases h2 : immersed_c.get (immersed_fe.system_to_component_index j) = true
    · simp [h1, h2, hci, hcj, hne]
    · simp [h1, h2, hci, hne]
  · simp [h1]

theorem sum_range_succ_map {K : Type} [Semiring K] (f : Nat → K) (n : Nat) :
    ((List.range (n + 1)).map f).sum = ((List.range n).map f).sum + f n := by
  rw [List.range_succ, List.map_append, List.sum_append]
  simp

theorem inner_loop_apply {K : Type} [Semiring K] (i j : Nat) (f : Nat → K) (n : Nat)
    (cm : FullMatrix K) (a b : Nat) :
    ((List.range n).foldl (fun cm oq => FullMatrix.add_entry cm i j (f oq)) cm) a b
      = if a = i ∧ b = j then cm a b + ((List.range n).map f).sum else cm a b := by
  induction n with
  | zero => simp
  | succ n ih =>
    rw [List.range_succ, List.foldl_append, List.foldl_cons, List.foldl_nil]
    have e : ∀ cm' : FullMatrix K, FullMatrix.add_entry cm' i j (f n) a b
        = if a = i ∧ b = j then cm' a b + f n else cm' a b := fun _ => rfl
    rw [e, ih]
    by_cases h : a = i ∧ b = j
    · simp only [h, and_self, if_true]
      rw [← List.range_succ, sum_range_succ_map, add_assoc]
    · simp only [h, if_false]

theorem middle_loop_apply {K : Type} [Semiring K] (i : Nat) (c : Nat → Prop) [DecidablePred c]
    (f : Nat → Nat → K) (n m : Nat) (cm : FullMatrix K) (a b : Nat) :
    ((List.range m).foldl
        (fun cm j => if c j then
          (List.range n).foldl (fun cm oq => FullMatrix.add_entry cm i j (f j oq)) cm
          else cm) cm) a b
      = if a = i ∧ b < m ∧ c b then cm a b + ((List.range n).map (f b)).sum else cm a b := by
  induction m with
  | zero => simp
  | succ m ih =>
    rw [List.range_succ, List.foldl_append, List.foldl_cons, List.foldl_nil]
    by_cases hc : c m
    · rw [if_pos hc, inner_loop_apply, ih]
      by_cases hab : a = i ∧ b = m
      · obtain ⟨ha, hb⟩ := hab
        subst ha; subst hb
        simp [hc]
      · rw [if_neg hab]
        by_cases hb : b = m
        · have ha : ¬ a = i := fun h => hab ⟨h, hb⟩
          simp [ha]
        · have : (b < m + 1) ↔ (b < m) := by omega
          simp only [this]
    · rw [if_neg hc, ih]
      by_cases hb : b = m
      · subst hb
        simp [hc]
      · have : (b < m + 1) ↔ (b < m) := by omega
        simp only [this]

theorem outer_loop_apply {K : Type} [Semiring K] (d : Nat → Prop) [DecidablePred d]
    (c : Nat → Nat → Prop) [∀ i, DecidablePred (c i)]
    (f : Nat → Nat → Nat → K) (n m l : Nat) (cm : FullMatrix K) (a b : Nat) :
    ((List.range l).foldl
        (fun cm i => if d i then
          (List.range m).foldl
            (fun cm j => if c i j then
              (List.range n).foldl (fun cm oq => FullMatrix.add_entry cm i j (f i j oq)) cm
              else cm) cm
          else cm) cm) a b
      = if a < l ∧ d a ∧ b < m ∧ c a b then cm a b + ((List.range n).map (f a b)).sum
        else cm a b := by
  induction l with
  | zero => simp
  | succ l ih =>
    rw [List.range_succ, List.foldl_append, List.foldl_cons, List.foldl_nil]
    by_cases hd : d l
    · rw [if_pos hd, middle_loop_apply, ih]
      by_cases ha : a = l
      · subst ha
        simp [hd]
      · have : (a < l + 1) ↔ (a < l) := by omega
        simp only [ha, false_and, if_false, this]
    · rw [if_neg hd, ih]
      by_cases ha : a = l
      · subst ha
        simp [hd]
      · have : (a < l + 1) ↔ (a < l) := by omega
        simp only [this]

theorem assemble_cell_matrix_apply {K : Type} [Semiring K]
    (space_fe immersed_fe : FiniteElement) (space_gtl immersed_gtl : List Nat)
    (shape_value : Nat → Nat → K) (JxW : Nat → K) (o_shape_value : Nat → Nat → K)
    (n_quadrature_points : Nat) (ids : List Nat) (a b : Nat) :
    assemble_cell_matrix space_fe immersed_fe space_gtl immersed_gtl shape_value JxW
        o_shape_value n_quadrature_points ids a b
      = if a < space_fe.dofs_per_cell ∧
          space_gtl.getD (space_fe.system_to_component_index a) invalid_unsigned_int
            ≠ invalid_unsigned_int ∧
          b < immersed_fe.dofs_per_cell ∧
          space_gtl.getD (space_fe.system_to_component_index a) invalid_unsigned_int
            = immersed_gtl.getD (immersed_fe.system_to_component_index b) invalid_unsigned_int
        then ((List.range n_quadrature_points).map
          (fun oq => shape_value b (ids.getD oq 0) * o_shape_value a oq * JxW (ids.getD oq 0))).sum
        else 0 := by
  unfold assemble_cell_matrix
  have := outer_loop_apply
    (fun i => space_gtl.getD (space_fe.system_to_component_index i) invalid_unsigned_int
      ≠ invalid_unsigned_int)
    (fun i j => space_gtl.getD (space_fe.system_to_component_index i) invalid_unsigned_int
      = immersed_gtl.getD (immersed_fe.system_to_component_index j) invalid_unsigned_int)
    (fun i j oq => shape_value j (ids.getD oq 0) * o_shape_value i oq * JxW (ids.getD oq 0))
    n_quadrature_points immersed_fe.dofs_per_cell space_fe.dofs_per_cell (fun _ _ => (0 : K)) a b
  simp only [zero_add] at this
  exact this

theorem local_block_eq_coupling_block {P R K : Type} [Semiring K]
    (space_dh : SpaceDoFHandler) (immersed_dh : ImmersedDoFHandler)
    (fe_v : ImmersedFEValues P K) (o_fe_v : SpaceFEValues R K)
    (space_c immersed_c : ComponentMask)
    (hs : ValidFE space_dh.get_fe) (hi : ValidFE immersed_dh.get_fe) (bk : Bucket R) :
    local_block space_dh immersed_dh fe_v o_fe_v
        (global_to_local space_dh.get_fe.n_components space_c)
        (global_to_local immersed_dh.get_fe.n_components immersed_c) bk.j bk.ocell bk.qps bk.ids
      = coupling_block space_dh immersed_dh fe_v o_fe_v space_c immersed_c bk := by
  funext a b
  unfold local_block coupling_block
  rw [assemble_cell_matrix_apply]
  by_cases ha : a < space_dh.get_fe.dofs_per_cell
  · by_cases hb : b < immersed_dh.get_fe.dofs_per_cell
    · have := gtl_coupled_iff space_dh.get_fe immersed_dh.get_fe space_c immersed_c hs hi a b ha hb
      by_cases hc : coupled space_dh.get_fe immersed_dh.get_fe space_c immersed_c a b
      · have h' := this.2 hc
        rw [if_pos ⟨ha, h'.1, hb, h'.2⟩, if_pos ⟨ha, hb, hc⟩]
      · have h' : ¬ _ := fun h => hc (this.1 h)
        rw [if_neg (fun h => h' ⟨h.2.1, h.2.2.2⟩), if_neg (fun h => hc h.2.2)]
    · rw [if_neg (fun h => hb h.2.2.1), if_neg (fun h => hb h.2.1)]
  · rw [if_neg (fun h => ha h.1), if_neg (fun h => ha h.1)]

/-- C1. When the assertions pass, `create_coupling_mass_matrix` succeeds and its
output is the input matrix after one call of `distribute_local_to_global` for
every immersed cell and every bucket of it with a locally owned background
cell, in order, with the dof indices of the two cells and with the local block
`coupling_block` of that bucket: `block(i, j)` is the sum over the matched points
`oq` of the bucket of `immersed_shape(j, ids[oq]) * background_shape(i, oq) *
JxW(ids[oq])` when the component of `i` is selected and its compacted index
equals that of the (selected) component of `j`, and zero otherwise.  The block
is a function of its own bucket only. -/
theorem local_block_is_component_filtered_sum {P R M K : Type} [Inhabited P] [Inhabited R]
    [Semiring K] (ops : MatrixOps M K) (cache : Cache P R) (o_fe_v : SpaceFEValues R K)
    (space_dh : SpaceDoFHandler) (immersed_dh : ImmersedDoFHandler)
    (fe_v : ImmersedFEValues P K) (matrix : M) (space_comps immersed_comps : ComponentMask)
    (hchk : matrix_checks_pass ops space_dh immersed_dh matrix space_comps immersed_comps)
    (hs : ValidFE space_dh.get_fe) (hi : ValidFE immersed_dh.get_fe) :
    create_coupling_mass_matrix ops cache o_fe_v space_dh immersed_dh fe_v matrix space_comps
        immersed_comps
      = (.ok (), (owned_buckets space_dh immersed_dh.n_active_cells
          (build_containers fe_v.n_q_points immersed_dh.n_active_cells
            (located cache fe_v.toQuadraturePoints immersed_dh))).foldl
          (fun mat bk => ops.distribute_local_to_global
            (coupling_block space_dh immersed_dh fe_v o_fe_v
              (effective_mask space_comps space_dh.get_fe.n_components)
              (effective_mask immersed_comps immersed_dh.get_fe.n_components) bk)
            (space_dh.get_dof_indices bk.ocell) (immersed_dh.get_dof_indices bk.j) mat)
          matrix) := by
  rw [matrix_of_checks_pass _ _ _ _ _ _ _ _ _ hchk]
  congr 2
  funext mat bk
  rw [local_block_eq_coupling_block _ _ _ _ _ _ hs hi]

theorem add_row_el {K : Type} [Semiring K] (block : Nat → K) (r' : Nat) (cols : List Nat)
    (n : Nat) (A : GlobalMatrix K) (r s : Nat) :
    ((List.range n).foldl (fun A j => A.add r' (cols.getD j 0) (block j)) A).el r s
      = A.el r s + ((List.range n).map
          (fun j => if r' = r ∧ cols.getD j 0 = s then block j else 0)).sum := by
  induction n with
  | zero => simp
  | succ n ih =>
    rw [List.range_succ, List.foldl_append, List.foldl_cons, List.foldl_nil, List.map_append,
      List.sum_append]
    have e : ∀ B : GlobalMatrix K, (B.add r' (cols.getD n 0) (block n)).el r s
        = if r = r' ∧ s = cols.getD n 0 then B.el r s + block n else B.el r s := fun _ => rfl
    rw [e, ih]
    simp only [List.map_cons, List.map_nil, List.sum_cons, List.sum_nil, add_zero]
    by_cases h : r' = r ∧ cols.getD n 0 = s
    · have h' : r = r' ∧ s = cols.getD n 0 := ⟨h.1.symm, h.2.symm⟩
      rw [if_pos h, if_pos h', add_assoc]
    · have h' : ¬ (r = r' ∧ s = cols.getD n 0) := fun g => h ⟨g.1.symm, g.2.symm⟩
      rw [if_neg h, if_neg h', add_zero]

theorem add_row_dims {K : Type} [Semiring K] (block : Nat → K) (r' : Nat) (cols : List Nat)
    (l : List Nat) (A : GlobalMatrix K) :
    (l.foldl (fun A j => A.add r' (cols.getD j 0) (block j)) A).m = A.m ∧
    (l.foldl (fun A j => A.add r' (cols.getD j 0) (block j)) A).n = A.n := by
  induction l generalizing A with
  | nil => exact ⟨rfl, rfl⟩
  | cons j l ih => rw [List.foldl_cons]; exact ih _

theorem distribute_el {K : Type} [Semiring K] (block : FullMatrix K) (rows cols : List Nat)
    (A : GlobalMatrix K) (r s : Nat) :
    (unconstrained.distribute_local_to_global block rows cols A).el r s
      = A.el r s + contribution block rows cols r s := by
  unfold unconstrained contribution
  simp only
  generalize rows.length = n
  induction n with
  | zero => simp
  | succ n ih =>
    rw [List.range_succ, List.foldl_append, List.foldl_cons, List.foldl_nil, List.map_append,
      List.sum_append, add_row_el, ih]
    simp only [List.map_cons, List.map_nil, List.sum_cons, List.sum_nil, add_zero, add_assoc]

theorem distribute_dims {K : Type} [Semiring K] (block : FullMatrix K) (rows cols : List Nat)
    (A : GlobalMatrix K) :
    (unconstrained.distribute_local_to_global block rows cols A).m = A.m ∧
    (unconstrained.distribute_local_to_global block rows cols A).n = A.n := by
  unfold unconstrained
  simp only
  generalize List.range rows.length = l
  induction l generalizing A with
  | nil => exact ⟨rfl, rfl⟩
  | cons i l ih =>
    rw [List.foldl_cons]
    obtain ⟨h1, h2⟩ := ih ((List.range cols.length).foldl
      (fun A j => A.add (rows.getD i 0) (cols.getD j 0) (block i j)) A)
    obtain ⟨g1, g2⟩ := add_row_dims (block i) (rows.getD i 0) cols (List.range cols.length) A
    exact ⟨h1.trans g1, h2.trans g2⟩

theorem fold_distribute_el {α K : Type} [Semiring K] (block : α → FullMatrix K)
    (rows cols : α → List Nat) (calls : List α) (A : GlobalMatrix K) (r s : Nat) :
    (calls.foldl (fun mat p =>
        unconstrained.distribute_local_to_global (block p) (rows p) (cols p) mat) A).el r s
      = A.el r s + (calls.map (fun p => contribution (block p) (rows p) (cols p) r s)).sum := by
  induction calls generalizing A with
  | nil => simp
  | cons p calls ih =>
    rw [List.foldl_cons, ih, distribute_el]
    simp only [List.map_cons, List.sum_cons, add_assoc]

theorem contribution_ne_zero {K : Type} [Semiring K] (block : FullMatrix K) (rows cols : List Nat)
    (r s : Nat) (h : contribution block rows cols r s ≠ 0) :
    ∃ i j, i < rows.length ∧ j < cols.length ∧ rows.getD i 0 = r ∧ cols.getD j 0 = s ∧
      block i j ≠ 0 := by
  by_contra hcon
  apply h
  unfold contribution
  apply List.sum_eq_zero
  intro x hx
  rw [List.mem_map] at hx
  obtain ⟨i, hi, rfl⟩ := hx
  apply List.sum_eq_zero
  intro y hy
  rw [List.mem_map] at hy
  obtain ⟨j, hj, rfl⟩ := hy
  rw [List.mem_range] at hi hj
  split_ifs with hc
  · by_contra hb
    exact hcon ⟨i, j, hi, hj, hc.1, hc.2, hb⟩
  · rfl

theorem contribution_congr {K : Type} [Semiring K] (block block' : FullMatrix K)
    (rows cols : List Nat) (r s : Nat)
    (h : ∀ i j, i < rows.length → j < cols.length → rows.getD i 0 = r → cols.getD j 0 = s →
      block i j = block' i j) :
    contribution block rows cols r s = contribution block' rows cols r s := by
  unfold contribution
  congr 1
  apply List.map_congr_left
  intro i hi
  congr 1
  apply List.map_congr_left
  intro j hj
  rw [List.mem_range] at hi hj
  split_ifs with hc
  · exact h i j hi hj hc.1 hc.2
  · rfl

/-- Witness of C1: on the example (one owned and one ghost background cell, two
immersed cells) the assertions pass and both elements are valid. -/
theorem local_block_is_component_filtered_sum_witness :
    create_coupling_mass_matrix unconstrained Example.cache Example.o_fe_v Example.space_dh
        Example.immersed_dh Example.fe_v (GlobalMatrix.zero 3 3) ⟨[true, true]⟩ ⟨[false, true]⟩
      = (.ok (), (owned_buckets Example.space_dh Example.immersed_dh.n_active_cells
          (build_containers Example.fe_v.n_q_points Example.immersed_dh.n_active_cells
            (located Example.cache Example.fe_v.toQuadraturePoints Example.immersed_dh))).foldl
          (fun mat bk => unconstrained.distribute_local_to_global
            (coupling_block Example.space_dh Example.immersed_dh Example.fe_v Example.o_fe_v
              (effective_mask ⟨[true, true]⟩ Example.space_dh.get_fe.n_components)
              (effective_mask ⟨[false, true]⟩ Example.immersed_dh.get_fe.n_components) bk)
            (Example.space_dh.get_dof_indices bk.ocell)
            (Example.immersed_dh.get_dof_indices bk.j) mat)
          (GlobalMatrix.zero 3 3)) :=
  local_block_is_component_filtered_sum unconstrained Example.cache Example.o_fe_v
    Example.space_dh Example.immersed_dh Example.fe_v (GlobalMatrix.zero 3 3)
    ⟨[true, true]⟩ ⟨[false, true]⟩ (by decide) (by decide) (by decide)

/-- C3. For valid inputs (the assertions pass, the locator respects its
contract) and constraint systems without constraints, every position that holds
a nonzero value after `create_coupling_mass_matrix` was run on the zero matrix
is an entry of the pattern produced by `create_coupling_sparsity_pattern` from
the same spaces, quadrature, masks, locator and ownership. -/
theorem matrix_nonzeros_subset_sparsity {P R K : Type} [Inhabited P] [Inhabited R]
    [Semiring K] (cache : Cache P R) (o_fe_v : SpaceFEValues R K)
    (space_dh : SpaceDoFHandler) (immersed_dh : ImmersedDoFHandler)
    (fe_v : ImmersedFEValues P K) (pattern : SparsityPattern)
    (space_comps immersed_comps : ComponentMask)
    (hp : sparsity_checks_pass registering_constraints space_dh immersed_dh pattern
      space_comps immersed_comps)
    (hloc : ValidLocator cache fe_v.toQuadraturePoints immersed_dh) (r s : Nat)
    (hne : (create_coupling_mass_matrix unconstrained cache o_fe_v space_dh immersed_dh fe_v
      (GlobalMatrix.zero space_dh.n_dofs immersed_dh.n_dofs) space_comps immersed_comps).2.el r s
        ≠ 0) :
    (r, s) ∈ (create_coupling_sparsity_pattern registering_constraints cache space_dh
      immersed_dh fe_v.toQuadraturePoints pattern space_comps immersed_comps).2.entries := by
  have hm : matrix_checks_pass (unconstrained : MatrixOps (GlobalMatrix K) K) space_dh
      immersed_dh (GlobalMatrix.zero space_dh.n_dofs immersed_dh.n_dofs) space_comps
      immersed_comps := ⟨rfl, rfl, hp.2.2.1, hp.2.2.2.1, hp.2.2.2.2⟩
  rw [matrix_of_checks_pass _ _ _ _ _ _ _ _ _ hm] at hne
  simp only at hne
  rw [fold_distribute_el] at hne
  have hz : (GlobalMatrix.zero space_dh.n_dofs immersed_dh.n_dofs : GlobalMatrix K).el r s = 0 :=
    rfl
  rw [hz, zero_add] at hne
  have hex : ∃ bk ∈ owned_buckets space_dh immersed_dh.n_active_cells
      (build_containers fe_v.n_q_points immersed_dh.n_active_cells
        (located cache fe_v.toQuadraturePoints immersed_dh)),
      r ∈ space_dh.get_dof_indices bk.ocell ∧ s ∈ immersed_dh.get_dof_indices bk.j := by
    by_contra hcon
    apply hne
    apply List.sum_eq_zero
    intro x hx
    rw [List.mem_map] at hx
    obtain ⟨bk, hbk, rfl⟩ := hx
    by_contra hx0
    obtain ⟨i, j, hi, hj, hr, hs, _⟩ := contribution_ne_zero _ _ _ _ _ hx0
    apply hcon
    refine ⟨bk, hbk, ?_, ?_⟩
    · rw [← hr, List.getD_eq_getElem _ _ hi]; exact List.getElem_mem _
    · rw [← hs, List.getD_eq_getElem _ _ hj]; exact List.getElem_mem _
  obtain ⟨bk, hbk, hr, hs⟩ := hex
  obtain ⟨hj, ho, hl⟩ := owned_buckets_located cache space_dh immersed_dh
    fe_v.toQuadraturePoints hloc bk hbk
  exact registered_of_located cache space_dh immersed_dh fe_v.toQuadraturePoints pattern
    space_comps immersed_comps hp hloc bk.j bk.ocell r s hj ho hl hr hs

/-- Witness of C3: on the example the matrix entry `(0, 0)` is nonzero and is an
entry of the pattern. -/
theorem matrix_nonzeros_subset_sparsity_witness :
    (0, 0) ∈ (create_coupling_sparsity_pattern registering_constraints Example.cache
      Example.space_dh Example.immersed_dh Example.fe_v.toQuadraturePoints ⟨3, 3, []⟩
      ⟨[]⟩ ⟨[]⟩).2.entries :=
  matrix_nonzeros_subset_sparsity Example.cache Example.o_fe_v Example.space_dh
    Example.immersed_dh Example.fe_v ⟨3, 3, []⟩ ⟨[]⟩ ⟨[]⟩ (by decide) (by decide) 0 0
    (by decide)

theorem toggle_get_of_ne (mask : ComponentMask) (c k : Nat) (h : k ≠ c) :
    (mask.toggle c).get k = mask.get k := by
  unfold ComponentMask.toggle ComponentMask.get
  simp only [List.length_set]
  rw [getD_set_ite]
  have : ¬ (c = k ∧ c < mask.component_mask.length) := fun g => h g.1.symm
  rw [if_neg this]

theorem toggle_size (mask : ComponentMask) (c : Nat) : (mask.toggle c).size = mask.size := by
  unfold ComponentMask.toggle ComponentMask.size
  simp

theorem compacted_index_toggle (mask : ComponentMask) (c comp : Nat) (h : comp ≤ c) :
    compacted_index (mask.toggle c) comp = compacted_index mask comp := by
  unfold compacted_index
  congr 1
  apply List.filter_congr
  intro k hk
  rw [List.mem_range] at hk
  rw [toggle_get_of_ne mask c k (by omega)]

theorem getD_gtl_toggle (n : Nat) (mask : ComponentMask) (c comp : Nat) (h : comp < c) :
    (global_to_local n (mask.toggle c)).getD comp invalid_unsigned_int
      = (global_to_local n mask).getD comp invalid_unsigned_int := by
  rw [getD_global_to_local, getD_global_to_local, toggle_get_of_ne mask c comp (by omega),
    compacted_index_toggle mask c comp (by omega)]

theorem effective_mask_toggle (mask : ComponentMask) (c n : Nat) :
    effective_mask (mask.toggle c) n
      = if mask.size = 0 then effective_mask mask n else (effective_mask mask n).toggle c := by
  unfold effective_mask
  rw [toggle_size]
  split_ifs <;> rfl

theorem effective_mask_toggle_size (mask : ComponentMask) (c n : Nat) :
    (effective_mask (mask.toggle c) n).size = (effective_mask mask n).size := by
  rw [effective_mask_toggle]
  split_ifs
  · rfl
  · exact toggle_size _ _

theorem el_congr_of_blocks {α K : Type} [Semiring K] (block block' : α → FullMatrix K)
    (rows cols : α → List Nat) (calls : List α) (A : GlobalMatrix K) (r s : Nat)
    (h : ∀ p ∈ calls, ∀ i j, i < (rows p).length → j < (cols p).length →
      (rows p).getD i 0 = r → (cols p).getD j 0 = s → block p i j = block' p i j) :
    (calls.foldl (fun mat p =>
        unconstrained.distribute_local_to_global (block p) (rows p) (cols p) mat) A).el r s
      = (calls.foldl (fun mat p =>
        unconstrained.distribute_local_to_global (block' p) (rows p) (cols p) mat) A).el r s := by
  rw [fold_distribute_el, fold_distribute_el]
  congr 2
  apply List.map_congr_left
  intro p hp
  exact contribution_congr _ _ _ _ _ _ (h p hp)

theorem matrix_el_congr_of_tables {P R K : Type} [Inhabited P] [Inhabited R] [Semiring K]
    (cache : Cache P R) (o_fe_v : SpaceFEValues R K)
    (space_dh : SpaceDoFHandler) (immersed_dh : ImmersedDoFHandler)
    (fe_v : ImmersedFEValues P K) (matrix : GlobalMatrix K)
    (sc ic sc' ic' : ComponentMask) (r s : Nat)
    (hs : (effective_mask sc' space_dh.get_fe.n_components).size
      = (effective_mask sc space_dh.get_fe.n_components).size)
    (hi : (effective_mask ic' immersed_dh.get_fe.n_components).size
      = (effective_mask ic immersed_dh.get_fe.n_components).size)
    (hrow : ∀ b i, i < space_dh.get_fe.dofs_per_cell → (space_dh.get_dof_indices b).getD i 0 = r →
      (global_to_local space_dh.get_fe.n_components
          (effective_mask sc' space_dh.get_fe.n_components)).getD
        (space_dh.get_fe.system_to_component_index i) invalid_unsigned_int
      = (global_to_local space_dh.get_fe.n_components
          (effective_mask sc space_dh.get_fe.n_components)).getD
        (space_dh.get_fe.system_to_component_index i) invalid_unsigned_int)
    (hcol : ∀ c j, j < immersed_dh.get_fe.dofs_per_cell →
      (immersed_dh.get_dof_indices c).getD j 0 = s →
      (global_to_local immersed_dh.get_fe.n_components
          (effective_mask ic' immersed_dh.get_fe.n_components)).getD
        (immersed_dh.get_fe.system_to_component_index j) invalid_unsigned_int
      = (global_to_local immersed_dh.get_fe.n_components
          (effective_mask ic immersed_dh.get_fe.n_components)).getD
        (immersed_dh.get_fe.system_to_component_index j) invalid_unsigned_int) :
    (create_coupling_mass_matrix unconstrained cache o_fe_v space_dh immersed_dh fe_v matrix
        sc' ic').2.el r s
      = (create_coupling_mass_matrix unconstrained cache o_fe_v space_dh immersed_dh fe_v matrix
        sc ic).2.el r s := by
  by_cases hchk : matrix_checks_pass unconstrained space_dh immersed_dh matrix sc ic
  · have hchk' : matrix_checks_pass unconstrained space_dh immersed_dh matrix sc' ic' :=
      ⟨hchk.1, hchk.2.1, hchk.2.2.1, hs.trans hchk.2.2.2.1, hi.trans hchk.2.2.2.2⟩
    rw [matrix_of_checks_pass _ _ _ _ _ _ _ _ _ hchk, matrix_of_checks_pass _ _ _ _ _ _ _ _ _ hchk']
    simp only
    apply el_congr_of_blocks
    intro bk _ i j _ _ hr hc
    unfold local_block
    rw [assemble_cell_matrix_apply, assemble_cell_matrix_apply]
    by_cases hi' : i < space_dh.get_fe.dofs_per_cell
    · by_cases hj' : j < immersed_dh.get_fe.dofs_per_cell
      · rw [hrow bk.ocell i hi' hr, hcol bk.j j hj' hc]
      · rw [if_neg (fun h => hj' h.2.2.1), if_neg (fun h => hj' h.2.2.1)]
    · rw [if_neg (fun h => hi' h.1), if_neg (fun h => hi' h.1)]
  · have hchk' : ¬ matrix_checks_pass unconstrained space_dh immersed_dh matrix sc' ic' :=
      fun h => hchk ⟨h.1, h.2.1, h.2.2.1, hs.symm.trans h.2.2.2.1, hi.symm.trans h.2.2.2.2⟩
    obtain ⟨e, he⟩ := matrix_of_checks_fail unconstrained cache o_fe_v space_dh immersed_dh
      fe_v matrix sc ic hchk
    obtain ⟨e', he'⟩ := matrix_of_checks_fail unconstrained cache o_fe_v space_dh immersed_dh
      fe_v matrix sc' ic' hchk'
    rw [he, he']

theorem getD_gtl_effective_toggle (n : Nat) (mask : ComponentMask) (c comp : Nat)
    (h : comp < c) :
    (global_to_local n (effective_mask (mask.toggle c) n)).getD comp invalid_unsigned_int
      = (global_to_local n (effective_mask mask n)).getD comp invalid_unsigned_int := by
  rw [effective_mask_toggle]
  split_ifs
  · rfl
  · exact getD_gtl_toggle n _ c comp h

/-- C4 (counterexample). One background cell and one immersed cell, two
components with one dof each, both masks selecting both components: the matrix
entry `(1, 1)` is nonzero and couples component 1 with component 1; toggling
the space mask bit of component 0 changes it to zero. -/
theorem component_isolation_counterexample :
    ¬ ((create_coupling_mass_matrix unconstrained Example.one_cache Example.one_o_fe_v
          Example.one_space_dh Example.one_immersed_dh Example.one_fe_v (GlobalMatrix.zero 2 2)
          ⟨[true, true]⟩ ⟨[true, true]⟩).2.el 1 1 ≠ 0 ∧
        Example.one_space_dh.get_fe.system_to_component_index 1 ≠ 0 ∧
        Example.one_immersed_dh.get_fe.system_to_component_index 1 ≠ 0 →
      (create_coupling_mass_matrix unconstrained Example.one_cache Example.one_o_fe_v
          Example.one_space_dh Example.one_immersed_dh Example.one_fe_v (GlobalMatrix.zero 2 2)
          ((⟨[true, true]⟩ : ComponentMask).toggle 0) ⟨[true, true]⟩).2.el 1 1
        = (create_coupling_mass_matrix unconstrained Example.one_cache Example.one_o_fe_v
          Example.one_space_dh Example.one_immersed_dh Example.one_fe_v (GlobalMatrix.zero 2 2)
          ⟨[true, true]⟩ ⟨[true, true]⟩).2.el 1 1) := by
  decide

/-- C4 (amended). Component isolation below the toggled bit: with a constraint
system without constraints, toggling the space mask bit of component `c` does
not change a matrix entry `(r, s)` when every local background dof with global
index `r` has a component smaller than `c`; toggling the immersed mask bit of
component `c` does not change it when every local immersed dof with global
index `s` has a component smaller than `c`. -/
theorem component_isolation_below_toggled_bit {P R K : Type} [Inhabited P] [Inhabited R]
    [Semiring K] (cache : Cache P R) (o_fe_v : SpaceFEValues R K)
    (space_dh : SpaceDoFHandler) (immersed_dh : ImmersedDoFHandler)
    (fe_v : ImmersedFEValues P K) (matrix : GlobalMatrix K)
    (space_comps immersed_comps : ComponentMask) (c r s : Nat) :
    ((∀ b i, i < space_dh.get_fe.dofs_per_cell → (space_dh.get_dof_indices b).getD i 0 = r →
        space_dh.get_fe.system_to_component_index i < c) →
      (create_coupling_mass_matrix unconstrained cache o_fe_v space_dh immersed_dh fe_v matrix
          (space_comps.toggle c) immersed_comps).2.el r s
        = (create_coupling_mass_matrix unconstrained cache o_fe_v space_dh immersed_dh fe_v
          matrix space_comps immersed_comps).2.el r s) ∧
    ((∀ j k, k < immersed_dh.get_fe.dofs_per_cell →
        (immersed_dh.get_dof_indices j).getD k 0 = s →
        immersed_dh.get_fe.system_to_component_index k < c) →
      (create_coupling_mass_matrix unconstrained cache o_fe_v space_dh immersed_dh fe_v matrix
          space_comps (immersed_comps.toggle c)).2.el r s
        = (create_coupling_mass_matrix unconstrained cache o_fe_v space_dh immersed_dh fe_v
          matrix space_comps immersed_comps).2.el r s) := by
  constructor
  · intro h
    apply matrix_el_congr_of_tables
    · exact effective_mask_toggle_size _ _ _
    · rfl
    · intro b i hi hr
      exact getD_gtl_effective_toggle _ _ _ _ (h b i hi hr)
    · intro _ _ _ _; rfl
  · intro h
    apply matrix_el_congr_of_tables
    · rfl
    · exact effective_mask_toggle_size _ _ _
    · intro _ _ _ _; rfl
    · intro j k hk hs
      exact getD_gtl_effective_toggle _ _ _ _ (h j k hk hs)

/-- Witness of C4 (amended): in the one-cell example the entry `(0, 0)` couples
component 0 with component 0 and is unchanged when bit 1 of either mask is
toggled. -/
theorem component_isolation_below_toggled_bit_witness :
    (create_coupling_mass_matrix unconstrained Example.one_cache Example.one_o_fe_v
        Example.one_space_dh Example.one_immersed_dh Example.one_fe_v (GlobalMatrix.zero 2 2)
        ((⟨[true, true]⟩ : ComponentMask).toggle 1) ⟨[true, true]⟩).2.el 0 0
      = (create_coupling_mass_matrix unconstrained Example.one_cache Example.one_o_fe_v
        Example.one_space_dh Example.one_immersed_dh Example.one_fe_v (GlobalMatrix.zero 2 2)
        ⟨[true, true]⟩ ⟨[true, true]⟩).2.el 0 0 ∧
    (create_coupling_mass_matrix unconstrained Example.one_cache Example.one_o_fe_v
        Example.one_space_dh Example.one_immersed_dh Example.one_fe_v (GlobalMatrix.zero 2 2)
        ⟨[true, true]⟩ ((⟨[true, true]⟩ : ComponentMask).toggle 1)).2.el 0 0
      = (create_coupling_mass_matrix unconstrained Example.one_cache Example.one_o_fe_v
        Example.one_space_dh Example.one_immersed_dh Example.one_fe_v (GlobalMatrix.zero 2 2)
        ⟨[true, true]⟩ ⟨[true, true]⟩).2.el 0 0 :=
  ⟨(component_isolation_below_toggled_bit Example.one_cache Example.one_o_fe_v
      Example.one_space_dh Example.one_immersed_dh Example.one_fe_v (GlobalMatrix.zero 2 2)
      ⟨[true, true]⟩ ⟨[true, true]⟩ 1 0 0).1
      (fun _ i hi hr => by
        have hi' : i < 2 := hi
        interval_cases i
        · decide
        · exact absurd hr (by simp [Example.one_space_dh])),
   (component_isolation_below_toggled_bit Example.one_cache Example.one_o_fe_v
      Example.one_space_dh Example.one_immersed_dh Example.one_fe_v (GlobalMatrix.zero 2 2)
      ⟨[true, true]⟩ ⟨[true, true]⟩ 1 0 0).2
      (fun _ k hk hs => by
        have hk' : k < 2 := hk
        interval_cases k
        · decide
        · exact absurd hs (by simp [Example.one_immersed_dh]))⟩

theorem map_range_getD_self {α : Type} (l : List α) (d : α) :
    (List.range l.length).map (fun k => l.getD k d) = l := by
  apply List.ext_getElem
  · simp
  · intro n h1 h2
    rw [List.getElem_map, List.getElem_range, List.getD_eq_getElem _ _ h2]

theorem flatMap_range_getD {α : Type} (l : List (List α)) :
    (List.range l.length).flatMap (fun o => l.getD o []) = l.flatten := by
  rw [List.flatMap_def, map_range_getD_self]

theorem stream_indices {R : Type} [Inhabited R] (cpm : PointLocations R)
    (hlen : cpm.maps.length = cpm.cells.length) :
    (located_stream cpm).map (fun t => t.2.2) = cpm.maps.flatten := by
  unfold located_stream
  rw [List.map_flatMap, ← hlen, ← flatMap_range_getD]
  congr 1
  funext o
  rw [List.map_map]
  exact map_range_getD_self _ 0

theorem cell_indices_perm (n n_q j : Nat) (hj : j < n) :
    (((List.range (n * n_q)).filter (fun x => x / n_q == j)).map (fun x => x % n_q)).Perm
      (List.range n_q) := by
  rw [List.perm_ext_iff_of_nodup]
  · intro q
    simp only [List.mem_map, List.mem_filter, List.mem_range, beq_iff_eq]
    constructor
    · rintro ⟨x, ⟨hx, hxj⟩, rfl⟩
      have hq : 0 < n_q := by
        rcases Nat.eq_zero_or_pos n_q with h0 | h0
        · subst h0; simp at hx
        · exact h0
      exact Nat.mod_lt _ hq
    · intro hq
      refine ⟨j * n_q + q, ⟨?_, ?_⟩, ?_⟩
      · calc j * n_q + q < j * n_q + n_q := by omega
          _ = (j + 1) * n_q := by ring
          _ ≤ n * n_q := Nat.mul_le_mul_right _ (by omega)
      · rw [Nat.mul_comm, Nat.mul_add_div (by omega), Nat.div_eq_of_lt hq]; rfl
      · rw [Nat.mul_comm, Nat.mul_add_mod, Nat.mod_eq_of_lt hq]
  · apply List.Nodup.map_on
    · intro x hx y hy hxy
      simp only [List.mem_filter, beq_iff_eq] at hx hy
      have h1 := Nat.div_add_mod x n_q
      have h2 := Nat.div_add_mod y n_q
      rw [hx.2] at h1
      rw [hy.2, ← hxy] at h2
      omega
    · exact (List.nodup_range _).filter _
  · exact List.nodup_range _

theorem stream_of_cell_ids_perm {R : Type} [Inhabited R] (cpm : PointLocations R)
    (n n_q j : Nat) (hj : j < n) (hlen : cpm.maps.length = cpm.cells.length)
    (hperm : cpm.maps.flatten.Perm (List.range (n * n_q))) :
    ((stream_of_cell n_q j (located_stream cpm)).map (fun t => t.2.2)).Perm (List.range n_q) := by
  have h1 : (stream_of_cell n_q j (located_stream cpm)).map (fun t => t.2.2)
      = ((cpm.maps.flatten).filter (fun x => x / n_q == j)).map (fun x => x % n_q) := by
    rw [← stream_indices cpm hlen, List.filter_map, List.map_map]
    unfold stream_of_cell
    rw [List.map_map]
    rfl
  rw [h1]
  exact ((hperm.filter _).map _).trans (cell_indices_perm n n_q j hj)

theorem sum_map_flatMap {α β K : Type} [Semiring K] (g : α → List β) (F : β → K) (l : List α) :
    ((l.flatMap g).map F).sum = (l.map (fun a => ((g a).map F).sum)).sum := by
  induction l with
  | nil => simp
  | cons a l ih => simp [List.flatMap_cons, List.map_append, List.sum_append, ih]

theorem list_sum_range_eq_finset {K : Type} [Semiring K] (f : Nat → K) (n : Nat) :
    ((List.range n).map f).sum = ∑ k ∈ Finset.range n, f k := by
  induction n with
  | zero => simp
  | succ n ih => rw [sum_range_succ_map, Finset.sum_range_succ, ih]

theorem component_dot {K : Type} [Semiring K] (nc a b : Nat) (x y : K) (ha : a < nc) :
    ((List.range nc).map (fun k => (if k = a then x else 0) * (if k = b then y else 0))).sum
      = if a = b then x * y else 0 := by
  rw [list_sum_range_eq_finset, Finset.sum_eq_single a]
  · by_cases h : a = b
    · simp [h]
    · simp [h]
  · intro k _ hk
    simp [hk]
  · intro h
    exact absurd (Finset.mem_range.2 ha) h

theorem map_range_two_getD {α β γ δ : Type} (S : List α) (f : α → β) (g : α → γ)
    (F : β → γ → δ) (d1 : β) (d2 : γ) :
    (List.range (S.map g).length).map
        (fun k => F ((S.map f).getD k d1) ((S.map g).getD k d2))
      = S.map (fun u => F (f u) (g u)) := by
  apply List.ext_getElem
  · simp
  · intro n h1 h2
    have hn : n < S.length := by simpa using h2
    rw [List.getElem_map, List.getElem_range, List.getElem_map,
      List.getD_eq_getElem _ _ (by simpa using hn), List.getD_eq_getElem _ _ (by simpa using hn),
      List.getElem_map, List.getElem_map]

theorem compacted_index_all_selected (c : ComponentMask) (comp : Nat)
    (h : ∀ k, k < comp → c.get k = true) : compacted_index c comp = comp := by
  unfold compacted_index
  rw [List.filter_eq_self.2]
  · exact List.length_range comp
  · intro k hk
    exact h k (List.mem_range.1 hk)

theorem coupled_all_selected (fe : FiniteElement) (sc ic : ComponentMask) (hfe : ValidFE fe)
    (hs : ∀ k, k < fe.n_components → sc.get k = true)
    (hi : ∀ k, k < fe.n_components → ic.get k = true) (i j : Nat)
    (hi' : i < fe.dofs_per_cell) (hj' : j < fe.dofs_per_cell) :
    coupled fe fe sc ic i j ↔ fe.system_to_component_index i = fe.system_to_component_index j := by
  have hci := hfe.2 i hi'
  have hcj := hfe.2 j hj'
  unfold coupled
  rw [compacted_index_all_selected sc _ (fun k hk => hs k (by omega)),
    compacted_index_all_selected ic _ (fun k hk => hi k (by omega))]
  constructor
  · exact fun h => h.2.2
  · exact fun h => ⟨hs _ hci, hi _ hcj, h⟩

theorem contribution_zero {K : Type} [Semiring K] (block : FullMatrix K) (rows cols : List Nat)
    (r s : Nat) (h : ∀ i j, block i j = 0) : contribution block rows cols r s = 0 := by
  by_contra hne
  obtain ⟨i, j, _, _, _, _, hb⟩ := contribution_ne_zero block rows cols r s hne
  exact hb (h i j)

theorem identity_stream_own_cell {P R K : Type} [Inhabited P] [Inhabited R]
    {cache : Cache P R} {o_fe_v : SpaceFEValues R K}
    {space_dh : SpaceDoFHandler} {immersed_dh : ImmersedDoFHandler}
    {fe_v : ImmersedFEValues P K} {sc ic : ComponentMask} {phi : Cell → Nat → R → K}
    (h : IdentityCase cache o_fe_v space_dh immersed_dh fe_v sc ic phi) (j : Nat) :
    ∀ u ∈ stream_of_cell fe_v.n_q_points j
        (located_stream (located cache fe_v.toQuadraturePoints immersed_dh)),
      u.1 = j ∧ ∀ i, phi j i u.2.1 = fe_v.shape_value j i u.2.2 := by
  intro u hu
  unfold stream_of_cell at hu
  rw [List.mem_map] at hu
  obtain ⟨t, ht, rfl⟩ := hu
  rw [List.mem_filter] at ht
  have hj : t.2.2 / fe_v.n_q_points = j := by simpa using ht.2
  have h1 : t.1 = j := (h.own_cell t ht.1).trans hj
  refine ⟨h1, ?_⟩
  intro i
  have := h.own_coordinate t ht.1 i
  rw [h1] at this
  exact this

theorem identity_cell_buckets {P R K : Type} [Inhabited P] [Inhabited R]
    {cache : Cache P R} {o_fe_v : SpaceFEValues R K}
    {space_dh : SpaceDoFHandler} {immersed_dh : ImmersedDoFHandler}
    {fe_v : ImmersedFEValues P K} {sc ic : ComponentMask} {phi : Cell → Nat → R → K}
    (h : IdentityCase cache o_fe_v space_dh immersed_dh fe_v sc ic phi) (j : Nat)
    (hj : j < immersed_dh.n_active_cells) :
    ((build_containers fe_v.n_q_points immersed_dh.n_active_cells
          (located cache fe_v.toQuadraturePoints immersed_dh)).cell_container.getD j [] = [] ∧
      stream_of_cell fe_v.n_q_points j
        (located_stream (located cache fe_v.toQuadraturePoints immersed_dh)) = []) ∨
    ((build_containers fe_v.n_q_points immersed_dh.n_active_cells
          (located cache fe_v.toQuadraturePoints immersed_dh)).cell_container.getD j [] = [j] ∧
      ((build_containers fe_v.n_q_points immersed_dh.n_active_cells
          (located cache fe_v.toQuadraturePoints immersed_dh)).qpoints_container.getD j []).getD 0 []
        = (stream_of_cell fe_v.n_q_points j
            (located_stream (located cache fe_v.toQuadraturePoints immersed_dh))).map
              (fun u => u.2.1) ∧
      ((build_containers fe_v.n_q_points immersed_dh.n_active_cells
          (located cache fe_v.toQuadraturePoints immersed_dh)).maps_container.getD j []).getD 0 []
        = (stream_of_cell fe_v.n_q_points j
            (located_stream (located cache fe_v.toQuadraturePoints immersed_dh))).map
              (fun u => u.2.2)) := by
  obtain ⟨_, _, _, h4⟩ := build_containers_inv fe_v.n_q_points immersed_dh.n_active_cells
    (located cache fe_v.toQuadraturePoints immersed_dh)
  obtain ⟨_, _, hnd, g4, g5⟩ := h4 j hj
  simp only [Containers.bucket_lists] at hnd g4 g5
  have hS := identity_stream_own_cell h j
  generalize hcs : (build_containers fe_v.n_q_points immersed_dh.n_active_cells
    (located cache fe_v.toQuadraturePoints immersed_dh)).cell_container.getD j [] = cs
    at hnd g4 g5 ⊢
  generalize stream_of_cell fe_v.n_q_points j
    (located_stream (located cache fe_v.toQuadraturePoints immersed_dh)) = S at g4 g5 hS ⊢
  have hall : ∀ x ∈ cs, x = j := by
    intro x hx
    obtain ⟨k, hk, hkx⟩ := List.mem_iff_getElem.1 hx
    obtain ⟨_, _, u, hu, huk⟩ := g5 k hk
    rw [List.getD_eq_getElem _ _ hk, hkx] at huk
    rw [← huk]; exact (hS u hu).1
  match cs, hnd, g4, g5, hall with
  | [], _, g4, _, _ =>
    left
    refine ⟨rfl, ?_⟩
    apply List.eq_nil_iff_forall_not_mem.2
    intro u hu
    have := g4 u hu
    simp at this
  | [a], _, _, g5, hall =>
    right
    have ha : a = j := hall a (by simp)
    subst ha
    obtain ⟨e1, e2, _⟩ := g5 0 (by simp)
    have hf : S.filter (fun t => t.1 == [a].getD 0 0) = S := by
      rw [List.filter_eq_self]
      intro u hu
      simp [(hS u hu).1]
    rw [hf] at e1 e2
    exact ⟨rfl, e1, e2⟩
  | a :: b :: tl, hnd, _, _, hall =>
    exfalso
    have ha : a = j := hall a (by simp)
    have hb : b = j := hall b (by simp)
    rw [ha, hb] at hnd
    simp at hnd

theorem cell_mass_matrix_eq {P K : Type} [CommSemiring K] (fe : FiniteElement)
    (fe_v : ImmersedFEValues P K) (c a b : Nat) (hfe : ValidFE fe) :
    cell_mass_matrix fe fe_v c a b
      = if a < fe.dofs_per_cell ∧ b < fe.dofs_per_cell ∧
          fe.system_to_component_index a = fe.system_to_component_index b then
          ((List.range fe_v.n_q_points).map
            (fun q => fe_v.shape_value c a q * fe_v.shape_value c b q * fe_v.JxW c q)).sum
        else 0 := by
  unfold cell_mass_matrix
  by_cases ha : a < fe.dofs_per_cell
  · by_cases hb : b < fe.dofs_per_cell
    · rw [if_pos ⟨ha, hb⟩]
      by_cases hcomp : fe.system_to_component_index a = fe.system_to_component_index b
      · rw [if_pos ⟨ha, hb, hcomp⟩]
        congr 1
        apply List.map_congr_left
        intro q _
        unfold shape_value_component
        rw [component_dot _ _ _ _ _ (hfe.2 a ha), if_pos hcomp]
      · rw [if_neg (fun g => hcomp g.2.2)]
        apply List.sum_eq_zero
        intro x hx
        rw [List.mem_map] at hx
        obtain ⟨q, _, rfl⟩ := hx
        unfold shape_value_component
        rw [component_dot _ _ _ _ _ (hfe.2 a ha), if_neg hcomp, zero_mul]
    · rw [if_neg (fun g => hb g.2), if_neg (fun g => hb g.2.1)]
  · rw [if_neg (fun g => ha g.1), if_neg (fun g => ha g.1)]

theorem identity_block {P R K : Type} [Inhabited P] [Inhabited R] [CommSemiring K]
    {cache : Cache P R} {o_fe_v : SpaceFEValues R K}
    {space_dh : SpaceDoFHandler} {immersed_dh : ImmersedDoFHandler}
    {fe_v : ImmersedFEValues P K} {sc ic : ComponentMask} {phi : Cell → Nat → R → K}
    (h : IdentityCase cache o_fe_v space_dh immersed_dh fe_v sc ic phi) (j : Nat)
    (hj : j < immersed_dh.n_active_cells) :
    coupling_block space_dh immersed_dh fe_v o_fe_v
        (effective_mask sc space_dh.get_fe.n_components)
        (effective_mask ic immersed_dh.get_fe.n_components)
        { j := j
          ocell := j
          qps := (stream_of_cell fe_v.n_q_points j
            (located_stream (located cache fe_v.toQuadraturePoints immersed_dh))).map
              (fun u => u.2.1)
          ids := (stream_of_cell fe_v.n_q_points j
            (located_stream (located cache fe_v.toQuadraturePoints immersed_dh))).map
              (fun u => u.2.2) }
      = cell_mass_matrix immersed_dh.get_fe fe_v j := by
  have hS := identity_stream_own_cell h j
  have hperm := stream_of_cell_ids_perm (located cache fe_v.toQuadraturePoints immersed_dh)
    immersed_dh.n_active_cells fe_v.n_q_points j hj h.valid_locator.2.1 h.every_point_once
  generalize stream_of_cell fe_v.n_q_points j
    (located_stream (located cache fe_v.toQuadraturePoints immersed_dh)) = S at hS hperm ⊢
  funext a b
  rw [cell_mass_matrix_eq _ _ _ _ _ h.valid_fe]
  unfold coupling_block
  simp only
  rw [h.same_fe]
  by_cases ha : a < immersed_dh.get_fe.dofs_per_cell
  · by_cases hb : b < immersed_dh.get_fe.dofs_per_cell
    · have hc := coupled_all_selected immersed_dh.get_fe _ _ h.valid_fe h.space_all_selected
        h.immersed_all_selected a b ha hb
      by_cases hcomp : immersed_dh.get_fe.system_to_component_index a
          = immersed_dh.get_fe.system_to_component_index b
      · rw [if_pos ⟨ha, hb, hc.2 hcomp⟩, if_pos ⟨ha, hb, hcomp⟩]
        have e1 : (List.range (S.map (fun u => u.2.1)).length).map
            (fun oq => fe_v.shape_value j b ((S.map (fun u => u.2.2)).getD oq 0)
              * o_fe_v.shape_value j (S.map (fun u => u.2.1)) a oq
              * fe_v.JxW j ((S.map (fun u => u.2.2)).getD oq 0))
            = (List.range (S.map (fun u => u.2.1)).length).map
            (fun oq => fe_v.shape_value j b ((S.map (fun u => u.2.2)).getD oq 0)
              * phi j a ((S.map (fun u => u.2.1)).getD oq default)
              * fe_v.JxW j ((S.map (fun u => u.2.2)).getD oq 0)) := by
          apply List.map_congr_left
          intro oq hoq
          rw [h.pointwise j _ a oq (List.mem_range.1 hoq)]
        rw [e1, map_range_two_getD S (fun u => u.2.2) (fun u => u.2.1)
          (fun q x => fe_v.shape_value j b q * phi j a x * fe_v.JxW j q) 0 default]
        have e2 : S.map (fun u => fe_v.shape_value j b u.2.2 * phi j a u.2.1 * fe_v.JxW j u.2.2)
            = (S.map (fun u => u.2.2)).map
              (fun q => fe_v.shape_value j a q * fe_v.shape_value j b q * fe_v.JxW j q) := by
          rw [List.map_map]
          apply List.map_congr_left
          intro u hu
          simp only [Function.comp]
          rw [(hS u hu).2 a, mul_comm (fe_v.shape_value j b u.2.2)]
        rw [e2]
        exact (hperm.map _).sum_eq
      · rw [if_neg (fun g => hcomp (hc.1 g.2.2)), if_neg (fun g => hcomp g.2.2)]
    · rw [if_neg (fun g => hb g.2.1), if_neg (fun g => hb g.2.1)]
  · rw [if_neg (fun g => ha g.1), if_neg (fun g => ha g.1)]

theorem identity_cell_bucket_sum {P R K : Type} [Inhabited P] [Inhabited R] [CommSemiring K]
    {cache : Cache P R} {o_fe_v : SpaceFEValues R K}
    {space_dh : SpaceDoFHandler} {immersed_dh : ImmersedDoFHandler}
    {fe_v : ImmersedFEValues P K} {sc ic : ComponentMask} {phi : Cell → Nat → R → K}
    (h : IdentityCase cache o_fe_v space_dh immersed_dh fe_v sc ic phi) (r s j : Nat)
    (hj : j < immersed_dh.n_active_cells) :
    ((((List.range ((build_containers fe_v.n_q_points immersed_dh.n_active_cells
            (located cache fe_v.toQuadraturePoints immersed_dh)).cell_container.getD j []).length).filter
          (fun c => space_dh.is_locally_owned
            (((build_containers fe_v.n_q_points immersed_dh.n_active_cells
              (located cache fe_v.toQuadraturePoints immersed_dh)).cell_container.getD j []).getD
                c default))).map
        (fun c => ({ j := j
                     ocell := ((build_containers fe_v.n_q_points immersed_dh.n_active_cells
                        (located cache fe_v.toQuadraturePoints immersed_dh)).cell_container.getD
                          j []).getD c default
                     qps := ((build_containers fe_v.n_q_points immersed_dh.n_active_cells
                        (located cache fe_v.toQuadraturePoints immersed_dh)).qpoints_container.getD
                          j []).getD c []
                     ids := ((build_containers fe_v.n_q_points immersed_dh.n_active_cells
                        (located cache fe_v.toQuadraturePoints immersed_dh)).maps_container.getD
                          j []).getD c [] } : Bucket R))).map
      (fun bk => contribution
        (coupling_block space_dh immersed_dh fe_v o_fe_v
          (effective_mask sc space_dh.get_fe.n_components)
          (effective_mask ic immersed_dh.get_fe.n_components) bk)
        (space_dh.get_dof_indices bk.ocell) (immersed_dh.get_dof_indices bk.j) r s)).sum
      = contribution (cell_mass_matrix immersed_dh.get_fe fe_v j)
          (immersed_dh.get_dof_indices j) (immersed_dh.get_dof_indices j) r s := by
  rcases identity_cell_buckets h j hj with ⟨hcs, hS⟩ | ⟨hcs, hq, hm⟩
  · rw [hcs]
    have hperm := stream_of_cell_ids_perm (located cache fe_v.toQuadraturePoints immersed_dh)
      immersed_dh.n_active_cells fe_v.n_q_points j hj h.valid_locator.2.1 h.every_point_once
    rw [hS] at hperm
    have hnq : fe_v.n_q_points = 0 := by
      have := hperm.length_eq
      simpa using this.symm
    symm
    simp only [List.length_nil, List.range_zero, List.filter_nil, List.map_nil, List.sum_nil]
    apply contribution_zero
    intro a b
    unfold cell_mass_matrix
    rw [hnq]
    simp
  · rw [hcs]
    have hown : space_dh.is_locally_owned j = true := h.owned j hj
    have hl : (List.range [j].length).filter
        (fun c => space_dh.is_locally_owned (([j] : List Cell).getD c default)) = [0] := by
      simp [List.range_succ, List.filter_cons, hown]
    rw [hl]
    simp only [List.map_cons, List.map_nil, List.sum_cons, List.sum_nil, add_zero]
    have hd : ([j] : List Cell).getD 0 default = j := rfl
    rw [hd, hq, hm, h.same_dofs j hj, identity_block h j hj]

theorem identity_matrix_el {P R K : Type} [Inhabited P] [Inhabited R] [CommSemiring K]
    {cache : Cache P R} {o_fe_v : SpaceFEValues R K}
    {space_dh : SpaceDoFHandler} {immersed_dh : ImmersedDoFHandler}
    {fe_v : ImmersedFEValues P K} {sc ic : ComponentMask} {phi : Cell → Nat → R → K}
    (h : IdentityCase cache o_fe_v space_dh immersed_dh fe_v sc ic phi) (r s : Nat) :
    (create_coupling_mass_matrix unconstrained cache o_fe_v space_dh immersed_dh fe_v
        (GlobalMatrix.zero space_dh.n_dofs immersed_dh.n_dofs) sc ic).2.el r s
      = (standard_mass_matrix immersed_dh fe_v).el r s := by
  have hchk : matrix_checks_pass (unconstrained : MatrixOps (GlobalMatrix K) K) space_dh
      immersed_dh (GlobalMatrix.zero space_dh.n_dofs immersed_dh.n_dofs) sc ic := by
    refine ⟨rfl, rfl, h.not_distributed, ?_, h.immersed_mask_size⟩
    rw [h.same_fe]; exact h.space_mask_size
  have hvs : ValidFE space_dh.get_fe := by rw [h.same_fe]; exact h.valid_fe
  rw [matrix_of_checks_pass _ _ _ _ _ _ _ _ _ hchk]
  simp only
  unfold standard_mass_matrix
  rw [fold_distribute_el, fold_distribute_el]
  have hz : ∀ m n : Nat, (GlobalMatrix.zero m n : GlobalMatrix K).el r s = 0 := fun _ _ => rfl
  rw [hz, hz]
  congr 1
  have e : (fun bk : Bucket R => contribution
        (local_block space_dh immersed_dh fe_v o_fe_v
          (global_to_local space_dh.get_fe.n_components
            (effective_mask sc space_dh.get_fe.n_components))
          (global_to_local immersed_dh.get_fe.n_components
            (effective_mask ic immersed_dh.get_fe.n_components)) bk.j bk.ocell bk.qps bk.ids)
        (space_dh.get_dof_indices bk.ocell) (immersed_dh.get_dof_indices bk.j) r s)
      = (fun bk : Bucket R => contribution
        (coupling_block space_dh immersed_dh fe_v o_fe_v
          (effective_mask sc space_dh.get_fe.n_components)
          (effective_mask ic immersed_dh.get_fe.n_components) bk)
        (space_dh.get_dof_indices bk.ocell) (immersed_dh.get_dof_indices bk.j) r s) := by
    funext bk
    rw [local_block_eq_coupling_block _ _ _ _ _ _ hvs h.valid_fe]
  rw [e]
  unfold owned_buckets
  rw [sum_map_flatMap]
  congr 1
  apply List.map_congr_left
  intro j hj
  exact identity_cell_bucket_sum h r s j (List.mem_range.1 hj)

theorem cell_mass_matrix_symm {P K : Type} [CommSemiring K] (fe : FiniteElement)
    (fe_v : ImmersedFEValues P K) (c a b : Nat) :
    cell_mass_matrix fe fe_v c a b = cell_mass_matrix fe fe_v c b a := by
  unfold cell_mass_matrix
  by_cases h : a < fe.dofs_per_cell ∧ b < fe.dofs_per_cell
  · rw [if_pos h, if_pos ⟨h.2, h.1⟩]
    congr 1
    apply List.map_congr_left
    intro q _
    congr 2
    apply List.map_congr_left
    intro k _
    exact mul_comm _ _
  · rw [if_neg h, if_neg (fun g => h ⟨g.2, g.1⟩)]

theorem contribution_symm {K : Type} [CommSemiring K] (block : FullMatrix K) (d : List Nat)
    (r s : Nat) (hb : ∀ i j, block i j = block j i) :
    contribution block d d r s = contribution block d d s r := by
  unfold contribution
  rw [list_sum_range_eq_finset, list_sum_range_eq_finset]
  simp only [list_sum_range_eq_finset]
  rw [Finset.sum_comm]
  apply Finset.sum_congr rfl
  intro i _
  apply Finset.sum_congr rfl
  intro j _
  by_cases h : d.getD j 0 = r ∧ d.getD i 0 = s
  · rw [if_pos h, if_pos ⟨h.2, h.1⟩, hb]
  · rw [if_neg h, if_neg (fun g => h ⟨g.2, g.1⟩)]

theorem standard_mass_matrix_symm {P K : Type} [CommSemiring K]
    (dh : ImmersedDoFHandler) (fe_v : ImmersedFEValues P K) (r s : Nat) :
    (standard_mass_matrix dh fe_v).el r s = (standard_mass_matrix dh fe_v).el s r := by
  unfold standard_mass_matrix
  rw [fold_distribute_el, fold_distribute_el]
  have hz : ∀ a b : Nat, (GlobalMatrix.zero dh.n_dofs dh.n_dofs : GlobalMatrix K).el a b = 0 :=
    fun _ _ => rfl
  rw [hz, hz]
  congr 2
  apply List.map_congr_left
  intro c _
  exact contribution_symm _ _ _ _ (cell_mass_matrix_symm dh.get_fe fe_v c)

theorem cell_mass_diag_nonneg {P K : Type} [LinearOrderedCommRing K] (fe : FiniteElement)
    (fe_v : ImmersedFEValues P K) (c i : Nat) (hfe : ValidFE fe)
    (hJ : ∀ q, q < fe_v.n_q_points → 0 ≤ fe_v.JxW c q) :
    0 ≤ cell_mass_matrix fe fe_v c i i := by
  rw [cell_mass_matrix_eq _ _ _ _ _ hfe]
  split_ifs
  · apply List.sum_nonneg
    intro x hx
    rw [List.mem_map] at hx
    obtain ⟨q, hq, rfl⟩ := hx
    exact mul_nonneg (mul_self_nonneg _) (hJ q (List.mem_range.1 hq))
  · exact le_refl _

theorem cell_mass_diag_pos {P K : Type} [LinearOrderedCommRing K] (fe : FiniteElement)
    (fe_v : ImmersedFEValues P K) (c i : Nat) (hfe : ValidFE fe)
    (hJ : ∀ q, q < fe_v.n_q_points → 0 ≤ fe_v.JxW c q) (hi : i < fe.dofs_per_cell)
    (q0 : Nat) (hq0 : q0 < fe_v.n_q_points) (hsv : fe_v.shape_value c i q0 ≠ 0)
    (hJ0 : 0 < fe_v.JxW c q0) :
    0 < cell_mass_matrix fe fe_v c i i := by
  rw [cell_mass_matrix_eq _ _ _ _ _ hfe, if_pos ⟨hi, hi, rfl⟩]
  have hnn : ∀ x ∈ (List.range fe_v.n_q_points).map
      (fun q => fe_v.shape_value c i q * fe_v.shape_value c i q * fe_v.JxW c q), 0 ≤ x := by
    intro x hx
    rw [List.mem_map] at hx
    obtain ⟨q, hq, rfl⟩ := hx
    exact mul_nonneg (mul_self_nonneg _) (hJ q (List.mem_range.1 hq))
  have hmem : fe_v.shape_value c i q0 * fe_v.shape_value c i q0 * fe_v.JxW c q0 ∈
      (List.range fe_v.n_q_points).map
        (fun q => fe_v.shape_value c i q * fe_v.shape_value c i q * fe_v.JxW c q) :=
    List.mem_map.2 ⟨q0, List.mem_range.2 hq0, rfl⟩
  exact lt_of_lt_of_le (mul_pos (mul_self_pos.2 hsv) hJ0) (List.single_le_sum hnn _ hmem)

theorem contribution_diag_terms_nonneg {K : Type} [LinearOrderedCommRing K]
    (block : FullMatrix K) (d : List Nat) (r : Nat) (hnd : d.Nodup)
    (hb : ∀ i, 0 ≤ block i i) (i j : Nat) (hi : i < d.length) (hj : j < d.length) :
    0 ≤ (if d.getD i 0 = r ∧ d.getD j 0 = r then block i j else 0) := by
  split_ifs with h
  · have hij : i = j := by
      have := h.1.trans h.2.symm
      rw [List.getD_eq_getElem _ _ hi, List.getD_eq_getElem _ _ hj] at this
      exact (hnd.getElem_inj_iff).1 this
    subst hij
    exact hb i
  · exact le_refl _

theorem contribution_diag_nonneg {K : Type} [LinearOrderedCommRing K]
    (block : FullMatrix K) (d : List Nat) (r : Nat) (hnd : d.Nodup)
    (hb : ∀ i, 0 ≤ block i i) : 0 ≤ contribution block d d r r := by
  unfold contribution
  apply List.sum_nonneg
  intro x hx
  rw [List.mem_map] at hx
  obtain ⟨i, hi, rfl⟩ := hx
  apply List.sum_nonneg
  intro y hy
  rw [List.mem_map] at hy
  obtain ⟨j, hj, rfl⟩ := hy
  exact contribution_diag_terms_nonneg block d r hnd hb i j (List.mem_range.1 hi)
    (List.mem_range.1 hj)

theorem contribution_diag_pos {K : Type} [LinearOrderedCommRing K]
    (block : FullMatrix K) (d : List Nat) (r : Nat) (hnd : d.Nodup)
    (hb : ∀ i, 0 ≤ block i i) (i0 : Nat) (hi0 : i0 < d.length) (hr : d.getD i0 0 = r)
    (hpos : 0 < block i0 i0) : 0 < contribution block d d r r := by
  unfold contribution
  have hrow : ∀ i, i < d.length → ∀ y ∈ (List.range d.length).map
      (fun j => if d.getD i 0 = r ∧ d.getD j 0 = r then block i j else 0), 0 ≤ y := by
    intro i hi y hy
    rw [List.mem_map] at hy
    obtain ⟨j, hj, rfl⟩ := hy
    exact contribution_diag_terms_nonneg block d r hnd hb i j hi (List.mem_range.1 hj)
  have hrows : ∀ x ∈ (List.range d.length).map
      (fun i => ((List.range d.length).map
        (fun j => if d.getD i 0 = r ∧ d.getD j 0 = r then block i j else 0)).sum), 0 ≤ x := by
    intro x hx
    rw [List.mem_map] at hx
    obtain ⟨i, hi, rfl⟩ := hx
    exact List.sum_nonneg (hrow i (List.mem_range.1 hi))
  have h1 : block i0 i0 ≤ ((List.range d.length).map
      (fun j => if d.getD i0 0 = r ∧ d.getD j 0 = r then block i0 j else 0)).sum := by
    apply List.single_le_sum (hrow i0 hi0)
    rw [List.mem_map]
    exact ⟨i0, List.mem_range.2 hi0, by rw [if_pos ⟨hr, hr⟩]⟩
  have h2 : ((List.range d.length).map
      (fun j => if d.getD i0 0 = r ∧ d.getD j 0 = r then block i0 j else 0)).sum ≤ _ :=
    List.single_le_sum hrows _ (List.mem_map.2 ⟨i0, List.mem_range.2 hi0, rfl⟩)
  exact lt_of_lt_of_le hpos (h1.trans h2)

theorem standard_mass_matrix_diag_pos {P K : Type} [LinearOrderedCommRing K]
    (dh : ImmersedDoFHandler) (fe_v : ImmersedFEValues P K) (r : Nat) (hfe : ValidFE dh.get_fe)
    (hJ : ∀ c, c < dh.n_active_cells → ∀ q, q < fe_v.n_q_points → 0 ≤ fe_v.JxW c q)
    (hnd : ∀ c, c < dh.n_active_cells → (dh.get_dof_indices c).Nodup)
    (hex : ∃ c, c < dh.n_active_cells ∧ ∃ i, i < dh.get_fe.dofs_per_cell ∧
      i < (dh.get_dof_indices c).length ∧ (dh.get_dof_indices c).getD i 0 = r ∧
      ∃ q, q < fe_v.n_q_points ∧ fe_v.shape_value c i q ≠ 0 ∧ 0 < fe_v.JxW c q) :
    0 < (standard_mass_matrix dh fe_v).el r r := by
  unfold standard_mass_matrix
  rw [fold_distribute_el]
  have hz : (GlobalMatrix.zero dh.n_dofs dh.n_dofs : GlobalMatrix K).el r r = 0 := rfl
  rw [hz, zero_add]
  obtain ⟨c0, hc0, i0, hi0, hi0', hr, q0, hq0, hsv, hJ0⟩ := hex
  have hnn : ∀ x ∈ (List.range dh.n_active_cells).map
      (fun c => contribution (cell_mass_matrix dh.get_fe fe_v c) (dh.get_dof_indices c)
        (dh.get_dof_indices c) r r), 0 ≤ x := by
    intro x hx
    rw [List.mem_map] at hx
    obtain ⟨c, hc, rfl⟩ := hx
    have hc' := List.mem_range.1 hc
    exact contribution_diag_nonneg _ _ _ (hnd c hc')
      (fun i => cell_mass_diag_nonneg _ _ _ _ hfe (hJ c hc'))
  have hpos : 0 < contribution (cell_mass_matrix dh.get_fe fe_v c0) (dh.get_dof_indices c0)
      (dh.get_dof_indices c0) r r :=
    contribution_diag_pos _ _ _ (hnd c0 hc0)
      (fun i => cell_mass_diag_nonneg _ _ _ _ hfe (hJ c0 hc0)) i0 hi0' hr
      (cell_mass_diag_pos _ _ _ _ hfe (hJ c0 hc0) hi0 q0 hq0 hsv hJ0)
  exact lt_of_lt_of_le hpos
    (List.single_le_sum hnn _ (List.mem_map.2 ⟨c0, List.mem_range.2 hc0, rfl⟩))

/-- C9 (counterexample). An identity case (one cell, a scalar element with two
dofs, one quadrature point at which the second shape function vanishes, both
masks empty): the diagonal entry `(1, 1)` of the assembled matrix is zero, not
strictly positive. -/
theorem identity_case_diagonal_counterexample :
    IdentityCase Example.id_cache Example.id_o_fe_v Example.id_space_dh Example.id_immersed_dh
      Example.id_fe_v ⟨[]⟩ ⟨[]⟩ Example.id_phi ∧
    ¬ (0 < (create_coupling_mass_matrix unconstrained Example.id_cache Example.id_o_fe_v
      Example.id_space_dh Example.id_immersed_dh Example.id_fe_v (GlobalMatrix.zero 2 2)
      ⟨[]⟩ ⟨[]⟩).2.el 1 1) := by
  refine ⟨?_, by decide⟩
  exact
    { same_fe := rfl
      same_n_dofs := rfl
      same_dofs := fun _ _ => rfl
      owned := fun _ _ => rfl
      valid_fe := by decide
      not_distributed := rfl
      space_mask_size := by decide
      immersed_mask_size := by decide
      space_all_selected := by decide
      immersed_all_selected := by decide
      valid_locator := by decide
      own_cell := by decide
      every_point_once := by decide
      pointwise := fun _ _ _ _ _ => rfl
      own_coordinate := fun _ _ _ => rfl }

/-- C9 (amended). In the identity case `create_coupling_mass_matrix`, started on
the zero matrix with a constraint system without constraints, succeeds and
reproduces the standard single-space mass matrix (the local matrices
`sum over q of phi_i(q) . phi_j(q) * JxW(q)` distributed to the dofs of each
cell); this matrix is symmetric; and its diagonal entry `(r, r)` is strictly
positive provided the weights `JxW` are nonnegative, the dof indices of each
cell are pairwise distinct, and some cell has a local dof with global index `r`
whose shape function is nonzero at a quadrature point of positive weight. -/
theorem identity_case_reproduces_mass_matrix {P R K : Type} [Inhabited P] [Inhabited R]
    [LinearOrderedCommRing K] (cache : Cache P R) (o_fe_v : SpaceFEValues R K)
    (space_dh : SpaceDoFHandler) (immersed_dh : ImmersedDoFHandler)
    (fe_v : ImmersedFEValues P K) (space_comps immersed_comps : ComponentMask)
    (phi : Cell → Nat → R → K)
    (h : IdentityCase cache o_fe_v space_dh immersed_dh fe_v space_comps immersed_comps phi) :
    (create_coupling_mass_matrix unconstrained cache o_fe_v space_dh immersed_dh fe_v
      (GlobalMatrix.zero space_dh.n_dofs immersed_dh.n_dofs) space_comps immersed_comps).1
        = .ok () ∧
    (∀ r s, (create_coupling_mass_matrix unconstrained cache o_fe_v space_dh immersed_dh fe_v
        (GlobalMatrix.zero space_dh.n_dofs immersed_dh.n_dofs) space_comps immersed_comps).2.el r s
      = (standard_mass_matrix immersed_dh fe_v).el r s) ∧
    (∀ r s, (create_coupling_mass_matrix unconstrained cache o_fe_v space_dh immersed_dh fe_v
        (GlobalMatrix.zero space_dh.n_dofs immersed_dh.n_dofs) space_comps immersed_comps).2.el r s
      = (create_coupling_mass_matrix unconstrained cache o_fe_v space_dh immersed_dh fe_v
        (GlobalMatrix.zero space_dh.n_dofs immersed_dh.n_dofs) space_comps
          immersed_comps).2.el s r) ∧
    (∀ r,
      (∀ c, c < immersed_dh.n_active_cells → ∀ q, q < fe_v.n_q_points → 0 ≤ fe_v.JxW c q) →
      (∀ c, c < immersed_dh.n_active_cells → (immersed_dh.get_dof_indices c).Nodup) →
      (∃ c, c < immersed_dh.n_active_cells ∧ ∃ i, i < immersed_dh.get_fe.dofs_per_cell ∧
        i < (immersed_dh.get_dof_indices c).length ∧
        (immersed_dh.get_dof_indices c).getD i 0 = r ∧
        ∃ q, q < fe_v.n_q_points ∧ fe_v.shape_value c i q ≠ 0 ∧ 0 < fe_v.JxW c q) →
      0 < (create_coupling_mass_matrix unconstrained cache o_fe_v space_dh immersed_dh fe_v
        (GlobalMatrix.zero space_dh.n_dofs immersed_dh.n_dofs) space_comps
          immersed_comps).2.el r r) := by
  have hel := identity_matrix_el h
  refine ⟨?_, hel, ?_, ?_⟩
  · have hchk : matrix_checks_pass (unconstrained : MatrixOps (GlobalMatrix K) K) space_dh
        immersed_dh (GlobalMatrix.zero space_dh.n_dofs immersed_dh.n_dofs) space_comps
        immersed_comps := by
      refine ⟨rfl, rfl, h.not_distributed, ?_, h.immersed_mask_size⟩
      rw [h.same_fe]; exact h.space_mask_size
    rw [matrix_of_checks_pass _ _ _ _ _ _ _ _ _ hchk]
  · intro r s
    rw [hel, hel]
    exact standard_mass_matrix_symm immersed_dh fe_v r s
  · intro r hJ hnd hex
    rw [hel]
    exact standard_mass_matrix_diag_pos immersed_dh fe_v r h.valid_fe hJ hnd hex

/-- Witness of C9 (amended): the one-cell example with unit shape values and
unit weight is an identity case, and its diagonal entry `(0, 0)` is positive. -/
theorem identity_case_reproduces_mass_matrix_witness :
    0 < (create_coupling_mass_matrix unconstrained Example.one_cache Example.one_o_fe_v
      Example.one_space_dh Example.one_immersed_dh Example.one_fe_v (GlobalMatrix.zero 2 2)
      ⟨[]⟩ ⟨[true, true]⟩).2.el 0 0 :=
  (identity_case_reproduces_mass_matrix Example.one_cache Example.one_o_fe_v
    Example.one_space_dh Example.one_immersed_dh Example.one_fe_v ⟨[]⟩ ⟨[true, true]⟩
    Example.one_phi
    { same_fe := rfl
      same_n_dofs := rfl
      same_dofs := fun _ _ => rfl
      owned := fun _ _ => rfl
      valid_fe := by decide
      not_distributed := rfl
      space_mask_size := by decide
      immersed_mask_size := by decide
      space_all_selected := by decide
      immersed_all_selected := by decide
      valid_locator := by decide
      own_cell := by decide
      every_point_once := by decide
      pointwise := fun _ _ _ _ _ => rfl
      own_coordinate := fun _ _ _ => rfl }).2.2.2 0
    (fun _ _ _ _ => by show (0 : Int) ≤ 1; decide)
    (fun _ _ => by show ([0, 1] : List Nat).Nodup; decide)
    ⟨0, by decide, 0, by decide, by decide, by decide, 0, by decide, by decide, by decide⟩

theorem compacted_index_mono (c : ComponentMask) (a b : Nat) (h : a ≤ b) :
    compacted_index c a ≤ compacted_index c b := by
  induction b with
  | zero =>
    have : a = 0 := by omega
    subst this; exact le_refl _
  | succ b ih =>
    by_cases hab : a = b + 1
    · subst hab; exact le_refl _
    · have := ih (by omega)
      rw [compacted_index_succ]
      omega

theorem compacted_index_lt_of_selected (c : ComponentMask) (i j : Nat) (hij : i < j)
    (hi : c.get i = true) : compacted_index c i < compacted_index c j := by
  have h1 := compacted_index_mono c (i + 1) j (by omega)
  rw [compacted_index_succ, if_pos hi] at h1
  omega

theorem compacted_index_surj (c : ComponentMask) (n m : Nat) (hm : m < compacted_index c n) :
    ∃ i, i < n ∧ c.get i = true ∧ compacted_index c i = m := by
  induction n with
  | zero => simp [compacted_index] at hm
  | succ n ih =>
    rw [compacted_index_succ] at hm
    by_cases hlt : m < compacted_index c n
    · obtain ⟨i, hi, hs, he⟩ := ih hlt
      exact ⟨i, by omega, hs, he⟩
    · by_cases hn : c.get n = true
      · rw [if_pos hn] at hm
        exact ⟨n, by omega, hn, by omega⟩
      · rw [if_neg hn] at hm
        omega

/-- C11. Mask compaction.  The global-to-local table built from a mask maps each
selected component `i` to the number of selected components with index smaller
than `i`, and every other component to the invalid sentinel; on the selected
components it is strictly increasing and onto `{0, ..., k-1}`, where `k` is the
number of selected components; and, for valid elements, the coupling test of the
assembler holds for a local background dof `i` and a local immersed dof `j`
exactly when both their components are selected and have equal compacted
indices, so a local block entry is nonzero only for such a pair. -/
theorem mask_compaction {K : Type} [Semiring K]
    (space_fe immersed_fe : FiniteElement) (space_c immersed_c : ComponentMask)
    (hs : ValidFE space_fe) (hi : ValidFE immersed_fe) :
    (∀ (n : Nat) (c : ComponentMask),
      (∀ i, i < n → (global_to_local n c).getD i invalid_unsigned_int
        = if c.get i = true then compacted_index c i else invalid_unsigned_int) ∧
      (∀ i j, i < j → j < n → c.get i = true → c.get j = true →
        (global_to_local n c).getD i invalid_unsigned_int
          < (global_to_local n c).getD j invalid_unsigned_int) ∧
      (∀ i, i < n → c.get i = true →
        (global_to_local n c).getD i invalid_unsigned_int < compacted_index c n) ∧
      (∀ m, m < compacted_index c n →
        ∃ i, i < n ∧ c.get i = true ∧
          (global_to_local n c).getD i invalid_unsigned_int = m)) ∧
    (∀ i j, i < space_fe.dofs_per_cell → j < immersed_fe.dofs_per_cell →
      (((global_to_local space_fe.n_components space_c).getD
            (space_fe.system_to_component_index i) invalid_unsigned_int
          ≠ invalid_unsigned_int ∧
        (global_to_local space_fe.n_components space_c).getD
            (space_fe.system_to_component_index i) invalid_unsigned_int
          = (global_to_local immersed_fe.n_components immersed_c).getD
            (immersed_fe.system_to_component_index j) invalid_unsigned_int) ↔
        coupled space_fe immersed_fe space_c immersed_c i j)) ∧
    (∀ (shape_value : Nat → Nat → K) (JxW : Nat → K) (o_shape_value : Nat → Nat → K)
      (n_quadrature_points : Nat) (ids : List Nat) (i j : Nat),
      assemble_cell_matrix space_fe immersed_fe
          (global_to_local space_fe.n_components space_c)
          (global_to_local immersed_fe.n_components immersed_c)
          shape_value JxW o_shape_value n_quadrature_points ids i j ≠ 0 →
        coupled space_fe immersed_fe space_c immersed_c i j) := by
  refine ⟨?_, ?_, ?_⟩
  · intro n c
    refine ⟨?_, ?_, ?_, ?_⟩
    · intro i hi'
      rw [getD_global_to_local]
      simp only [hi', true_and]
    · intro i j hij hj hci hcj
      rw [getD_global_to_local, getD_global_to_local, if_pos ⟨by omega, hci⟩, if_pos ⟨hj, hcj⟩]
      exact compacted_index_lt_of_selected c i j hij hci
    · intro i hi' hci
      rw [getD_global_to_local, if_pos ⟨hi', hci⟩]
      exact compacted_index_lt_of_selected c i n hi' hci
    · intro m hm
      obtain ⟨i, hi', hci, he⟩ := compacted_index_surj c n m hm
      refine ⟨i, hi', hci, ?_⟩
      rw [getD_global_to_local, if_pos ⟨hi', hci⟩, he]
  · intro i j hi' hj'
    exact gtl_coupled_iff space_fe immersed_fe space_c immersed_c hs hi i j hi' hj'
  · intro shape_value JxW o_shape_value n_quadrature_points ids i j hne
    rw [assemble_cell_matrix_apply] at hne
    split_ifs at hne with hc
    · exact (gtl_coupled_iff space_fe immersed_fe space_c immersed_c hs hi i j hc.1 hc.2.2.1).1
        ⟨hc.2.1, hc.2.2.2⟩
    · exact absurd rfl hne

/-- Witness of C11: the two-component element of the example and the masks
`[false, true]` and `[true, true]`. -/
theorem mask_compaction_witness :
    (global_to_local 2 ⟨[false, true]⟩).getD 0 invalid_unsigned_int = invalid_unsigned_int ∧
    (global_to_local 2 ⟨[false, true]⟩).getD 1 invalid_unsigned_int = 0 ∧
    (coupled Example.fe Example.fe ⟨[false, true]⟩ ⟨[true, true]⟩ 1 0 ↔
      ((global_to_local Example.fe.n_components ⟨[false, true]⟩).getD
            (Example.fe.system_to_component_index 1) invalid_unsigned_int
          ≠ invalid_unsigned_int ∧
        (global_to_local Example.fe.n_components ⟨[false, true]⟩).getD
            (Example.fe.system_to_component_index 1) invalid_unsigned_int
          = (global_to_local Example.fe.n_components ⟨[true, true]⟩).getD
            (Example.fe.system_to_component_index 0) invalid_unsigned_int)) :=
  ⟨by decide, by decide,
    ((mask_compaction (K := Int) Example.fe Example.fe ⟨[false, true]⟩ ⟨[true, true]⟩
      (by decide) (by decide)).2.1 1 0 (by decide) (by decide)).symm⟩

theorem fold_set_length {P : Type} (f : Nat → Nat) (g : Nat → P) (l : List Nat) (ap : List P) :
    (l.foldl (fun ap k => ap.set (f k) (g k)) ap).length = ap.length := by
  induction l generalizing ap with
  | nil => rfl
  | cons k l ih => rw [List.foldl_cons, ih, List.length_set]

theorem copy_points_fold_getD {P : Type} [Inhabited P] (x_points : List P) (offset : Nat)
    (all_points : List P) (m : Nat) (p : Nat) :
    ((List.range m).foldl
        (fun ap k => ap.set (offset + k) (x_points.getD k default)) all_points).getD p default
      = if offset ≤ p ∧ p < offset + m ∧ p < all_points.length then
          x_points.getD (p - offset) default
        else all_points.getD p default := by
  induction m with
  | zero =>
    have : ¬ (offset ≤ p ∧ p < offset + 0 ∧ p < all_points.length) := by omega
    rw [if_neg this]; rfl
  | succ m ih =>
    rw [List.range_succ, List.foldl_append, List.foldl_cons, List.foldl_nil, getD_set_ite, ih,
      fold_set_length (fun k => offset + k) (fun k => x_points.getD k default)]
    by_cases h1 : offset + m = p ∧ offset + m < all_points.length
    · rw [if_pos h1]
      have : offset ≤ p ∧ p < offset + (m + 1) ∧ p < all_points.length := by omega
      rw [if_pos this]
      have : p - offset = m := by omega
      rw [this]
    · rw [if_neg h1]
      by_cases h2 : offset ≤ p ∧ p < offset + m ∧ p < all_points.length
      · rw [if_pos h2, if_pos (by omega)]
      · rw [if_neg h2, if_neg (by omega)]

theorem copy_points_getD {P : Type} [Inhabited P] (x_points : List P) (offset : Nat)
    (all_points : List P) (p : Nat) :
    (copy_points x_points offset all_points).getD p default
      = if offset ≤ p ∧ p < offset + x_points.length ∧ p < all_points.length then
          x_points.getD (p - offset) default
        else all_points.getD p default :=
  copy_points_fold_getD x_points offset all_points x_points.length p

theorem collect_fold_length {P : Type} [Inhabited P] (quad : QuadraturePoints P)
    (l : List Nat) (ap : List P) :
    (l.foldl (fun ap c =>
      copy_points (quad.get_quadrature_points c) ((c * quad.n_q_points) % 2 ^ 32) ap) ap).length
        = ap.length := by
  induction l generalizing ap with
  | nil => rfl
  | cons k l ih => rw [List.foldl_cons, ih, copy_points_length]

theorem collect_fold_getD {P : Type} [Inhabited P] (quad : QuadraturePoints P)
    (n_active_c : Nat) (hq : ∀ c, c < n_active_c →
      (quad.get_quadrature_points c).length = quad.n_q_points)
    (hno : n_active_c * quad.n_q_points < 2 ^ 32) (ap : List P)
    (hap : ap.length = n_active_c * quad.n_q_points) (m : Nat) (hm : m ≤ n_active_c) (p : Nat) :
    ((List.range m).foldl (fun ap c =>
        copy_points (quad.get_quadrature_points c) ((c * quad.n_q_points) % 2 ^ 32) ap)
        ap).getD p default
      = if p < m * quad.n_q_points then
          (quad.get_quadrature_points (p / quad.n_q_points)).getD (p % quad.n_q_points) default
        else ap.getD p default := by
  induction m with
  | zero => simp
  | succ m ih =>
    have hmn : m < n_active_c := by omega
    have hmul : m * quad.n_q_points + quad.n_q_points ≤ n_active_c * quad.n_q_points := by
      calc m * quad.n_q_points + quad.n_q_points = (m + 1) * quad.n_q_points := by ring
        _ ≤ n_active_c * quad.n_q_points := Nat.mul_le_mul_right _ hm
    have hoff : (m * quad.n_q_points) % 2 ^ 32 = m * quad.n_q_points :=
      Nat.mod_eq_of_lt (by omega)
    rw [List.range_succ, List.foldl_append, List.foldl_cons, List.foldl_nil, copy_points_getD,
      collect_fold_length, hoff, hq m hmn, ih (by omega), hap]
    have hsucc : (m + 1) * quad.n_q_points = m * quad.n_q_points + quad.n_q_points := by ring
    rw [hsucc]
    by_cases h1 : m * quad.n_q_points ≤ p ∧ p < m * quad.n_q_points + quad.n_q_points ∧
        p < n_active_c * quad.n_q_points
    · rw [if_pos h1, if_pos h1.2.1]
      have hqpos : 0 < quad.n_q_points := by omega
      have hdiv : p / quad.n_q_points = m := by
        apply Nat.div_eq_of_lt_le
        · exact h1.1
        · rw [hsucc]; exact h1.2.1
      have hmod : p % quad.n_q_points = p - m * quad.n_q_points := by
        have := Nat.div_add_mod p quad.n_q_points
        rw [hdiv, Nat.mul_comm] at this
        omega
      rw [hdiv, hmod]
    · rw [if_neg h1]
      by_cases h2 : p < m * quad.n_q_points
      · rw [if_pos h2, if_pos (by omega)]
      · rw [if_neg h2, if_neg (by omega)]

theorem collect_all_points_getD {P : Type} [Inhabited P] (quad : QuadraturePoints P)
    (n_active_c : Nat) (hq : ∀ c, c < n_active_c →
      (quad.get_quadrature_points c).length = quad.n_q_points)
    (hno : n_active_c * quad.n_q_points < 2 ^ 32) (p : Nat)
    (hp : p < n_active_c * quad.n_q_points) :
    (collect_all_points quad n_active_c).getD p default
      = (quad.get_quadrature_points (p / quad.n_q_points)).getD (p % quad.n_q_points) default := by
  unfold collect_all_points
  rw [collect_fold_getD quad n_active_c hq hno _ (by rw [List.length_replicate,
    Nat.mod_eq_of_lt hno]) n_active_c (le_refl _) p, if_pos hp]

/-- C12. Cell-major point layout.  When every immersed cell yields exactly `n_q`
quadrature points and the `unsigned int` product `n_cells * n_q` does not wrap,
the flat buffer `all_points` has length `n_cells * n_q`, its entry `c * n_q + q`
is the `q`-th quadrature point of cell `c`, every point index `p` belongs to
cell `p div n_q` at local index `p mod n_q`, and this is how the two
operations decode a located index: on the index `c * n_q + q` the clustering
step works on `cell_sets[c]` and the bucket step works on the buckets of cell
`c` with the local quadrature index `q`. -/
theorem all_points_cell_major {P R : Type} [Inhabited P] (quad : QuadraturePoints P)
    (n_active_c : Nat)
    (hq : ∀ c, c < n_active_c → (quad.get_quadrature_points c).length = quad.n_q_points)
    (hno : n_active_c * quad.n_q_points < 2 ^ 32) :
    (collect_all_points quad n_active_c).length = n_active_c * quad.n_q_points ∧
    (∀ c q, c < n_active_c → q < quad.n_q_points →
      (collect_all_points quad n_active_c).getD (c * quad.n_q_points + q) default
        = (quad.get_quadrature_points c).getD q default) ∧
    (∀ p, p < n_active_c * quad.n_q_points →
      p / quad.n_q_points < n_active_c ∧ p % quad.n_q_points < quad.n_q_points ∧
      (collect_all_points quad n_active_c).getD p default
        = (quad.get_quadrature_points (p / quad.n_q_points)).getD (p % quad.n_q_points)
            default) ∧
    (∀ c q (cell : Cell) (st : List (List Cell) × Nat), q < quad.n_q_points →
      cluster_step quad.n_q_points cell st (c * quad.n_q_points + q)
        = if st.2 ≠ c then (st.1.set c (set_insert cell (st.1.getD c [])), c) else st) ∧
    (∀ c q (cell : Cell) (qpoint : R) (st : Containers R), q < quad.n_q_points →
      bucket_step quad.n_q_points cell qpoint (c * quad.n_q_points + q) st
        = { cell_container := st.cell_container.set c
              (bucket_local cell qpoint q (st.bucket_lists c)).1
            qpoints_container := st.qpoints_container.set c
              (bucket_local cell qpoint q (st.bucket_lists c)).2.1
            maps_container := st.maps_container.set c
              (bucket_local cell qpoint q (st.bucket_lists c)).2.2 }) := by
  have hdec : ∀ c q, q < quad.n_q_points →
      (c * quad.n_q_points + q) / quad.n_q_points = c ∧
      (c * quad.n_q_points + q) % quad.n_q_points = q := by
    intro c q hq'
    constructor
    · rw [Nat.mul_comm, Nat.mul_add_div (by omega), Nat.div_eq_of_lt hq']; rfl
    · rw [Nat.mul_comm, Nat.mul_add_mod, Nat.mod_eq_of_lt hq']
  refine ⟨?_, ?_, ?_, ?_, ?_⟩
  · rw [collect_all_points_length, Nat.mod_eq_of_lt hno]
  · intro c q hc hq'
    have hp : c * quad.n_q_points + q < n_active_c * quad.n_q_points := by
      calc c * quad.n_q_points + q < c * quad.n_q_points + quad.n_q_points := by omega
        _ = (c + 1) * quad.n_q_points := by ring
        _ ≤ n_active_c * quad.n_q_points := Nat.mul_le_mul_right _ hc
    rw [collect_all_points_getD quad n_active_c hq hno _ hp, (hdec c q hq').1, (hdec c q hq').2]
  · intro p hp
    have hqpos : 0 < quad.n_q_points := by
      rcases Nat.eq_zero_or_pos quad.n_q_points with h0 | h0
      · rw [h0] at hp; simp at hp
      · exact h0
    refine ⟨?_, Nat.mod_lt _ hqpos, collect_all_points_getD quad n_active_c hq hno p hp⟩
    rw [Nat.div_lt_iff_lt_mul hqpos]; exact hp
  · intro c q cell st hq'
    unfold cluster_step
    simp only [(hdec c q hq').1]
  · intro c q cell qpoint st hq'
    rw [bucket_step_eq, (hdec c q hq').1, (hdec c q hq').2]

/-- Witness of C12: the example quadrature, two cells with two points each. -/
theorem all_points_cell_major_witness :
    (collect_all_points Example.fe_v.toQuadraturePoints 2).length = 2 * 2 ∧
    (collect_all_points Example.fe_v.toQuadraturePoints 2).getD (1 * 2 + 1) default
      = (Example.fe_v.get_quadrature_points 1).getD 1 default :=
  ⟨(all_points_cell_major (R := Nat) Example.fe_v.toQuadraturePoints 2 (by decide)
      (by decide)).1,
   (all_points_cell_major (R := Nat) Example.fe_v.toQuadraturePoints 2 (by decide)
      (by decide)).2.1 1 1 (by decide) (by decide)⟩

theorem set_insert_sorted (b : Cell) (l : List Cell) (h : l.Sorted (· < ·)) :
    (set_insert b l).Sorted (· < ·) := by
  induction l with
  | nil => simp [set_insert]
  | cons x xs ih =>
    unfold set_insert
    split_ifs with h1 h2
    · rw [List.sorted_cons]
      refine ⟨?_, h⟩
      intro y hy
      rcases List.mem_cons.1 hy with rfl | hy'
      · exact h1
      · exact lt_trans h1 ((List.sorted_cons.1 h).1 y hy')
    · exact h
    · rw [List.sorted_cons] at h ⊢
      refine ⟨?_, ih h.2⟩
      intro y hy
      rw [mem_set_insert] at hy
      rcases hy with hy | hy'
      · rw [hy]
        exact lt_of_le_of_ne (not_lt.1 h1) (fun g => h2 g.symm)
      · exact h.1 y hy'

theorem cluster_fold_mem (n_q : Nat) (cell : Cell) (mp : List Nat) :
    ∀ st : List (List Cell) × Nat, st.1.length ≤ UINT_MAX →
      (st.1.length ≤ st.2 ∨ cell ∈ st.1.getD st.2 []) →
      (∀ c, (st.1.getD c []).Sorted (· < ·)) →
      ((mp.foldl (cluster_step n_q cell) st).1.length = st.1.length) ∧
      (∀ c, ((mp.foldl (cluster_step n_q cell) st).1.getD c []).Sorted (· < ·)) ∧
      ∀ c b, b ∈ (mp.foldl (cluster_step n_q cell) st).1.getD c [] ↔
        (b ∈ st.1.getD c [] ∨ (b = cell ∧ c < st.1.length ∧ ∃ idx ∈ mp, idx / n_q = c)) := by
  induction mp with
  | nil => intro st _ _ hso; exact ⟨rfl, hso, by simp⟩
  | cons idx mp ih =>
    intro st hlen hst hso
    rw [List.foldl_cons]
    by_cases hl : st.2 = idx / n_q
    · have hstep : cluster_step n_q cell st idx = st := by
        simp [cluster_step, hl]
      rw [hstep]
      obtain ⟨h1, h1', h2⟩ := ih st hlen hst hso
      refine ⟨h1, h1', ?_⟩
      intro c b
      rw [h2]
      constructor
      · rintro (h | ⟨hb, hc, i, hi, hic⟩)
        · exact Or.inl h
        · exact Or.inr ⟨hb, hc, i, List.mem_cons_of_mem _ hi, hic⟩
      · rintro (h | ⟨hb, hc, i, hi, hic⟩)
        · exact Or.inl h
        · rcases List.mem_cons.1 hi with heq | hi'
          · subst heq
            rcases hst with h | h
            · rw [hl, hic] at h; omega
            · rw [hl, hic] at h; subst hb; exact Or.inl h
          · exact Or.inr ⟨hb, hc, i, hi', hic⟩
    · have hstep : cluster_step n_q cell st idx
          = (st.1.set (idx / n_q) (set_insert cell (st.1.getD (idx / n_q) [])), idx / n_q) := by
        simp [cluster_step, hl]
      rw [hstep]
      have hinv : ((st.1.set (idx / n_q) (set_insert cell (st.1.getD (idx / n_q) []))).length
            ≤ idx / n_q ∨
          cell ∈ (st.1.set (idx / n_q) (set_insert cell (st.1.getD (idx / n_q) []))).getD
            (idx / n_q) []) := by
        by_cases hlt : idx / n_q < st.1.length
        · right
          rw [getD_set_nil]; simp [hlt, mem_set_insert]
        · left; simp; omega
      have hso' : ∀ c, ((st.1.set (idx / n_q) (set_insert cell (st.1.getD (idx / n_q) []))).getD
          c []).Sorted (· < ·) := by
        intro c
        rw [getD_set_nil]
        split_ifs with hc
        · exact set_insert_sorted _ _ (hso _)
        · exact hso c
      obtain ⟨h1, h1', h2⟩ := ih
        (st.1.set (idx / n_q) (set_insert cell (st.1.getD (idx / n_q) [])), idx / n_q)
        (by simpa using hlen) hinv hso'
      simp only [List.length_set] at h1 h2
      refine ⟨h1, h1', ?_⟩
      intro c b
      rw [h2, getD_set_nil]
      by_cases hc : idx / n_q = c ∧ idx / n_q < st.1.length
      · rw [if_pos hc, mem_set_insert]
        obtain ⟨hc1, hc2⟩ := hc
        constructor
        · rintro ((h | h) | ⟨hb, hc', i, hi, hic⟩)
          · exact Or.inr ⟨h, hc1 ▸ hc2, idx, List.mem_cons_self _ _, hc1⟩
          · exact Or.inl (hc1 ▸ h)
          · exact Or.inr ⟨hb, hc', i, List.mem_cons_of_mem _ hi, hic⟩
        · rintro (h | ⟨hb, hc', i, hi, hic⟩)
          · exact Or.inl (Or.inr (hc1 ▸ h))
          · exact Or.inl (Or.inl hb)
      · rw [if_neg hc]
        constructor
        · rintro (h | ⟨hb, hc', i, hi, hic⟩)
          · exact Or.inl h
          · exact Or.inr ⟨hb, hc', i, List.mem_cons_of_mem _ hi, hic⟩
        · rintro (h | ⟨hb, hc', i, hi, hic⟩)
          · exact Or.inl h
          · rcases List.mem_cons.1 hi with heq | hi'
            · subst heq
              exact absurd ⟨hic, hic ▸ hc'⟩ hc
            · exact Or.inr ⟨hb, hc', i, hi', hic⟩

theorem unconditional_fold_mem (n_q : Nat) (cell : Cell) (mp : List Nat) :
    ∀ cs : List (List Cell), (∀ c, (cs.getD c []).Sorted (· < ·)) →
      ((mp.foldl (cluster_step_unconditional n_q cell) cs).length = cs.length) ∧
      (∀ c, ((mp.foldl (cluster_step_unconditional n_q cell) cs).getD c []).Sorted (· < ·)) ∧
      ∀ c b, b ∈ (mp.foldl (cluster_step_unconditional n_q cell) cs).getD c [] ↔
        (b ∈ cs.getD c [] ∨ (b = cell ∧ c < cs.length ∧ ∃ idx ∈ mp, idx / n_q = c)) := by
  induction mp with
  | nil => intro cs hso; exact ⟨rfl, hso, by simp⟩
  | cons idx mp ih =>
    intro cs hso
    rw [List.foldl_cons]
    have hso' : ∀ c, ((cluster_step_unconditional n_q cell cs idx).getD c []).Sorted (· < ·) := by
      intro c
      unfold cluster_step_unconditional
      rw [getD_set_nil]
      split_ifs with hc
      · exact set_insert_sorted _ _ (hso _)
      · exact hso c
    obtain ⟨h1, h1', h2⟩ := ih (cluster_step_unconditional n_q cell cs idx) hso'
    have hlen : (cluster_step_unconditional n_q cell cs idx).length = cs.length := by
      simp [cluster_step_unconditional]
    rw [hlen] at h1 h2
    refine ⟨h1, h1', ?_⟩
    intro c b
    rw [h2]
    unfold cluster_step_unconditional
    rw [getD_set_nil]
    by_cases hc : idx / n_q = c ∧ idx / n_q < cs.length
    · rw [if_pos hc, mem_set_insert]
      obtain ⟨hc1, hc2⟩ := hc
      constructor
      · rintro ((h | h) | ⟨hb, hc', i, hi, hic⟩)
        · exact Or.inr ⟨h, hc1 ▸ hc2, idx, List.mem_cons_self _ _, hc1⟩
        · exact Or.inl (hc1 ▸ h)
        · exact Or.inr ⟨hb, hc', i, List.mem_cons_of_mem _ hi, hic⟩
      · rintro (h | ⟨hb, hc', i, hi, hic⟩)
        · exact Or.inl (Or.inr (hc1 ▸ h))
        · exact Or.inl (Or.inl hb)
    · rw [if_neg hc]
      constructor
      · rintro (h | ⟨hb, hc', i, hi, hic⟩)
        · exact Or.inl h
        · exact Or.inr ⟨hb, hc', i, List.mem_cons_of_mem _ hi, hic⟩
      · rintro (h | ⟨hb, hc', i, hi, hic⟩)
        · exact Or.inl h
        · rcases List.mem_cons.1 hi with heq | hi'
          · subst heq
            exact absurd ⟨hic, hic ▸ hc'⟩ hc
          · exact Or.inr ⟨hb, hc', i, hi', hic⟩

theorem outer_fold_mem (n_q : Nat)
    (F : Cell → List Nat → List (List Cell) → List (List Cell))
    (hF : ∀ cell mp (cs : List (List Cell)), cs.length ≤ UINT_MAX →
      (∀ c, (cs.getD c []).Sorted (· < ·)) →
      (F cell mp cs).length = cs.length ∧
      (∀ c, ((F cell mp cs).getD c []).Sorted (· < ·)) ∧
      ∀ c b, b ∈ (F cell mp cs).getD c [] ↔
        (b ∈ cs.getD c [] ∨ (b = cell ∧ c < cs.length ∧ ∃ idx ∈ mp, idx / n_q = c)))
    (all_cells : List Cell) (maps : List (List Nat)) (cs0 : List (List Cell))
    (hlen0 : cs0.length ≤ UINT_MAX) (hso0 : ∀ c, (cs0.getD c []).Sorted (· < ·)) (k : Nat) :
    ((List.range k).foldl
        (fun cs i => F (all_cells.getD i default) (maps.getD i []) cs) cs0).length = cs0.length ∧
    (∀ c, (((List.range k).foldl
        (fun cs i => F (all_cells.getD i default) (maps.getD i []) cs) cs0).getD c []).Sorted
          (· < ·)) ∧
    ∀ c b, b ∈ ((List.range k).foldl
        (fun cs i => F (all_cells.getD i default) (maps.getD i []) cs) cs0).getD c [] ↔
      (b ∈ cs0.getD c [] ∨ (c < cs0.length ∧ ∃ o, o < k ∧ all_cells.getD o default = b ∧
        ∃ idx ∈ maps.getD o [], idx / n_q = c)) := by
  induction k with
  | zero => exact ⟨rfl, hso0, by simp⟩
  | succ k ih =>
    obtain ⟨h1, h1', h2⟩ := ih
    rw [List.range_succ, List.foldl_append, List.foldl_cons, List.foldl_nil]
    obtain ⟨g1, g1', g2⟩ := hF (all_cells.getD k default) (maps.getD k [])
      ((List.range k).foldl
        (fun cs i => F (all_cells.getD i default) (maps.getD i []) cs) cs0)
      (by rw [h1]; exact hlen0) h1'
    refine ⟨g1.trans h1, g1', ?_⟩
    intro c b
    rw [g2, h2, h1]
    constructor
    · rintro ((h | ⟨hc, o, ho, hb, hw⟩) | ⟨hb, hc, hw⟩)
      · exact Or.inl h
      · exact Or.inr ⟨hc, o, by omega, hb, hw⟩
      · exact Or.inr ⟨hc, k, by omega, hb.symm, hw⟩
    · rintro (h | ⟨hc, o, ho, hb, hw⟩)
      · exact Or.inl (Or.inl h)
      · by_cases hok : o = k
        · subst hok; exact Or.inr ⟨hb.symm, hc, hw⟩
        · exact Or.inl (Or.inr ⟨hc, o, by omega, hb, hw⟩)

theorem build_cell_sets_spec (n_q n_active_c : Nat) (all_cells : List Cell)
    (maps : List (List Nat)) (hn : n_active_c ≤ UINT_MAX) :
    (build_cell_sets n_q n_active_c all_cells maps).length = n_active_c ∧
    (∀ c, ((build_cell_sets n_q n_active_c all_cells maps).getD c []).Sorted (· < ·)) ∧
    ∀ c b, b ∈ (build_cell_sets n_q n_active_c all_cells maps).getD c [] ↔
      (c < n_active_c ∧ ∃ o, o < maps.length ∧ all_cells.getD o default = b ∧
        ∃ idx ∈ maps.getD o [], idx / n_q = c) := by
  have hF : ∀ cell mp (cs : List (List Cell)), cs.length ≤ UINT_MAX →
      (∀ c, (cs.getD c []).Sorted (· < ·)) →
      (cluster_cell n_q cell mp cs).length = cs.length ∧
      (∀ c, ((cluster_cell n_q cell mp cs).getD c []).Sorted (· < ·)) ∧
      ∀ c b, b ∈ (cluster_cell n_q cell mp cs).getD c [] ↔
        (b ∈ cs.getD c [] ∨ (b = cell ∧ c < cs.length ∧ ∃ idx ∈ mp, idx / n_q = c)) :=
    fun cell mp cs hlen hso => cluster_fold_mem n_q cell mp (cs, UINT_MAX) hlen (Or.inl hlen) hso
  obtain ⟨h1, h2, h3⟩ := outer_fold_mem n_q (cluster_cell n_q) hF all_cells maps
    (List.replicate n_active_c []) (by simpa using hn)
    (fun c => by rw [getD_replicate_nil]; exact List.sorted_nil) maps.length
  unfold build_cell_sets
  refine ⟨by simpa using h1, h2, ?_⟩
  intro c b
  rw [h3]
  simp [getD_replicate_nil]

theorem build_cell_sets_unconditional_spec (n_q n_active_c : Nat) (all_cells : List Cell)
    (maps : List (List Nat)) (hn : n_active_c ≤ UINT_MAX) :
    (build_cell_sets_unconditional n_q n_active_c all_cells maps).length = n_active_c ∧
    (∀ c, ((build_cell_sets_unconditional n_q n_active_c all_cells maps).getD c []).Sorted
      (· < ·)) ∧
    ∀ c b, b ∈ (build_cell_sets_unconditional n_q n_active_c all_cells maps).getD c [] ↔
      (c < n_active_c ∧ ∃ o, o < maps.length ∧ all_cells.getD o default = b ∧
        ∃ idx ∈ maps.getD o [], idx / n_q = c) := by
  obtain ⟨h1, h2, h3⟩ := outer_fold_mem n_q
    (fun cell mp cs => mp.foldl (cluster_step_unconditional n_q cell) cs)
    (fun cell mp cs _ hso => unconditional_fold_mem n_q cell mp cs hso) all_cells maps
    (List.replicate n_active_c []) (by simpa using hn)
    (fun c => by rw [getD_replicate_nil]; exact List.sorted_nil) maps.length
  unfold build_cell_sets_unconditional
  refine ⟨by simpa using h1, h2, ?_⟩
  intro c b
  rw [h3]
  simp [getD_replicate_nil]

theorem sorted_lists_eq_of_mem (l₁ l₂ : List Cell) (h₁ : l₁.Sorted (· < ·))
    (h₂ : l₂.Sorted (· < ·)) (h : ∀ b, b ∈ l₁ ↔ b ∈ l₂) : l₁ = l₂ :=
  List.eq_of_perm_of_sorted ((List.perm_ext_iff_of_nodup h₁.nodup h₂.nodup).2 h) h₁ h₂

/-- C13. The compact correspondence is exact and does not depend on the
last-seen optimisation: for every locator result, after the clustering loop
`cell_sets[c]` holds exactly the background cells `b` for which some located
point index `idx` of `b` has `idx div n_q = c` (so points the locator did not
return add no entry), and `cell_sets` is the same as what the loop builds when it
inserts unconditionally for every point.  `n_active_c` is an `unsigned int`. -/
theorem compact_correspondence_exact {R : Type} (n_q_points n_active_c : Nat)
    (cpm : PointLocations R) (hn : n_active_c ≤ UINT_MAX) :
    (∀ c b, b ∈ (build_cell_sets n_q_points n_active_c cpm.cells cpm.maps).getD c [] ↔
      (c < n_active_c ∧ has_located_point n_q_points cpm b c)) ∧
    build_cell_sets n_q_points n_active_c cpm.cells cpm.maps
      = build_cell_sets_unconditional n_q_points n_active_c cpm.cells cpm.maps := by
  obtain ⟨h1, h2, h3⟩ := build_cell_sets_spec n_q_points n_active_c cpm.cells cpm.maps hn
  obtain ⟨g1, g2, g3⟩ := build_cell_sets_unconditional_spec n_q_points n_active_c cpm.cells
    cpm.maps hn
  constructor
  · intro c b
    rw [h3]
    rfl
  · apply List.ext_getElem (h1.trans g1.symm)
    intro c hc1 hc2
    have e1 := List.getD_eq_getElem (build_cell_sets n_q_points n_active_c cpm.cells cpm.maps)
      [] hc1
    have e2 := List.getD_eq_getElem
      (build_cell_sets_unconditional n_q_points n_active_c cpm.cells cpm.maps) [] hc2
    rw [← e1, ← e2]
    apply sorted_lists_eq_of_mem _ _ (h2 c) (g2 c)
    intro b
    rw [h3, g3]

/-- Witness of C13: the locator result of the example. -/
theorem compact_correspondence_exact_witness :
    build_cell_sets 2 2 [0, 1] [[0, 1, 2], [3]]
      = build_cell_sets_unconditional 2 2 [0, 1] [[0, 1, 2], [3]] :=
  (compact_correspondence_exact 2 2
    (⟨[0, 1], [[100, 101, 102], [103]], [[0, 1, 2], [3]]⟩ : PointLocations Nat)
    (by decide)).2

theorem sum_indicator_unique (m : Nat) (p : Nat → Prop) [DecidablePred p] (k0 : Nat)
    (hk0 : k0 < m) (hp : p k0) (huniq : ∀ k, k < m → p k → k = k0) :
    ((List.range m).map (fun k => if p k then 1 else 0)).sum = 1 := by
  rw [list_sum_range_eq_finset, Finset.sum_eq_single k0]
  · rw [if_pos hp]
  · intro k hk hne
    rw [if_neg]
    intro hpk
    exact hne (huniq k (Finset.mem_range.1 hk) hpk)
  · intro h
    exact absurd (Finset.mem_range.2 hk0) h

theorem sum_filter_lengths {α : Type} (S : List α) (m : Nat) (key : α → Nat → Bool)
    (h : ∀ t ∈ S, ∃ k0, k0 < m ∧ key t k0 = true ∧ ∀ k, k < m → key t k = true → k = k0) :
    ((List.range m).map (fun k => (S.filter (fun t => key t k)).length)).sum = S.length := by
  induction S with
  | nil => simp
  | cons t S ih =>
    obtain ⟨k0, hk0, hkey, huniq⟩ := h t (List.mem_cons_self _ _)
    have hS := ih (fun u hu => h u (List.mem_cons_of_mem _ hu))
    have e : (List.range m).map (fun k => ((t :: S).filter (fun t => key t k)).length)
        = (List.range m).map (fun k => (if key t k = true then 1 else 0)
            + (S.filter (fun t => key t k)).length) := by
      apply List.map_congr_left
      intro k _
      rw [List.filter_cons]
      split_ifs <;> simp [Nat.add_comm]
    rw [e, List.sum_map_add, hS, sum_indicator_unique m (fun k => key t k = true) k0 hk0 hkey huniq]
    simp [Nat.add_comm]

theorem filter_stream_of_cell {R β : Type} (n_q c : Nat) (b : Cell)
    (g : Cell × R × Nat → β) (pr : List (Cell × R × Nat)) :
    ((stream_of_cell n_q c pr).filter (fun t => t.1 == b)).map g
      = (pr.filter (fun t => t.1 == b && t.2.2 / n_q == c)).map
          (fun t => g (t.1, t.2.1, t.2.2 % n_q)) := by
  unfold stream_of_cell
  induction pr with
  | nil => rfl
  | cons t pr ih =>
    by_cases h1 : t.2.2 / n_q = c
    · by_cases h2 : t.1 = b
      · simp only [List.filter_cons, h1, h2, beq_self_eq_true, if_true, List.map_cons,
          Bool.and_self]
        rw [ih]
      · have h2' : (t.1 == b) = false := by simpa using h2
        simp only [List.filter_cons, h1, h2', beq_self_eq_true, if_true, List.map_cons,
          Bool.false_and, Bool.false_eq_true, if_false]
        rw [ih]
    · have h1' : (t.2.2 / n_q == c) = false := by simpa using h1
      simp only [List.filter_cons, h1', Bool.false_eq_true, if_false, Bool.and_false]
      rw [ih]

theorem stream_of_cell_length_sum {R : Type} (n_q n : Nat) (pr : List (Cell × R × Nat))
    (h : ∀ t ∈ pr, t.2.2 / n_q < n) :
    ((List.range n).map (fun c => (stream_of_cell n_q c pr).length)).sum = pr.length := by
  have := sum_filter_lengths pr n (fun t c => t.2.2 / n_q == c)
    (fun t ht => ⟨t.2.2 / n_q, h t ht, by simp, fun k _ hk =>
      (show t.2.2 / n_q = k by simpa using hk).symm⟩)
  rw [← this]
  congr 1
  apply List.map_congr_left
  intro c _
  simp [stream_of_cell]

theorem bucket_sizes_sum {R : Type} (pr : List (Cell × R × Nat))
    (L : List Cell × List (List R) × List (List Nat)) (h : BucketInv pr L) :
    (L.2.1.map List.length).sum = pr.length := by
  obtain ⟨h1, _, hnd, h4, h5⟩ := h
  have e1 : L.2.1.map List.length
      = (List.range L.1.length).map
          (fun k => (pr.filter (fun t => t.1 == L.1.getD k 0)).length) := by
    rw [← h1]
    apply List.ext_getElem
    · simp
    · intro k hk1 hk2
      have hk : k < L.2.1.length := by simpa using hk1
      rw [List.getElem_map, List.getElem_map, List.getElem_range,
        ← List.getD_eq_getElem _ [] hk, (h5 k (h1 ▸ hk)).1, List.length_map]
  rw [e1]
  apply sum_filter_lengths pr L.1.length (fun t k => t.1 == L.1.getD k 0)
  intro t ht
  obtain ⟨k0, hk0, hk0v⟩ := List.mem_iff_getElem.1 (h4 t ht)
  refine ⟨k0, hk0, ?_, ?_⟩
  · rw [List.getD_eq_getElem _ _ hk0, hk0v]; simp
  · intro k hk hkey
    have : t.1 = L.1.getD k 0 := by simpa using hkey
    rw [List.getD_eq_getElem _ _ hk, ← hk0v] at this
    exact ((hnd.getElem_inj_iff).1 this).symm

theorem map_eq_map_range_getD {α β : Type} (l : List α) (d : α) (f : α → β) :
    l.map f = (List.range l.length).map (fun c => f (l.getD c d)) := by
  conv_lhs => rw [← map_range_getD_self l d]
  rw [List.map_map]
  rfl

theorem stored_points_total {R : Type} (n_q n : Nat) (pr : List (Cell × R × Nat))
    (st : Containers R) (h : ContainersInv n_q n pr st) (hidx : ∀ t ∈ pr, t.2.2 / n_q < n) :
    (st.qpoints_container.map (fun qs => (qs.map List.length).sum)).sum = pr.length := by
  obtain ⟨_, h2, _, h4⟩ := h
  rw [map_eq_map_range_getD st.qpoints_container [] (fun qs => (qs.map List.length).sum), h2,
    ← stream_of_cell_length_sum n_q n pr hidx]
  congr 1
  apply List.map_congr_left
  intro c hc
  exact bucket_sizes_sum _ _ (h4 c (List.mem_range.1 hc))

/-- C14. The expanded correspondence partitions the located points.  After the
bucket-building loop the three containers have `n_active_c` entries each, and
for every immersed cell `c`: the three bucket lists have equal lengths, the
handles are pairwise distinct, a background cell `b` has a bucket exactly when
some located point of `b` has `idx div n_q = c`, and bucket `k` (of background
cell `b = cells[k]`) holds exactly the reference coordinates and the local
indices `idx mod n_q` of the located points with cell `b` and `idx div n_q = c`,
in the order the locator lists them, so that its `k`-th coordinate and `k`-th
index come from the same point; no bucket is empty.  When every located index
decodes to an immersed cell, the sizes of all buckets add up to the number of
located points: each is stored exactly once. -/
theorem expanded_correspondence_partitions {R : Type} [Inhabited R] (n_q_points n_active_c : Nat)
    (cpm : PointLocations R) :
    (build_containers n_q_points n_active_c cpm).cell_container.length = n_active_c ∧
    (build_containers n_q_points n_active_c cpm).qpoints_container.length = n_active_c ∧
    (build_containers n_q_points n_active_c cpm).maps_container.length = n_active_c ∧
    (∀ c, c < n_active_c →
      ((build_containers n_q_points n_active_c cpm).qpoints_container.getD c []).length
        = ((build_containers n_q_points n_active_c cpm).cell_container.getD c []).length ∧
      ((build_containers n_q_points n_active_c cpm).maps_container.getD c []).length
        = ((build_containers n_q_points n_active_c cpm).cell_container.getD c []).length ∧
      ((build_containers n_q_points n_active_c cpm).cell_container.getD c []).Nodup ∧
      (∀ b, b ∈ (build_containers n_q_points n_active_c cpm).cell_container.getD c [] ↔
        ∃ t ∈ located_stream cpm, t.1 = b ∧ t.2.2 / n_q_points = c) ∧
      ∀ k, k < ((build_containers n_q_points n_active_c cpm).cell_container.getD c []).length →
        (((build_containers n_q_points n_active_c cpm).qpoints_container.getD c []).getD k []
          = ((located_stream cpm).filter
              (fun t => t.1 == ((build_containers n_q_points n_active_c cpm).cell_container.getD
                c []).getD k 0 && t.2.2 / n_q_points == c)).map (fun t => t.2.1)) ∧
        (((build_containers n_q_points n_active_c cpm).maps_container.getD c []).getD k []
          = ((located_stream cpm).filter
              (fun t => t.1 == ((build_containers n_q_points n_active_c cpm).cell_container.getD
                c []).getD k 0 && t.2.2 / n_q_points == c)).map
                  (fun t => t.2.2 % n_q_points)) ∧
        ((((build_containers n_q_points n_active_c cpm).qpoints_container.getD c []).getD k []).zip
            (((build_containers n_q_points n_active_c cpm).maps_container.getD c []).getD k [])
          = ((located_stream cpm).filter
              (fun t => t.1 == ((build_containers n_q_points n_active_c cpm).cell_container.getD
                c []).getD k 0 && t.2.2 / n_q_points == c)).map
                  (fun t => (t.2.1, t.2.2 % n_q_points))) ∧
        ((build_containers n_q_points n_active_c cpm).qpoints_container.getD c []).getD k []
          ≠ []) ∧
    ((∀ t ∈ located_stream cpm, t.2.2 / n_q_points < n_active_c) →
      ((build_containers n_q_points n_active_c cpm).qpoints_container.map
          (fun qs => (qs.map List.length).sum)).sum = (located_stream cpm).length ∧
      ((build_containers n_q_points n_active_c cpm).maps_container.map
          (fun ms => (ms.map List.length).sum)).sum = (located_stream cpm).length) := by
  have hinv := build_containers_inv n_q_points n_active_c cpm
  obtain ⟨h1, h2, h3, h4⟩ := hinv
  refine ⟨h1, h2, h3, ?_, ?_⟩
  · intro c hc
    obtain ⟨g1, g2, g3, _, g5⟩ := h4 c hc
    simp only [Containers.bucket_lists] at g1 g2 g3 g5
    refine ⟨g1, g2, g3, ?_, ?_⟩
    · intro b
      rw [mem_cell_container_iff]
      simp only [hc, true_and]
    · intro k hk
      obtain ⟨e1, e2, t, ht, htk⟩ := g5 k hk
      rw [filter_stream_of_cell n_q_points c _ (fun t => t.2.1)] at e1
      rw [filter_stream_of_cell n_q_points c _ (fun t => t.2.2)] at e2
      refine ⟨e1, e2, ?_, ?_⟩
      · rw [e1, e2, List.zip_map']
      · have hne : (stream_of_cell n_q_points c (located_stream cpm)).filter
            (fun t => t.1 == ((build_containers n_q_points n_active_c cpm).cell_container.getD
              c []).getD k 0) ≠ [] := by
          intro h0
          have : t ∈ (stream_of_cell n_q_points c (located_stream cpm)).filter
              (fun t => t.1 == ((build_containers n_q_points n_active_c cpm).cell_container.getD
                c []).getD k 0) := by
            rw [List.mem_filter]
            exact ⟨ht, by simpa using htk⟩
          rw [h0] at this
          simp at this
        rw [(g5 k hk).1]
        intro h0
        exact hne (List.map_eq_nil_iff.1 h0)
  · intro hidx
    have hq := stored_points_total n_q_points n_active_c (located_stream cpm) _
      ⟨h1, h2, h3, h4⟩ hidx
    refine ⟨hq, ?_⟩
    rw [← hq]
    rw [map_eq_map_range_getD (build_containers n_q_points n_active_c cpm).maps_container []
        (fun ms => (ms.map List.length).sum), h3,
      map_eq_map_range_getD (build_containers n_q_points n_active_c cpm).qpoints_container []
        (fun qs => (qs.map List.length).sum), h2]
    congr 1
    apply List.map_congr_left
    intro c hc
    obtain ⟨g1, g2, _, _, g5⟩ := h4 c (List.mem_range.1 hc)
    simp only [Containers.bucket_lists] at g1 g2 g5
    congr 1
    apply List.ext_getElem
    · rw [List.length_map, List.length_map, g2, g1]
    · intro k hk1 hk2
      have hkm : k < ((build_containers n_q_points n_active_c cpm).maps_container.getD c
          []).length := by rw [List.length_map] at hk1; exact hk1
      have hkq : k < ((build_containers n_q_points n_active_c cpm).qpoints_container.getD c
          []).length := by rw [List.length_map] at hk2; exact hk2
      rw [List.getElem_map, List.getElem_map, ← List.getD_eq_getElem _ [] hkm,
        ← List.getD_eq_getElem _ [] hkq, (g5 k (g2 ▸ hkm)).1, (g5 k (g2 ▸ hkm)).2.1,
        List.length_map, List.length_map]

/-- Witness of C14: the locator result of the example; every index decodes to
one of the two immersed cells and the four located points are stored once. -/
theorem expanded_correspondence_partitions_witness :
    ((build_containers 2 2
        (⟨[0, 1], [[100, 101, 102], [103]], [[0, 1, 2], [3]]⟩ :
          PointLocations Nat)).qpoints_container.map
      (fun qs => (qs.map List.length).sum)).sum = 4 :=
  ((expanded_correspondence_partitions 2 2
    (⟨[0, 1], [[100, 101, 102], [103]], [[0, 1, 2], [3]]⟩ : PointLocations Nat)).2.2.2.2
    (by decide)).1

/-- C15. The two correspondence forms agree.  For a locator result whose index
list and cell list run in parallel (and `n_active_c` an `unsigned int`), for
every immersed cell `c` a background cell `b` is in `cell_sets[c]` of the
sparsity builder exactly when it is a bucket handle in `cell_container[c]` of
the matrix assembler; hence the sparsity builder calls
`add_entries_local_to_global` for the pair `(b, c)` exactly when the assembler
calls `distribute_local_to_global` for a bucket of `(b, c)`. -/
theorem correspondence_forms_agree {R : Type} [Inhabited R] (space_dh : SpaceDoFHandler)
    (n_q_points n_active_c : Nat) (cpm : PointLocations R)
    (hlen : cpm.maps.length = cpm.cells.length) (hn : n_active_c ≤ UINT_MAX) :
    (∀ c b, b ∈ (build_cell_sets n_q_points n_active_c cpm.cells cpm.maps).getD c [] ↔
      b ∈ (build_containers n_q_points n_active_c cpm).cell_container.getD c []) ∧
    ∀ b c, (b, c) ∈ sparsity_calls space_dh n_active_c
        (build_cell_sets n_q_points n_active_c cpm.cells cpm.maps) ↔
      ∃ bk ∈ owned_buckets space_dh n_active_c (build_containers n_q_points n_active_c cpm),
        bk.ocell = b ∧ bk.j = c := by
  have key : ∀ c b, b ∈ (build_cell_sets n_q_points n_active_c cpm.cells cpm.maps).getD c [] ↔
      b ∈ (build_containers n_q_points n_active_c cpm).cell_container.getD c [] := by
    intro c b
    rw [(build_cell_sets_spec n_q_points n_active_c cpm.cells cpm.maps hn).2.2 c b,
      mem_cell_container_iff, ← has_located_point_iff_stream n_q_points cpm hlen b c]
    rfl
  refine ⟨key, ?_⟩
  intro b c
  rw [mem_sparsity_calls]
  simp only
  rw [key]
  constructor
  · rintro ⟨hc, hb, ho⟩
    obtain ⟨k, hk, hkb⟩ := List.mem_iff_getElem.1 hb
    have e := List.getD_eq_getElem
      ((build_containers n_q_points n_active_c cpm).cell_container.getD c []) default hk
    refine ⟨_, (mem_owned_buckets space_dh n_active_c _ _).2
      ⟨c, hc, k, hk, ?_, rfl⟩, ?_, rfl⟩
    · rw [e, hkb]; exact ho
    · show ((build_containers n_q_points n_active_c cpm).cell_container.getD c []).getD k default
        = b
      rw [e, hkb]
  · rintro ⟨bk, hbk, hb, hj⟩
    obtain ⟨j, hjn, k, hk, ho, rfl⟩ := (mem_owned_buckets space_dh n_active_c _ _).1 hbk
    simp only at hb hj
    subst hj
    have e := List.getD_eq_getElem
      ((build_containers n_q_points n_active_c cpm).cell_container.getD j []) default hk
    refine ⟨hjn, ?_, ?_⟩
    · rw [← hb, e]; exact List.getElem_mem _
    · rw [← hb]; exact ho

/-- Witness of C15: the locator result of the example, with the background
space whose cell `1` is a ghost, at the immersed cell `1` and the background
cell `1`. -/
theorem correspondence_forms_agree_witness :
    1 ∈ (build_cell_sets 2 2 [0, 1] [[0, 1, 2], [3]]).getD 1 [] ↔
      1 ∈ (build_containers 2 2
        (⟨[0, 1], [[100, 101, 102], [103]], [[0, 1, 2], [3]]⟩ :
          PointLocations Nat)).cell_container.getD 1 [] :=
  (correspondence_forms_agree Example.space_dh 2 2
    (⟨[0, 1], [[100, 101, 102], [103]], [[0, 1, 2], [3]]⟩ : PointLocations Nat)
    (by decide) (by decide)).1 1 1

/-- C17. Bucket handles are deduplicated: for every locator result, every
number of quadrature points and every number of immersed cells, after the
bucket-building loop the handles in `cell_container[c]` are pairwise distinct
for every `c`; so the (immersed cell, background cell) pairs of the calls to
`distribute_local_to_global` are pairwise distinct: each pair yields at most one
local block. -/
theorem bucket_handles_deduplicated {R : Type} [Inhabited R] (space_dh : SpaceDoFHandler)
    (n_q_points n_active_c : Nat) (cpm : PointLocations R) :
    (∀ c, ((build_containers n_q_points n_active_c cpm).cell_container.getD c []).Nodup) ∧
    ((owned_buckets space_dh n_active_c (build_containers n_q_points n_active_c cpm)).map
      (fun bk => (bk.j, bk.ocell))).Nodup := by
  have hnd : ∀ c, ((build_containers n_q_points n_active_c cpm).cell_container.getD c
      []).Nodup := by
    intro c
    obtain ⟨h1, _, _, h4⟩ := build_containers_inv n_q_points n_active_c cpm
    by_cases hc : c < n_active_c
    · exact (h4 c hc).2.2.1
    · rw [getD_nil_of_le _ _ (by rw [h1]; exact not_lt.1 hc)]
      exact List.nodup_nil
  have hinj : ∀ c k1 k2,
      k1 < ((build_containers n_q_points n_active_c cpm).cell_container.getD c []).length →
      k2 < ((build_containers n_q_points n_active_c cpm).cell_container.getD c []).length →
      ((build_containers n_q_points n_active_c cpm).cell_container.getD c []).getD k1 default
        = ((build_containers n_q_points n_active_c cpm).cell_container.getD c []).getD k2
            default → k1 = k2 := by
    intro c k1 k2 h1 h2 he
    rw [List.getD_eq_getElem _ _ h1, List.getD_eq_getElem _ _ h2] at he
    exact (List.Nodup.getElem_inj_iff (hnd c)).1 he
  refine ⟨hnd, ?_⟩
  unfold owned_buckets
  rw [List.map_flatMap, List.nodup_flatMap]
  constructor
  · intro j _
    rw [List.map_map]
    apply List.Nodup.map_on
    · intro k1 hk1 k2 hk2 he
      have g1 := List.mem_range.1 (List.mem_filter.1 hk1).1
      have g2 := List.mem_range.1 (List.mem_filter.1 hk2).1
      exact hinj j k1 k2 g1 g2 (Prod.mk.inj he).2
    · exact List.Nodup.filter _ (List.nodup_range _)
  · apply List.Pairwise.imp _ (List.nodup_range n_active_c)
    intro j1 j2 hne
    show List.Disjoint _ _
    intro p hp1 hp2
    simp only [List.map_map, List.mem_map, Function.comp] at hp1 hp2
    obtain ⟨_, _, e1⟩ := hp1
    obtain ⟨_, _, e2⟩ := hp2
    exact hne ((Prod.mk.inj e1).1.trans (Prod.mk.inj e2).1.symm)

/-- C19. The assembler accumulates onto the caller's matrix and never clears it.
With the constraint system without constraints, for every initial matrix `M0`
(whether or not the assertions pass): the call has the same outcome as the call
on the zero matrix of the same shape, the shape is unchanged, and every entry
of the result is the entry of `M0` plus the entry of the result obtained from
the zero matrix.  When the assertions pass, the entry `(r, s)` is the entry of
`M0` plus the sum, over all buckets (immersed cell, locally owned background
cell), of the local block entries `block(i, j)` with `odofs[i] = r` and
`dofs[j] = s`: a global entry shared by several pairs receives the sum of all
their contributions. -/
theorem accumulates_onto_initial_matrix {P R K : Type} [Inhabited P] [Inhabited R]
    [Semiring K] (cache : Cache P R) (o_fe_v : SpaceFEValues R K)
    (space_dh : SpaceDoFHandler) (immersed_dh : ImmersedDoFHandler)
    (fe_v : ImmersedFEValues P K) (M0 : GlobalMatrix K)
    (space_comps immersed_comps : ComponentMask) :
    (create_coupling_mass_matrix unconstrained cache o_fe_v space_dh immersed_dh fe_v M0
        space_comps immersed_comps).1
      = (create_coupling_mass_matrix unconstrained cache o_fe_v space_dh immersed_dh fe_v
          (GlobalMatrix.zero M0.m M0.n) space_comps immersed_comps).1 ∧
    (create_coupling_mass_matrix unconstrained cache o_fe_v space_dh immersed_dh fe_v M0
        space_comps immersed_comps).2.m = M0.m ∧
    (create_coupling_mass_matrix unconstrained cache o_fe_v space_dh immersed_dh fe_v M0
        space_comps immersed_comps).2.n = M0.n ∧
    (∀ r s,
      (create_coupling_mass_matrix unconstrained cache o_fe_v space_dh immersed_dh fe_v M0
          space_comps immersed_comps).2.el r s
        = M0.el r s +
          (create_coupling_mass_matrix unconstrained cache o_fe_v space_dh immersed_dh fe_v
            (GlobalMatrix.zero M0.m M0.n) space_comps immersed_comps).2.el r s) ∧
    (matrix_checks_pass unconstrained space_dh immersed_dh M0 space_comps immersed_comps →
      ∀ r s,
        (create_coupling_mass_matrix unconstrained cache o_fe_v space_dh immersed_dh fe_v M0
            space_comps immersed_comps).2.el r s
          = M0.el r s +
            ((owned_buckets space_dh immersed_dh.n_active_cells
                (build_containers fe_v.n_q_points immersed_dh.n_active_cells
                  (located cache fe_v.toQuadraturePoints immersed_dh))).map
              (fun bk => contribution
                (local_block space_dh immersed_dh fe_v o_fe_v
                  (global_to_local space_dh.get_fe.n_components
                    (effective_mask space_comps space_dh.get_fe.n_components))
                  (global_to_local immersed_dh.get_fe.n_components
                    (effective_mask immersed_comps immersed_dh.get_fe.n_components))
                  bk.j bk.ocell bk.qps bk.ids)
                (space_dh.get_dof_indices bk.ocell) (immersed_dh.get_dof_indices bk.j)
                r s)).sum) := by
  have hdims : ∀ (α : Type) (block : α → FullMatrix K) (rows cols : α → List Nat)
      (calls : List α) (A : GlobalMatrix K),
      (calls.foldl (fun mat p =>
        unconstrained.distribute_local_to_global (block p) (rows p) (cols p) mat) A).m = A.m ∧
      (calls.foldl (fun mat p =>
        unconstrained.distribute_local_to_global (block p) (rows p) (cols p) mat) A).n
          = A.n := by
    intro α block rows cols calls
    induction calls with
    | nil => intro A; exact ⟨rfl, rfl⟩
    | cons p calls ih =>
      intro A
      rw [List.foldl_cons]
      obtain ⟨g1, g2⟩ := ih (unconstrained.distribute_local_to_global (block p) (rows p)
        (cols p) A)
      obtain ⟨d1, d2⟩ := distribute_dims (block p) (rows p) (cols p) A
      exact ⟨g1.trans d1, g2.trans d2⟩
  have hiff : matrix_checks_pass unconstrained space_dh immersed_dh
        (GlobalMatrix.zero M0.m M0.n : GlobalMatrix K) space_comps immersed_comps ↔
      matrix_checks_pass unconstrained space_dh immersed_dh M0 space_comps immersed_comps :=
    Iff.rfl
  by_cases hchk : matrix_checks_pass unconstrained space_dh immersed_dh M0 space_comps
      immersed_comps
  · have h0 := hiff.2 hchk
    rw [matrix_of_checks_pass _ _ _ _ _ _ _ _ _ hchk, matrix_of_checks_pass _ _ _ _ _ _ _ _ _ h0]
    refine ⟨rfl, (hdims _ _ _ _ _ _).1, (hdims _ _ _ _ _ _).2, ?_, ?_⟩
    · intro r s
      simp only
      rw [fold_distribute_el, fold_distribute_el]
      show _ = _ + (0 + _)
      rw [zero_add]
    · intro _ r s
      simp only
      rw [fold_distribute_el]
  · obtain ⟨e, he⟩ := matrix_of_checks_fail unconstrained cache o_fe_v space_dh immersed_dh fe_v
      M0 space_comps immersed_comps hchk
    obtain ⟨e0, he0⟩ := matrix_of_checks_fail unconstrained cache o_fe_v space_dh immersed_dh
      fe_v (GlobalMatrix.zero M0.m M0.n : GlobalMatrix K) space_comps immersed_comps
      (fun h => hchk (hiff.1 h))
    refine ⟨?_, ?_, ?_, ?_, fun h => absurd h hchk⟩
    · have e1 : (unconstrained : MatrixOps (GlobalMatrix K) K).m
          (GlobalMatrix.zero M0.m M0.n) = (unconstrained : MatrixOps (GlobalMatrix K) K).m M0 :=
        rfl
      have e2 : (unconstrained : MatrixOps (GlobalMatrix K) K).n
          (GlobalMatrix.zero M0.m M0.n) = (unconstrained : MatrixOps (GlobalMatrix K) K).n M0 :=
        rfl
      unfold create_coupling_mass_matrix matrix_checks_pass at *
      simp only [e1, e2]
      split_ifs with h1 h2 h3 h4 h5
      · rfl
      · rfl
      · rfl
      · rfl
      · rfl
      · exact absurd ⟨not_not.1 h1, not_not.1 h2, by simpa using h3, not_not.1 h4,
          not_not.1 h5⟩ hchk
    · rw [he]
    · rw [he]
    · intro r s
      rw [he, he0]
      show M0.el r s = M0.el r s + 0
      rw [add_zero]

/-- Witness of C19: on the example, starting from the matrix with every entry
`7`, the entry `(0, 0)` is `7` plus the contributions of the buckets. -/
theorem accumulates_onto_initial_matrix_witness :
    (create_coupling_mass_matrix unconstrained Example.cache Example.o_fe_v Example.space_dh
        Example.immersed_dh Example.fe_v (⟨3, 3, fun _ _ => 7⟩ : GlobalMatrix Int)
        ⟨[]⟩ ⟨[]⟩).2.el 0 0
      = 7 + ((owned_buckets Example.space_dh Example.immersed_dh.n_active_cells
                (build_containers Example.fe_v.n_q_points Example.immersed_dh.n_active_cells
                  (located Example.cache Example.fe_v.toQuadraturePoints
                    Example.immersed_dh))).map
              (fun bk => contribution
                (local_block Example.space_dh Example.immersed_dh Example.fe_v Example.o_fe_v
                  (global_to_local Example.space_dh.get_fe.n_components
                    (effective_mask ⟨[]⟩ Example.space_dh.get_fe.n_components))
                  (global_to_local Example.immersed_dh.get_fe.n_components
                    (effective_mask ⟨[]⟩ Example.immersed_dh.get_fe.n_components))
                  bk.j bk.ocell bk.qps bk.ids)
                (Example.space_dh.get_dof_indices bk.ocell)
                (Example.immersed_dh.get_dof_indices bk.j) 0 0)).sum :=
  (accumulates_onto_initial_matrix Example.cache Example.o_fe_v Example.space_dh
    Example.immersed_dh Example.fe_v (⟨3, 3, fun _ _ => 7⟩ : GlobalMatrix Int)
    ⟨[]⟩ ⟨[]⟩).2.2.2.2 (by decide) 0 0

theorem bucket_local_fst {R : Type} (cell : Cell) (qpoint : R) (n_pt : Nat)
    (L : List Cell × List (List R) × List (List Nat)) :
    (bucket_local cell qpoint n_pt L).1 =
      if L.1.isEmpty then L.1 ++ [cell]
      else if L.1.getLast? = some cell then L.1
      else if L.1.dropLast.indexOf cell = L.1.length - 1 then L.1 ++ [cell]
      else L.1 := by
  unfold bucket_local
  split_ifs <;> rfl

theorem sublist_snoc_not_last (cs l : List Cell) (b : Cell) (hb : b ∉ l)
    (hs : cs.Sublist (l ++ [b])) (hlast : cs.getLast? ≠ some b) : cs.Sublist l ∧ b ∉ cs := by
  obtain ⟨l1, l2, rfl, h1, h2⟩ := List.sublist_append_iff.1 hs
  have hl2 : l2 = [] := by
    rcases List.sublist_singleton.1 h2 with h | h
    · exact h
    · exfalso
      apply hlast
      rw [h]
      simp
  subst hl2
  rw [List.append_nil] at hlast ⊢
  exact ⟨h1, fun hm => hb (h1.subset hm)⟩

theorem bucket_step_sublist {R : Type} (n_q : Nat) (l : List Cell) (b : Cell) (hb : b ∉ l)
    (qpoint : R) (idx : Nat) (st : Containers R)
    (h : ∀ c, (st.cell_container.getD c []).Sublist (l ++ [b])) :
    (∀ c, ((bucket_step n_q b qpoint idx st).cell_container.getD c []).Sublist (l ++ [b])) ∧
    (bucket_branch n_q b idx st = .open_empty ∨ bucket_branch n_q b idx st = .append_back ∨
      bucket_branch n_q b idx st = .open_scan) := by
  rw [bucket_step_eq]
  simp only [bucket_local_fst, Containers.bucket_lists]
  unfold bucket_branch
  simp only
  have hcs := h (idx / n_q)
  by_cases h1 : (st.cell_container.getD (idx / n_q) []).isEmpty
  · simp only [h1, if_true]
    refine ⟨?_, Or.inl trivial⟩
    intro c
    rw [getD_set_nil]
    split_ifs
    · rw [List.isEmpty_iff.1 h1]
      exact List.sublist_append_right l [b]
    · exact h c
  · simp only [h1, Bool.false_eq_true, if_false]
    by_cases h2 : (st.cell_container.getD (idx / n_q) []).getLast? = some b
    · simp only [h2, if_true]
      refine ⟨?_, Or.inr (Or.inl trivial)⟩
      intro c
      rw [getD_set_nil]
      split_ifs with hc
      · exact hcs
      · exact h c
    · simp only [h2, if_false]
      obtain ⟨g1, g2⟩ := sublist_snoc_not_last _ l b hb hcs h2
      have g3 : b ∉ (st.cell_container.getD (idx / n_q) []).dropLast :=
        fun hm => g2 (List.dropLast_subset _ hm)
      have g4 : (st.cell_container.getD (idx / n_q) []).dropLast.indexOf b
          = (st.cell_container.getD (idx / n_q) []).length - 1 := by
        rw [List.indexOf_eq_length.2 g3, List.length_dropLast]
      simp only [g4, if_true]
      refine ⟨?_, Or.inr (Or.inr trivial)⟩
      intro c
      rw [getD_set_nil]
      split_ifs with hc
      · exact List.Sublist.append g1 (List.Sublist.refl _)
      · exact h c

theorem bucket_cell_traced_spec {R : Type} [Inhabited R] (n_q : Nat) (l : List Cell) (b : Cell)
    (hb : b ∉ l) (qpoints : List R) (mp : List Nat) (m : Nat) (s : Containers R × List Branch)
    (h : ∀ c, (s.1.cell_container.getD c []).Sublist (l ++ [b]))
    (hbr : ∀ br ∈ s.2, br = Branch.open_empty ∨ br = Branch.append_back ∨
      br = Branch.open_scan) :
    ((List.range m).foldl
        (fun s j =>
          (bucket_step n_q b (qpoints.getD j default) (mp.getD j 0) s.1,
            s.2 ++ [bucket_branch n_q b (mp.getD j 0) s.1])) s).1
      = (List.range m).foldl
          (fun s j => bucket_step n_q b (qpoints.getD j default) (mp.getD j 0) s) s.1 ∧
    (∀ c, (((List.range m).foldl
        (fun s j =>
          (bucket_step n_q b (qpoints.getD j default) (mp.getD j 0) s.1,
            s.2 ++ [bucket_branch n_q b (mp.getD j 0) s.1])) s).1.cell_container.getD c
              []).Sublist (l ++ [b])) ∧
    (∀ br ∈ ((List.range m).foldl
        (fun s j =>
          (bucket_step n_q b (qpoints.getD j default) (mp.getD j 0) s.1,
            s.2 ++ [bucket_branch n_q b (mp.getD j 0) s.1])) s).2,
      br = Branch.open_empty ∨ br = Branch.append_back ∨ br = Branch.open_scan) ∧
    ((List.range m).foldl
        (fun s j =>
          (bucket_step n_q b (qpoints.getD j default) (mp.getD j 0) s.1,
            s.2 ++ [bucket_branch n_q b (mp.getD j 0) s.1])) s).2.length = s.2.length + m := by
  induction m with
  | zero => exact ⟨rfl, h, hbr, rfl⟩
  | succ m ih =>
    obtain ⟨i1, i2, i3, i4⟩ := ih
    rw [List.range_succ, List.foldl_append, List.foldl_append]
    simp only [List.foldl_cons, List.foldl_nil]
    obtain ⟨g1, g2⟩ := bucket_step_sublist n_q l b hb (qpoints.getD m default) (mp.getD m 0)
      _ i2
    refine ⟨by rw [i1], g1, ?_, ?_⟩
    · intro br hbr
      rcases List.mem_append.1 hbr with hm | hm
      · exact i3 br hm
      · rw [List.mem_singleton] at hm
        rw [hm]
        exact g2
    · rw [List.length_append, i4]
      simp only [List.length_singleton]
      omega

theorem not_mem_take_of_nodup (cells : List Cell) (h : cells.Nodup) (m : Nat)
    (hm : m < cells.length) : cells.getD m default ∉ cells.take m := by
  intro hmem
  rw [List.getD_eq_getElem _ _ hm] at hmem
  obtain ⟨i, hi, he⟩ := List.mem_take_iff_getElem.1 hmem
  have hi1 : i < m := lt_of_lt_of_le hi (min_le_left _ _)
  have := (List.Nodup.getElem_inj_iff h).1 he
  omega

theorem take_succ_getD (cells : List Cell) (m : Nat) (hm : m < cells.length) :
    cells.take (m + 1) = cells.take m ++ [cells.getD m default] := by
  rw [List.take_succ, List.getElem?_eq_getElem hm, List.getD_eq_getElem _ _ hm]
  rfl

theorem build_containers_traced_spec {R : Type} [Inhabited R] (n_q n_active_c : Nat)
    (cpm : PointLocations R) (hnd : cpm.cells.Nodup) (m : Nat) (hm : m ≤ cpm.cells.length) :
    ((List.range m).foldl
        (fun s o => bucket_cell_traced n_q (cpm.cells.getD o default)
          (cpm.qpoints.getD o []) (cpm.maps.getD o []) s)
        (empty_containers R n_active_c, [])).1
      = (List.range m).foldl
          (fun s o => bucket_cell n_q (cpm.cells.getD o default) (cpm.qpoints.getD o [])
            (cpm.maps.getD o []) s) (empty_containers R n_active_c) ∧
    (∀ c, (((List.range m).foldl
        (fun s o => bucket_cell_traced n_q (cpm.cells.getD o default)
          (cpm.qpoints.getD o []) (cpm.maps.getD o []) s)
        (empty_containers R n_active_c, [])).1.cell_container.getD c []).Sublist
          (cpm.cells.take m)) ∧
    (∀ br ∈ ((List.range m).foldl
        (fun s o => bucket_cell_traced n_q (cpm.cells.getD o default)
          (cpm.qpoints.getD o []) (cpm.maps.getD o []) s)
        (empty_containers R n_active_c, [])).2,
      br = Branch.open_empty ∨ br = Branch.append_back ∨ br = Branch.open_scan) ∧
    ((List.range m).foldl
        (fun s o => bucket_cell_traced n_q (cpm.cells.getD o default)
          (cpm.qpoints.getD o []) (cpm.maps.getD o []) s)
        (empty_containers R n_active_c, [])).2.length
      = ((List.range m).map (fun o => (cpm.maps.getD o []).length)).sum := by
  induction m with
  | zero =>
    refine ⟨rfl, ?_, ?_, rfl⟩
    · intro c
      simp [empty_containers, getD_replicate_nil]
    · intro br hbr
      simp at hbr
  | succ m ih =>
    obtain ⟨i1, i2, i3, i4⟩ := ih (by omega)
    have hm1 : m < cpm.cells.length := by omega
    rw [List.range_succ, List.foldl_append, List.foldl_append, List.map_append, List.sum_append]
    simp only [List.foldl_cons, List.foldl_nil, List.map_cons, List.map_nil, List.sum_cons,
      List.sum_nil, add_zero]
    rw [take_succ_getD cpm.cells m hm1]
    have hsub : ∀ c, (((List.range m).foldl
        (fun s o => bucket_cell_traced n_q (cpm.cells.getD o default)
          (cpm.qpoints.getD o []) (cpm.maps.getD o []) s)
        (empty_containers R n_active_c, [])).1.cell_container.getD c []).Sublist
          (cpm.cells.take m ++ [cpm.cells.getD m default]) :=
      fun c => (i2 c).trans (List.sublist_append_left _ _)
    obtain ⟨g1, g2, g3, g4⟩ := bucket_cell_traced_spec n_q (cpm.cells.take m)
      (cpm.cells.getD m default) (not_mem_take_of_nodup cpm.cells hnd m hm1)
      (cpm.qpoints.getD m []) (cpm.maps.getD m []) (cpm.maps.getD m []).length _ hsub i3
    refine ⟨?_, g2, g3, ?_⟩
    · exact g1.trans (by rw [i1]; rfl)
    · exact g4.trans (by rw [i4])

/-- C20. When the locator lists each background cell at most once, the linear
scan of the bucket-building loop never finds an existing bucket.  The traced
loop builds the same containers as the loop itself and records one branch per
visited point; with pairwise distinct `all_cells` every recorded branch is
"open a bucket in an empty list", "append to the most recently appended bucket"
or "scan without success and open a bucket": the branch "found at position
`pos`" never occurs, and the handles of every immersed cell form a sublist of
`all_cells`, so buckets appear in the order of the locator's cell list. -/
theorem scan_branch_unreachable_for_distinct_cells {R : Type} [Inhabited R]
    (n_q_points n_active_c : Nat) (cpm : PointLocations R) (hnd : cpm.cells.Nodup) :
    (build_containers_traced n_q_points n_active_c cpm).1
      = build_containers n_q_points n_active_c cpm ∧
    (build_containers_traced n_q_points n_active_c cpm).2.length
      = ((List.range cpm.cells.length).map (fun o => (cpm.maps.getD o []).length)).sum ∧
    (∀ br ∈ (build_containers_traced n_q_points n_active_c cpm).2,
      br = Branch.open_empty ∨ br = Branch.append_back ∨ br = Branch.open_scan) ∧
    (∀ pos, Branch.found_at pos ∉ (build_containers_traced n_q_points n_active_c cpm).2) ∧
    ∀ c, ((build_containers n_q_points n_active_c cpm).cell_container.getD c []).Sublist
      cpm.cells := by
  obtain ⟨h1, h2, h3, h4⟩ := build_containers_traced_spec n_q_points n_active_c cpm hnd
    cpm.cells.length (le_refl _)
  have e1 : (build_containers_traced n_q_points n_active_c cpm).1
      = build_containers n_q_points n_active_c cpm := h1
  refine ⟨e1, h4, h3, ?_, ?_⟩
  · intro pos hmem
    rcases h3 _ hmem with h | h | h <;> cases h
  · intro c
    rw [← e1]
    have := h2 c
    rw [List.take_length] at this
    exact this

/-- Witness of C20: the locator result of the example lists the cells `0` and
`1` once each. -/
theorem scan_branch_unreachable_for_distinct_cells_witness :
    Branch.found_at 0 ∉ (build_containers_traced 2 2
      (⟨[0, 1], [[100, 101, 102], [103]], [[0, 1, 2], [3]]⟩ : PointLocations Nat)).2 :=
  (scan_branch_unreachable_for_distinct_cells 2 2
    (⟨[0, 1], [[100, 101, 102], [103]], [[0, 1, 2], [3]]⟩ : PointLocations Nat)
    (by decide)).2.2.2.1 0

theorem foldlM_some_of_inv {α β : Type} (f : β → α → Option β) (g : β → α → β)
    (Inv : β → Prop) (Pa : α → Prop)
    (hstep : ∀ b a, Inv b → Pa a → f b a = some (g b a) ∧ Inv (g b a)) :
    ∀ (l : List α) (b : β), (∀ a ∈ l, Pa a) → Inv b →
      l.foldlM f b = some (l.foldl g b) ∧ Inv (l.foldl g b) := by
  intro l
  induction l with
  | nil => intro b _ hb; exact ⟨rfl, hb⟩
  | cons a l ih =>
    intro b hl hb
    obtain ⟨h1, h2⟩ := hstep b a hb (hl a (List.mem_cons_self _ _))
    rw [List.foldlM_cons, h1, List.foldl_cons]
    exact ih (g b a) (fun x hx => hl x (List.mem_cons_of_mem _ hx)) h2

theorem decode_in_range (n n_q idx : Nat) (h : idx < n * n_q) :
    n_q ≠ 0 ∧ idx / n_q < n ∧ idx % n_q < n_q := by
  have hq : 0 < n_q := by
    rcases Nat.eq_zero_or_pos n_q with h0 | h0
    · subst h0; simp at h
    · exact h0
  refine ⟨by omega, ?_, Nat.mod_lt _ hq⟩
  rw [Nat.div_lt_iff_lt_mul hq]
  exact h

theorem cluster_step_checked_eq (n_q n : Nat) (all_cells : List Cell) (i : Nat)
    (hi : i < all_cells.length) (st : List (List Cell) × Nat) (idx : Nat)
    (hst : st.1.length = n) (hidx : idx < n * n_q) :
    cluster_step_checked n_q all_cells i st idx
        = some (cluster_step n_q (all_cells.getD i default) st idx) ∧
      (cluster_step n_q (all_cells.getD i default) st idx).1.length = n := by
  obtain ⟨hq, hc, _⟩ := decode_in_range n n_q idx hidx
  unfold cluster_step_checked cluster_step
  simp only [if_neg hq]
  have e1 : st.1[idx / n_q]? = some (st.1.getD (idx / n_q) []) := by
    rw [List.getD_eq_getElem _ _ (hst ▸ hc), List.getElem?_eq_getElem (hst ▸ hc)]
  have e2 : all_cells[i]? = some (all_cells.getD i default) := by
    rw [List.getD_eq_getElem _ _ hi, List.getElem?_eq_getElem hi]
  rw [e1, e2]
  split_ifs with h
  · exact ⟨rfl, by simp [hst]⟩
  · exact ⟨rfl, hst⟩

theorem cluster_cell_checked_eq (n_q n : Nat) (all_cells : List Cell) (i : Nat)
    (hi : i < all_cells.length) (mp : List Nat) (hmp : ∀ idx ∈ mp, idx < n * n_q)
    (cs : List (List Cell)) (hcs : cs.length = n) :
    cluster_cell_checked n_q all_cells i mp cs
        = some (cluster_cell n_q (all_cells.getD i default) mp cs) ∧
      (cluster_cell n_q (all_cells.getD i default) mp cs).length = n := by
  obtain ⟨h1, h2⟩ := foldlM_some_of_inv (cluster_step_checked n_q all_cells i)
    (cluster_step n_q (all_cells.getD i default)) (fun st => st.1.length = n)
    (fun idx => idx < n * n_q)
    (fun st idx hst hidx => cluster_step_checked_eq n_q n all_cells i hi st idx hst hidx)
    mp (cs, UINT_MAX) hmp hcs
  unfold cluster_cell_checked cluster_cell
  rw [h1]
  exact ⟨rfl, h2⟩

theorem build_cell_sets_checked_eq (n_q n : Nat) (all_cells : List Cell)
    (maps : List (List Nat)) (hlen : maps.length ≤ all_cells.length)
    (hidx : ∀ mp ∈ maps, ∀ idx ∈ mp, idx < n * n_q) :
    build_cell_sets_checked n_q n all_cells maps = some (build_cell_sets n_q n all_cells maps) := by
  unfold build_cell_sets_checked build_cell_sets
  refine (foldlM_some_of_inv
    (fun cs i => cluster_cell_checked n_q all_cells i (maps.getD i []) cs)
    (fun cs i => cluster_cell n_q (all_cells.getD i default) (maps.getD i []) cs)
    (fun cs => cs.length = n) (fun i => i < maps.length) ?_ _ _ ?_ ?_).1
  · intro cs i hcs hi
    refine cluster_cell_checked_eq n_q n all_cells i (lt_of_lt_of_le hi hlen) _ ?_ cs hcs
    rw [List.getD_eq_getElem _ _ hi]
    exact hidx _ (List.getElem_mem _)
  · intro i hi
    exact List.mem_range.1 hi
  · simp

theorem bucket_step_checked_eq {R : Type} [Inhabited R] (n_q n : Nat) (all_cells : List Cell)
    (all_qpoints : List (List R)) (o j idx : Nat) (st : Containers R)
    (ho : o < all_cells.length)
    (hj : j < (all_qpoints.getD o []).length) (hidx : idx < n * n_q)
    (hst : ∃ pr, ContainersInv n_q n pr st) :
    bucket_step_checked n_q all_cells all_qpoints o j idx st
        = some (bucket_step n_q (all_cells.getD o default)
            ((all_qpoints.getD o []).getD j default) idx st) ∧
      ∃ pr, ContainersInv n_q n pr (bucket_step n_q (all_cells.getD o default)
            ((all_qpoints.getD o []).getD j default) idx st) := by
  obtain ⟨pr, hinv⟩ := hst
  have hoq : o < all_qpoints.length := by
    by_contra hcon
    rw [getD_nil_of_le _ _ (not_lt.1 hcon)] at hj
    exact absurd hj (by simp)
  refine ⟨?_, _, containersInv_step hinv
    (all_cells.getD o default, (all_qpoints.getD o []).getD j default, idx)⟩
  obtain ⟨hq, hc, _⟩ := decode_in_range n n_q idx hidx
  obtain ⟨h1, h2, h3, h4⟩ := hinv
  obtain ⟨g1, g2, _, _, _⟩ := h4 _ hc
  simp only [Containers.bucket_lists] at g1 g2
  have e1 : st.cell_container[idx / n_q]? = some (st.cell_container.getD (idx / n_q) []) := by
    rw [List.getD_eq_getElem _ _ (h1 ▸ hc), List.getElem?_eq_getElem (h1 ▸ hc)]
  have e2 : st.qpoints_container[idx / n_q]?
      = some (st.qpoints_container.getD (idx / n_q) []) := by
    rw [List.getD_eq_getElem _ _ (h2 ▸ hc), List.getElem?_eq_getElem (h2 ▸ hc)]
  have e3 : st.maps_container[idx / n_q]? = some (st.maps_container.getD (idx / n_q) []) := by
    rw [List.getD_eq_getElem _ _ (h3 ▸ hc), List.getElem?_eq_getElem (h3 ▸ hc)]
  have e4 : all_cells[o]? = some (all_cells.getD o default) := by
    rw [List.getD_eq_getElem _ _ ho, List.getElem?_eq_getElem ho]
  have e5 : (all_qpoints[o]?).bind (fun qp => qp[j]?)
      = some ((all_qpoints.getD o []).getD j default) := by
    rw [List.getD_eq_getElem _ _ hoq] at hj ⊢
    rw [List.getElem?_eq_getElem hoq, Option.some_bind, List.getElem?_eq_getElem hj,
      List.getD_eq_getElem _ _ hj]
  unfold bucket_step_checked bucket_step
  simp only [if_neg hq]
  rw [e1, e2, e3, e4, e5]
  simp only
  by_cases c1 : (st.cell_container.getD (idx / n_q) []).isEmpty
  · simp only [c1, if_true]
  · simp only [c1, Bool.false_eq_true, if_false]
    have hne : (st.cell_container.getD (idx / n_q) []) ≠ [] := fun h => c1 (by rw [h]; rfl)
    have hpos : 0 < (st.cell_container.getD (idx / n_q) []).length :=
      List.length_pos.2 hne
    by_cases c2 : (st.cell_container.getD (idx / n_q) []).getLast? = some (all_cells.getD o default)
    · simp only [c2, if_true]
      have q1 : (st.qpoints_container.getD (idx / n_q) []).isEmpty = false := by
        rw [List.isEmpty_eq_false]
        exact List.length_pos.1 (g1 ▸ hpos)
      have q2 : (st.maps_container.getD (idx / n_q) []).isEmpty = false := by
        rw [List.isEmpty_eq_false]
        exact List.length_pos.1 (g2 ▸ hpos)
      simp only [q1, q2, Bool.or_self, Bool.false_eq_true, if_false]
    · simp only [c2, if_false]
      rw [if_neg (by omega)]
      by_cases c3 : (st.cell_container.getD (idx / n_q) []).dropLast.indexOf
          (all_cells.getD o default) = (st.cell_container.getD (idx / n_q) []).length - 1
      · simp only [c3, if_true]
      · simp only [c3, if_false]
        have hle : (st.cell_container.getD (idx / n_q) []).dropLast.indexOf
            (all_cells.getD o default)
              ≤ (st.cell_container.getD (idx / n_q) []).dropLast.length := List.indexOf_le_length
        rw [List.length_dropLast] at hle
        rw [if_pos (by constructor <;> omega)]

theorem bucket_cell_checked_eq {R : Type} [Inhabited R] (n_q n : Nat) (cpm : PointLocations R)
    (o : Nat) (ho : o < cpm.cells.length) (hom : o < cpm.maps.length)
    (hpar : (cpm.qpoints.getD o []).length = (cpm.maps.getD o []).length)
    (hidx : ∀ idx ∈ cpm.maps.getD o [], idx < n * n_q) (st : Containers R)
    (hst : ∃ pr, ContainersInv n_q n pr st) :
    bucket_cell_checked n_q cpm.cells cpm.qpoints cpm.maps o st
        = some (bucket_cell n_q (cpm.cells.getD o default) (cpm.qpoints.getD o [])
            (cpm.maps.getD o []) st) ∧
      ∃ pr, ContainersInv n_q n pr (bucket_cell n_q (cpm.cells.getD o default)
        (cpm.qpoints.getD o []) (cpm.maps.getD o []) st) := by
  have e : cpm.maps[o]? = some (cpm.maps.getD o []) := by
    rw [List.getD_eq_getElem _ _ hom, List.getElem?_eq_getElem hom]
  unfold bucket_cell_checked bucket_cell
  rw [e]
  simp only
  refine foldlM_some_of_inv
    (fun s j => bucket_step_checked n_q cpm.cells cpm.qpoints o j ((cpm.maps.getD o []).getD j 0) s)
    (fun s j => bucket_step n_q (cpm.cells.getD o default) ((cpm.qpoints.getD o []).getD j default)
      ((cpm.maps.getD o []).getD j 0) s)
    (fun s => ∃ pr, ContainersInv n_q n pr s) (fun j => j < (cpm.maps.getD o []).length)
    ?_ _ st (fun j hj => List.mem_range.1 hj) hst
  intro s j hs hj
  refine bucket_step_checked_eq n_q n cpm.cells cpm.qpoints o j _ s ho (hpar ▸ hj) ?_ hs
  rw [List.getD_eq_getElem _ _ hj]
  exact hidx _ (List.getElem_mem _)

theorem build_containers_checked_eq {R : Type} [Inhabited R] (n_q n : Nat)
    (cpm : PointLocations R) (hlen : cpm.cells.length ≤ cpm.maps.length)
    (hpar : ∀ o, o < cpm.cells.length →
      (cpm.qpoints.getD o []).length = (cpm.maps.getD o []).length)
    (hidx : ∀ mp ∈ cpm.maps, ∀ idx ∈ mp, idx < n * n_q) :
    build_containers_checked n_q n cpm = some (build_containers n_q n cpm) := by
  unfold build_containers_checked build_containers
  refine (foldlM_some_of_inv
    (fun s o => bucket_cell_checked n_q cpm.cells cpm.qpoints cpm.maps o s)
    (fun s o => bucket_cell n_q (cpm.cells.getD o default) (cpm.qpoints.getD o [])
      (cpm.maps.getD o []) s)
    (fun s => ∃ pr, ContainersInv n_q n pr s) (fun o => o < cpm.cells.length)
    ?_ _ _ (fun o ho => List.mem_range.1 ho) ⟨[], containersInv_init R n_q n⟩).1
  intro s o hs ho
  have hom : o < cpm.maps.length := lt_of_lt_of_le ho hlen
  refine bucket_cell_checked_eq n_q n cpm o ho hom (hpar o ho) ?_ s hs
  rw [List.getD_eq_getElem _ _ hom]
  exact hidx _ (List.getElem_mem _)

theorem located_stream_idx_mem {R : Type} [Inhabited R] (cpm : PointLocations R)
    (t : Cell × R × Nat) (ht : t ∈ located_stream cpm) : ∃ mp ∈ cpm.maps, t.2.2 ∈ mp := by
  obtain ⟨o, _, j, hj, rfl⟩ := (mem_located_stream cpm t).1 ht
  have hom : o < cpm.maps.length := by
    by_contra hcon
    rw [getD_nil_of_le _ _ (not_lt.1 hcon)] at hj
    exact absurd hj (by simp)
  rw [List.getD_eq_getElem _ _ hom] at hj ⊢
  refine ⟨_, List.getElem_mem hom, ?_⟩
  show (cpm.maps[o]).getD j 0 ∈ cpm.maps[o]
  rw [List.getD_eq_getElem _ _ hj]
  exact List.getElem_mem _

/-- C18. Index safety.  When every flat index returned by the locator is smaller
than `n_cells * n_q` and the reference-point list and the index list of every
listed background cell have equal length: every returned index decodes with
`n_q` nonzero to `idx div n_q < n_cells` and `idx mod n_q < n_q` (so with
`n_q = 0` there is no point to decode); in the containers read by the assembly
loop the bucket lists of every immersed cell run in parallel with its handles,
`ids` is as long as `qps`, and every `q = ids[oq]` is smaller than `n_q`; and,
when the locator's index list has one entry per listed background cell, the
clustering loop and the bucket-building loop with every access checked
(division, the four containers at `cell_id`, `back()`, `end() - 1`, the position
found by `std::find`, `all_cells`, `all_maps`, `all_qpoints`) run to the end and
compute what the loops compute. -/
theorem decoded_indices_in_range {R : Type} [Inhabited R] (n_q_points n_active_c : Nat)
    (cpm : PointLocations R)
    (hidx : ∀ mp ∈ cpm.maps, ∀ idx ∈ mp, idx < n_active_c * n_q_points)
    (hpar : ∀ o, o < cpm.cells.length →
      (cpm.qpoints.getD o []).length = (cpm.maps.getD o []).length) :
    (∀ mp ∈ cpm.maps, ∀ idx ∈ mp,
      n_q_points ≠ 0 ∧ idx / n_q_points < n_active_c ∧ idx % n_q_points < n_q_points) ∧
    (n_q_points = 0 → ∀ mp ∈ cpm.maps, mp = []) ∧
    (∀ c, c < n_active_c →
      ((build_containers n_q_points n_active_c cpm).qpoints_container.getD c []).length
        = ((build_containers n_q_points n_active_c cpm).cell_container.getD c []).length ∧
      ((build_containers n_q_points n_active_c cpm).maps_container.getD c []).length
        = ((build_containers n_q_points n_active_c cpm).cell_container.getD c []).length ∧
      ∀ k, k < ((build_containers n_q_points n_active_c cpm).cell_container.getD c []).length →
        (((build_containers n_q_points n_active_c cpm).maps_container.getD c []).getD k []).length
          = (((build_containers n_q_points n_active_c cpm).qpoints_container.getD c []).getD k
              []).length ∧
        ∀ oq, oq < (((build_containers n_q_points n_active_c cpm).qpoints_container.getD c
            []).getD k []).length →
          (((build_containers n_q_points n_active_c cpm).maps_container.getD c []).getD k
            []).getD oq 0 < n_q_points) ∧
    (cpm.maps.length = cpm.cells.length →
      build_cell_sets_checked n_q_points n_active_c cpm.cells cpm.maps
        = some (build_cell_sets n_q_points n_active_c cpm.cells cpm.maps) ∧
      build_containers_checked n_q_points n_active_c cpm
        = some (build_containers n_q_points n_active_c cpm)) := by
  refine ⟨fun mp hmp idx hi => decode_in_range _ _ _ (hidx mp hmp idx hi), ?_, ?_, ?_⟩
  · intro h0 mp hmp
    cases mp with
    | nil => rfl
    | cons idx mp =>
      exact absurd h0 (decode_in_range _ _ _ (hidx _ hmp idx (List.mem_cons_self _ _))).1
  · intro c hc
    obtain ⟨_, _, _, h4⟩ := build_containers_inv n_q_points n_active_c cpm
    obtain ⟨g1, g2, _, _, g5⟩ := h4 c hc
    simp only [Containers.bucket_lists] at g1 g2 g5
    refine ⟨g1, g2, ?_⟩
    intro k hk
    obtain ⟨e1, e2, _⟩ := g5 k hk
    have hl : (((build_containers n_q_points n_active_c cpm).maps_container.getD c []).getD k
        []).length = (((build_containers n_q_points n_active_c cpm).qpoints_container.getD c
          []).getD k []).length := by
      rw [e1, e2, List.length_map, List.length_map]
    refine ⟨hl, ?_⟩
    have hall : ∀ v ∈ ((build_containers n_q_points n_active_c cpm).maps_container.getD c
        []).getD k [], v < n_q_points := by
      intro v hv
      rw [e2] at hv
      obtain ⟨t, ht, hte⟩ := List.mem_map.1 hv
      have ht2 := (List.mem_filter.1 ht).1
      unfold stream_of_cell at ht2
      obtain ⟨u, hu, hut⟩ := List.mem_map.1 ht2
      obtain ⟨mp, hmp, hin⟩ := located_stream_idx_mem cpm u (List.mem_filter.1 hu).1
      rw [← hte, ← hut]
      exact (decode_in_range _ _ _ (hidx mp hmp _ hin)).2.2
    intro oq hoq
    rw [← hl] at hoq
    rw [List.getD_eq_getElem _ _ hoq]
    exact hall _ (List.getElem_mem hoq)
  · intro hlen
    exact ⟨build_cell_sets_checked_eq n_q_points n_active_c cpm.cells cpm.maps (le_of_eq hlen)
        hidx,
      build_containers_checked_eq n_q_points n_active_c cpm (le_of_eq hlen.symm) hpar hidx⟩

/-- Witness of C18: the locator result of the example, two immersed cells with two
quadrature points each. -/
theorem decoded_indices_in_range_witness :
    build_containers_checked 2 2
        (⟨[0, 1], [[100, 101, 102], [103]], [[0, 1, 2], [3]]⟩ : PointLocations Nat)
      = some (build_containers 2 2
        (⟨[0, 1], [[100, 101, 102], [103]], [[0, 1, 2], [3]]⟩ : PointLocations Nat)) :=
  ((decoded_indices_in_range 2 2
    (⟨[0, 1], [[100, 101, 102], [103]], [[0, 1, 2], [3]]⟩ : PointLocations Nat)
    (by decide) (by decide)).2.2.2 rfl).2

theorem count_not_listed (N : Nat) (L : List Nat) (hL : ∀ x ∈ L, x < N) (hnd : L.Nodup) :
    ((List.range N).filter (fun p => !(L.contains p))).length = N - L.length := by
  have h1 := List.length_eq_length_filter_add (l := List.range N) (fun p => L.contains p)
  rw [List.length_range] at h1
  have h2 : ((List.range N).filter (fun p => L.contains p)).length = L.length := by
    apply List.Perm.length_eq
    rw [List.perm_ext_iff_of_nodup (List.Nodup.filter _ (List.nodup_range N)) hnd]
    intro p
    simp only [List.mem_filter, List.mem_range, List.contains_eq_any_beq, List.any_eq_true,
      beq_iff_eq, exists_eq_right]
    constructor
    · rintro ⟨_, x, hx, rfl⟩
      exact hx
    · intro h
      exact ⟨hL p h, p, h, rfl⟩
  omega

theorem sparsity_fail_same {P R S : Type} [Inhabited P]
    (ops : SparsityOps S) (cache cache2 : Cache P R) (space_dh : SpaceDoFHandler)
    (immersed_dh : ImmersedDoFHandler) (quad : QuadraturePoints P) (sparsity : S)
    (space_comps immersed_comps : ComponentMask)
    (h : ¬ sparsity_checks_pass ops space_dh immersed_dh sparsity space_comps immersed_comps) :
    create_coupling_sparsity_pattern ops cache space_dh immersed_dh quad sparsity space_comps
        immersed_comps
      = create_coupling_sparsity_pattern ops cache2 space_dh immersed_dh quad sparsity
          space_comps immersed_comps := by
  unfold create_coupling_sparsity_pattern sparsity_checks_pass at *
  simp only
  split_ifs with h1 h2 h3 h4 h5
  · rfl
  · rfl
  · rfl
  · rfl
  · rfl
  · exact absurd ⟨not_not.1 h1, not_not.1 h2, by simpa using h3, not_not.1 h4,
      not_not.1 h5⟩ h

theorem matrix_fail_same {P R M K : Type} [Inhabited P] [Inhabited R]
    [Zero K] [Add K] [Mul K]
    (ops : MatrixOps M K) (cache cache2 : Cache P R) (o_fe_v : SpaceFEValues R K)
    (space_dh : SpaceDoFHandler) (immersed_dh : ImmersedDoFHandler)
    (fe_v : ImmersedFEValues P K) (matrix : M)
    (space_comps immersed_comps : ComponentMask)
    (h : ¬ matrix_checks_pass ops space_dh immersed_dh matrix space_comps immersed_comps) :
    create_coupling_mass_matrix ops cache o_fe_v space_dh immersed_dh fe_v matrix space_comps
        immersed_comps
      = create_coupling_mass_matrix ops cache2 o_fe_v space_dh immersed_dh fe_v matrix
          space_comps immersed_comps := by
  unfold create_coupling_mass_matrix matrix_checks_pass at *
  simp only
  split_ifs with h1 h2 h3 h4 h5
  · rfl
  · rfl
  · rfl
  · rfl
  · rfl
  · exact absurd ⟨not_not.1 h1, not_not.1 h2, by simpa using h3, not_not.1 h4,
      not_not.1 h5⟩ h

theorem sparsity_calls_not_owned {P R : Type} [Inhabited P] (cache : Cache P R)
    (space_dh : SpaceDoFHandler) (immersed_dh : ImmersedDoFHandler) (quad : QuadraturePoints P)
    (hloc : ValidLocator cache quad immersed_dh)
    (hgh : ∀ b c, has_located_point quad.n_q_points (located cache quad immersed_dh) b c →
      space_dh.is_locally_owned b = false) :
    sparsity_calls space_dh immersed_dh.n_active_cells
        (build_cell_sets quad.n_q_points immersed_dh.n_active_cells
          (located cache quad immersed_dh).cells (located cache quad immersed_dh).maps) = [] := by
  apply List.eq_nil_iff_forall_not_mem.2
  intro p hp
  obtain ⟨_, ho, hl⟩ := (sparsity_calls_located cache space_dh immersed_dh quad hloc p).1 hp
  rw [hgh _ _ hl] at ho
  exact absurd ho (by simp)

theorem owned_buckets_not_owned {P R : Type} [Inhabited P] [Inhabited R] (cache : Cache P R)
    (space_dh : SpaceDoFHandler) (immersed_dh : ImmersedDoFHandler) (quad : QuadraturePoints P)
    (hloc : ValidLocator cache quad immersed_dh)
    (hgh : ∀ b c, has_located_point quad.n_q_points (located cache quad immersed_dh) b c →
      space_dh.is_locally_owned b = false) :
    owned_buckets space_dh immersed_dh.n_active_cells
        (build_containers quad.n_q_points immersed_dh.n_active_cells
          (located cache quad immersed_dh)) = [] := by
  apply List.eq_nil_iff_forall_not_mem.2
  intro bk hbk
  obtain ⟨_, ho, hl⟩ := owned_buckets_located cache space_dh immersed_dh quad hloc bk hbk
  rw [hgh _ _ hl] at ho
  exact absurd ho (by simp)

/-- Counterexample to C16 as stated: neither operation exposes the count of
unmatched points.  On the example, a locator that finds no point (four unmatched
points) and a locator that finds all four points in the ghost cell (no unmatched
point) give the same outcome and the same output, for the sparsity builder and
for the assembler; so no function of what an operation returns or writes is the
unmatched-point count. -/
theorem unmatched_count_exposed_counterexample :
    (¬ ∃ count : Except Exc Unit × SparsityPattern → Nat,
      count (create_coupling_sparsity_pattern registering_constraints Example.cache_outside
          Example.space_dh Example.immersed_dh Example.fe_v.toQuadraturePoints ⟨3, 3, []⟩
          ⟨[]⟩ ⟨[]⟩)
        = unmatched_point_count 4
            (located Example.cache_outside Example.fe_v.toQuadraturePoints
              Example.immersed_dh) ∧
      count (create_coupling_sparsity_pattern registering_constraints Example.cache_ghost
          Example.space_dh Example.immersed_dh Example.fe_v.toQuadraturePoints ⟨3, 3, []⟩
          ⟨[]⟩ ⟨[]⟩)
        = unmatched_point_count 4
            (located Example.cache_ghost Example.fe_v.toQuadraturePoints
              Example.immersed_dh)) ∧
    (¬ ∃ count : Except Exc Unit × GlobalMatrix Int → Nat,
      count (create_coupling_mass_matrix unconstrained Example.cache_outside Example.o_fe_v
          Example.space_dh Example.immersed_dh Example.fe_v (GlobalMatrix.zero 3 3)
          ⟨[]⟩ ⟨[]⟩)
        = unmatched_point_count 4
            (located Example.cache_outside Example.fe_v.toQuadraturePoints
              Example.immersed_dh) ∧
      count (create_coupling_mass_matrix unconstrained Example.cache_ghost Example.o_fe_v
          Example.space_dh Example.immersed_dh Example.fe_v (GlobalMatrix.zero 3 3)
          ⟨[]⟩ ⟨[]⟩)
        = unmatched_point_count 4
            (located Example.cache_ghost Example.fe_v.toQuadraturePoints
              Example.immersed_dh)) := by
  have hc : unmatched_point_count 4
        (located Example.cache_outside Example.fe_v.toQuadraturePoints Example.immersed_dh)
      ≠ unmatched_point_count 4
        (located Example.cache_ghost Example.fe_v.toQuadraturePoints Example.immersed_dh) := by
    decide
  have es : create_coupling_sparsity_pattern registering_constraints Example.cache_outside
        Example.space_dh Example.immersed_dh Example.fe_v.toQuadraturePoints ⟨3, 3, []⟩
        ⟨[]⟩ ⟨[]⟩
      = create_coupling_sparsity_pattern registering_constraints Example.cache_ghost
        Example.space_dh Example.immersed_dh Example.fe_v.toQuadraturePoints ⟨3, 3, []⟩
        ⟨[]⟩ ⟨[]⟩ := by
    rfl
  have em : create_coupling_mass_matrix unconstrained Example.cache_outside Example.o_fe_v
        Example.space_dh Example.immersed_dh Example.fe_v (GlobalMatrix.zero 3 3 : GlobalMatrix Int)
        ⟨[]⟩ ⟨[]⟩
      = create_coupling_mass_matrix unconstrained Example.cache_ghost Example.o_fe_v
        Example.space_dh Example.immersed_dh Example.fe_v (GlobalMatrix.zero 3 3)
        ⟨[]⟩ ⟨[]⟩ := by
    rfl
  constructor
  · rintro ⟨count, h1, h2⟩
    rw [es] at h1
    exact hc (h1.symm.trans h2)
  · rintro ⟨count, h1, h2⟩
    rw [em] at h1
    exact hc (h1.symm.trans h2)

/-- C16, amended. The count of unmatched points is determined by the locator
result and is not exposed by the operations.  For a locator that respects its
contract and returns every point at most once, with `n_cells * n_q` an
`unsigned int`: the number of batch points it did not return is
`n_cells * n_q` minus the number of located points, and it is `n_cells * n_q`
when the locator returns no point (the immersed mesh lies entirely outside the
background domain).  Two such locator results whose located points all lie in
background cells that are not locally owned give the same outcome and the same
output in both operations, whatever their numbers of located points. -/
theorem unmatched_count_of_locator_result {P R K : Type} [Inhabited P] [Inhabited R]
    [Zero K] [Add K] [Mul K] (cache cache2 : Cache P R) (o_fe_v : SpaceFEValues R K)
    (space_dh : SpaceDoFHandler) (immersed_dh : ImmersedDoFHandler)
    (fe_v : ImmersedFEValues P K)
    (hno : immersed_dh.n_active_cells * fe_v.n_q_points < 2 ^ 32)
    (hloc : ValidLocator cache fe_v.toQuadraturePoints immersed_dh)
    (hnd : (located cache fe_v.toQuadraturePoints immersed_dh).maps.flatten.Nodup) :
    unmatched_point_count
        (collect_all_points fe_v.toQuadraturePoints immersed_dh.n_active_cells).length
        (located cache fe_v.toQuadraturePoints immersed_dh)
      = immersed_dh.n_active_cells * fe_v.n_q_points
        - (located cache fe_v.toQuadraturePoints immersed_dh).maps.flatten.length ∧
    ((∀ mp ∈ (located cache fe_v.toQuadraturePoints immersed_dh).maps, mp = []) →
      unmatched_point_count
          (collect_all_points fe_v.toQuadraturePoints immersed_dh.n_active_cells).length
          (located cache fe_v.toQuadraturePoints immersed_dh)
        = immersed_dh.n_active_cells * fe_v.n_q_points) ∧
    (ValidLocator cache2 fe_v.toQuadraturePoints immersed_dh →
      (∀ b c, has_located_point fe_v.n_q_points
          (located cache fe_v.toQuadraturePoints immersed_dh) b c →
        space_dh.is_locally_owned b = false) →
      (∀ b c, has_located_point fe_v.n_q_points
          (located cache2 fe_v.toQuadraturePoints immersed_dh) b c →
        space_dh.is_locally_owned b = false) →
      (∀ (S : Type) (ops : SparsityOps S) (sparsity : S)
          (space_comps immersed_comps : ComponentMask),
        create_coupling_sparsity_pattern ops cache space_dh immersed_dh
            fe_v.toQuadraturePoints sparsity space_comps immersed_comps
          = create_coupling_sparsity_pattern ops cache2 space_dh immersed_dh
            fe_v.toQuadraturePoints sparsity space_comps immersed_comps) ∧
      (∀ (M : Type) (ops : MatrixOps M K) (matrix : M)
          (space_comps immersed_comps : ComponentMask),
        create_coupling_mass_matrix ops cache o_fe_v space_dh immersed_dh fe_v matrix
            space_comps immersed_comps
          = create_coupling_mass_matrix ops cache2 o_fe_v space_dh immersed_dh fe_v matrix
            space_comps immersed_comps)) := by
  have hlen : (collect_all_points fe_v.toQuadraturePoints immersed_dh.n_active_cells).length
      = immersed_dh.n_active_cells * fe_v.n_q_points := by
    rw [collect_all_points_length, Nat.mod_eq_of_lt hno]
  have hcount : unmatched_point_count
        (collect_all_points fe_v.toQuadraturePoints immersed_dh.n_active_cells).length
        (located cache fe_v.toQuadraturePoints immersed_dh)
      = immersed_dh.n_active_cells * fe_v.n_q_points
        - (located cache fe_v.toQuadraturePoints immersed_dh).maps.flatten.length := by
    unfold unmatched_point_count
    rw [count_not_listed _ _ _ hnd, hlen]
    intro x hx
    obtain ⟨mp, hmp, hxm⟩ := List.mem_flatten.1 hx
    exact hloc.2.2.2 mp hmp x hxm
  refine ⟨hcount, ?_, ?_⟩
  · intro hall
    rw [hcount]
    have : (located cache fe_v.toQuadraturePoints immersed_dh).maps.flatten = [] := by
      apply List.eq_nil_iff_forall_not_mem.2
      intro x hx
      obtain ⟨mp, hmp, hxm⟩ := List.mem_flatten.1 hx
      rw [hall mp hmp] at hxm
      simp at hxm
    rw [this]
    rfl
  · intro hloc2 hg1 hg2
    constructor
    · intro S ops sparsity space_comps immersed_comps
      by_cases hchk : sparsity_checks_pass ops space_dh immersed_dh sparsity space_comps
          immersed_comps
      · rw [sparsity_of_checks_pass _ _ _ _ _ _ _ _ hchk,
          sparsity_of_checks_pass _ _ _ _ _ _ _ _ hchk,
          sparsity_calls_not_owned cache space_dh immersed_dh _ hloc hg1,
          sparsity_calls_not_owned cache2 space_dh immersed_dh _ hloc2 hg2]
      · exact sparsity_fail_same ops cache cache2 space_dh immersed_dh _ sparsity space_comps
          immersed_comps hchk
    · intro M ops matrix space_comps immersed_comps
      by_cases hchk : matrix_checks_pass ops space_dh immersed_dh matrix space_comps
          immersed_comps
      · rw [matrix_of_checks_pass _ _ _ _ _ _ _ _ _ hchk,
          matrix_of_checks_pass _ _ _ _ _ _ _ _ _ hchk,
          owned_buckets_not_owned cache space_dh immersed_dh _ hloc hg1,
          owned_buckets_not_owned cache2 space_dh immersed_dh _ hloc2 hg2]
      · exact matrix_fail_same ops cache cache2 o_fe_v space_dh immersed_dh fe_v matrix
          space_comps immersed_comps hchk

/-- Witness of C16, amended: on the example the locator returns all four points,
so no point is unmatched. -/
theorem unmatched_count_of_locator_result_witness :
    unmatched_point_count
        (collect_all_points Example.fe_v.toQuadraturePoints
          Example.immersed_dh.n_active_cells).length
        (located Example.cache Example.fe_v.toQuadraturePoints Example.immersed_dh)
      = Example.immersed_dh.n_active_cells * Example.fe_v.n_q_points
        - (located Example.cache Example.fe_v.toQuadraturePoints
            Example.immersed_dh).maps.flatten.length :=
  (unmatched_count_of_locator_result Example.cache Example.cache_outside Example.o_fe_v
    Example.space_dh Example.immersed_dh Example.fe_v (by decide) (by decide) (by decide)).1

end NonMatching
